import Mathlib

/-!
# Letterboxd-Tracker: two-pass scraping pipeline

A shallow embedding of `scraper/parser.go`, `scraper/scraper.go` and the parts of
`database/db.go`, `database/queries.go` that the scraper drives or that read its rows
back (`MovieExists`, `AddMovie`, `scanMovie`, `GetAllMovies`).

Go strings are modelled by `String` (the functions work on the character list),
Go `int` by `Int` with explicit 64-bit bounds, `float64` ratings by `ℚ` (every value
the rating table produces is an exact binary fraction), and a Go result pair
`(value, error)` by a pair whose second component is `none` when the error is `nil`.
-/

namespace Letterboxd

/-! ## The Go string library functions used by the scraper -/

/-- Go `unicode.IsSpace`: the Unicode White_Space code points. -/
def isSpace (c : Char) : Bool :=
  let n := c.toNat
  (0x09 ≤ n && n ≤ 0x0D) || n == 0x20 || n == 0x85 || n == 0xA0 || n == 0x1680 ||
  (0x2000 ≤ n && n ≤ 0x200A) || n == 0x2028 || n == 0x2029 || n == 0x202F ||
  n == 0x205F || n == 0x3000

/-- Characters of a string with the leading white space removed. -/
def trimLeft (cs : List Char) : List Char := cs.dropWhile isSpace

/-- Characters of a string with the trailing white space removed. -/
def trimRight (cs : List Char) : List Char := (cs.reverse.dropWhile isSpace).reverse

/-- Go `strings.TrimSpace`. -/
def TrimSpace (s : String) : String := ⟨trimRight (trimLeft s.data)⟩

/-- Go `strings.HasPrefix`. -/
def HasPrefix (s pre : String) : Bool := pre.data.isPrefixOf s.data

/-- Go `strings.TrimPrefix`. -/
def TrimPrefix (s pre : String) : String :=
  if HasPrefix s pre then ⟨s.data.drop pre.data.length⟩ else s

/-- Go `strings.HasSuffix`. -/
def HasSuffix (s suf : String) : Bool := suf.data.reverse.isPrefixOf s.data.reverse

/-- Go `strings.TrimSuffix`. -/
def TrimSuffix (s suf : String) : String :=
  if HasSuffix s suf then ⟨s.data.take (s.data.length - suf.data.length)⟩ else s

/-- Substring test on character lists. -/
def containsL : List Char → List Char → Bool
  | [], sub => sub.isPrefixOf []
  | c :: cs, sub => sub.isPrefixOf (c :: cs) || containsL cs sub

/-- Go `strings.Contains`. -/
def Contains (s substr : String) : Bool := containsL s.data substr.data

/-- Scanner of `strings.Fields`: `cur` is the token being read, reversed. -/
def fieldsL : List Char → List Char → List (List Char)
  | [], cur => if cur.isEmpty then [] else [cur.reverse]
  | c :: cs, cur =>
    if isSpace c then
      if cur.isEmpty then fieldsL cs [] else cur.reverse :: fieldsL cs []
    else fieldsL cs (c :: cur)

/-- Go `strings.Fields`: the maximal runs of non-space characters. -/
def Fields (s : String) : List String := (fieldsL s.data []).map String.mk

/-- Scanner of `strings.Split` for a one-character separator. -/
def splitL (sep : Char) : List Char → List Char → List (List Char)
  | [], cur => [cur.reverse]
  | c :: cs, cur =>
    if c = sep then cur.reverse :: splitL sep cs [] else splitL sep cs (c :: cur)

/-- Go `strings.Split(s, sep)` for the one-character separators the parser uses
(`"h"` and `"m"`). -/
def Split (s : String) (sep : Char) : List String := (splitL sep s.data []).map String.mk

/-- Go `strings.Join`. -/
def Join : List String → String → String
  | [], _ => ""
  | [a], _ => a
  | a :: b :: rest, sep => a ++ sep ++ Join (b :: rest) sep

/-! ## `strconv.Atoi` (64-bit `int`) -/

/-- The two error kinds of `strconv.NumError`. -/
inductive NumError where
  | ErrSyntax
  | ErrRange
  deriving DecidableEq, Repr

/-- Largest `uint64`. -/
def maxUint64 : Nat := 2 ^ 64 - 1

/-- Largest `int` (64-bit). -/
def maxInt : Int := 2 ^ 63 - 1

/-- Smallest `int` (64-bit). -/
def minInt : Int := -(2 ^ 63)

/-- Digit loop of `strconv.ParseUint(s, 10, 64)`: a non-digit is a syntax error with
value 0; an overflow stops the scan at once with the maximal value and a range error. -/
def parseUintLoop : List Char → Nat → Nat × Option NumError
  | [], n => (n, none)
  | c :: cs, n =>
    if '0'.toNat ≤ c.toNat ∧ c.toNat ≤ '9'.toNat then
      if n ≥ maxUint64 / 10 + 1 then (maxUint64, some NumError.ErrRange)
      else
        let n1 := n * 10 + (c.toNat - '0'.toNat)
        if n1 > maxUint64 then (maxUint64, some NumError.ErrRange)
        else parseUintLoop cs n1
    else (0, some NumError.ErrSyntax)

/-- Go `strconv.ParseUint(s, 10, 64)`. -/
def ParseUint (cs : List Char) : Nat × Option NumError :=
  if cs.isEmpty then (0, some NumError.ErrSyntax) else parseUintLoop cs 0

/-- Go `strconv.ParseInt(s, 10, 0)` on the characters of `s`. -/
def ParseInt (cs : List Char) : Int × Option NumError :=
  match cs with
  | [] => (0, some NumError.ErrSyntax)
  | c :: rest =>
    let neg : Bool := c = '-'
    let body := if c = '+' ∨ c = '-' then rest else c :: rest
    match ParseUint body with
    | (_, some NumError.ErrSyntax) => (0, some NumError.ErrSyntax)
    | (un, _) =>
      if ¬ neg ∧ un ≥ 2 ^ 63 then (maxInt, some NumError.ErrRange)
      else if neg ∧ un > 2 ^ 63 then (minInt, some NumError.ErrRange)
      else (if neg then -(un : Int) else (un : Int), none)

/-- Go `strconv.Atoi`: its fast path for short inputs computes the same pair as
`ParseInt(s, 10, 0)`, which is the definition used here. -/
def Atoi (s : String) : Int × Option NumError := ParseInt s.data

/-- Two's-complement wrap-around of 64-bit `int` arithmetic. -/
def wrapInt (x : Int) : Int := (x + 2 ^ 63) % 2 ^ 64 - 2 ^ 63

/-! ## `scraper/parser.go` -/

/-- The literal `ratingMap` of `symbolToRating`. -/
def ratingMap : List (String × ℚ) :=
  [("½", 0.5), ("★", 1.0), ("★½", 1.5), ("★★", 2.0), ("★★½", 2.5), ("★★★", 3.0),
   ("★★★½", 3.5), ("★★★★", 4.0), ("★★★★½", 4.5), ("★★★★★", 5.0)]

/-- Lookup in a Go map literal given as its key/value list. -/
def mapLookup (key : String) : List (String × ℚ) → Option ℚ
  | [] => none
  | (k, v) :: rest => if key = k then some v else mapLookup key rest

/-- `symbolToRating` converts star symbols to a numeric rating. -/
def symbolToRating (symbol : String) : ℚ × Option String :=
  match mapLookup symbol ratingMap with
  | some rating => (rating, none)
  | none => (0, some ("unknown rating symbol: " ++ symbol))

/-- `extractLetterboxdID` strips the film-path prefix and one trailing slash. -/
def extractLetterboxdID (url : String) : String :=
  let url := TrimPrefix url "https://letterboxd.com/film/"
  let url := TrimPrefix url "http://letterboxd.com/film/"
  let url := TrimSuffix url "/"
  url

/-- `parseRuntime` extracts the runtime in minutes from the runtime text. -/
def parseRuntime (text : String) : Int :=
  let text := TrimSpace text
  let parts := Fields text
  if 0 < parts.length ∧ (Atoi (parts.headD "")).2 = none then (Atoi (parts.headD "")).1
  else if Contains text "h" ∧ Contains text "m" then
    let hParts := Split text 'h'
    let h := Atoi (TrimSpace (hParts.headD ""))
    let hours : Int := if h.2 = none then h.1 else 0
    let mParts := Split (hParts.getLastD "") 'm'
    let m := Atoi (TrimSpace (mParts.headD ""))
    let minutes : Int := if m.2 = none then m.1 else 0
    wrapInt (hours * 60 + minutes)
  else 0

/-- `parseInt` trims and parses, dropping the error of `Atoi`. -/
def parseInt (s : String) : Int := (Atoi (TrimSpace s)).1

/-- `parseFloat` trims and parses, dropping the error; `ParseFloat` is the value
`strconv.ParseFloat(s, 64)` returns. -/
def parseFloat (ParseFloat : String → ℚ) (s : String) : ℚ := ParseFloat (TrimSpace s)

/-- `parseRating` parses the first field of texts like "4.55 out of 5". -/
def parseRating (ParseFloat : String → ℚ) (text : String) : ℚ :=
  let text := TrimSpace text
  let parts := Fields text
  if 0 < parts.length then parseFloat ParseFloat (parts.headD "") else 0

/-! ## `database/models.go` and the store -/

/-- A `time.Time`: the wall clock reading in its location and the zone offset in
seconds east of UTC. -/
structure Time where
  year : Int
  month : Nat
  day : Nat
  hour : Nat
  minute : Nat
  second : Nat
  nsec : Nat
  offset : Int
  deriving DecidableEq, Repr

/-- The zero `time.Time` (January 1, year 1, 00:00:00 UTC). -/
def Time.zero : Time := ⟨1, 1, 1, 0, 0, 0, 0, 0⟩

/-- The struct `Movie`. -/
structure Movie where
  LetterboxdID : String
  Title : String
  Year : Int
  LetterboxdURL : String
  Rating : ℚ
  LetterboxdRating : ℚ
  Length : Int
  DateAdded : Time
  PosterURL : String
  Director : String
  Cast : String
  Writers : String
  deriving DecidableEq

/-- A row of the table `movies`. -/
structure Row where
  letterboxd_id : String
  title : String
  year : Int
  letterboxd_url : String
  rating : ℚ
  letterboxd_rating : ℚ
  length : Int
  date_added : String
  poster_url : String
  director : String
  cast : String
  writers : String
  deriving DecidableEq

/-- The table `movies`, in insertion order; `letterboxd_id` is its primary key. -/
abbrev Store := List Row

/-- Zero-padded decimal of at least `width` digits (`appendInt` of package `time`). -/
def padInt (n : Nat) (width : Nat) : String :=
  let ds := Nat.toDigits 10 n
  ⟨List.replicate (width - ds.length) '0' ++ ds⟩

/-- The zone suffix of layout element `Z07:00`. -/
def formatZone (offset : Int) : String :=
  if offset = 0 then "Z"
  else
    let zone := Int.tdiv offset 60
    let sign := if zone < 0 then "-" else "+"
    let z := zone.natAbs
    sign ++ padInt (z / 60) 2 ++ ":" ++ padInt (z % 60) 2

/-- `Time.Format(time.RFC3339)`, layout `2006-01-02T15:04:05Z07:00`. -/
def formatRFC3339 (t : Time) : String :=
  (if t.year < 0 then "-" else "") ++ padInt t.year.natAbs 4 ++ "-" ++ padInt t.month 2 ++ "-" ++
  padInt t.day 2 ++ "T" ++ padInt t.hour 2 ++ ":" ++ padInt t.minute 2 ++ ":" ++
  padInt t.second 2 ++ formatZone t.offset

/-- `MovieDB.MovieExists`: `SELECT COUNT(*) ... WHERE letterboxd_id = ?`; `fault` is
the error of the query, if the store reports one. -/
def MovieExists (db : Store) (fault : Option String) (letterboxdID : String) :
    Bool × Option String :=
  match fault with
  | some e => (false, some ("failed to check if movie exists: " ++ e))
  | none =>
    let count := (db.filter (fun r => r.letterboxd_id = letterboxdID)).length
    (decide (count > 0), none)

/-- Where an `AddMovie` call can fail for reasons outside the table contents. -/
inductive AddFault where
  | prepare (e : String)
  | exec (e : String)
  deriving DecidableEq

/-- The row `AddMovie` inserts: the movie's columns and the current time as text. -/
def rowOf (movie : Movie) (now : Time) : Row :=
  { letterboxd_id := movie.LetterboxdID, title := movie.Title, year := movie.Year,
    letterboxd_url := movie.LetterboxdURL, rating := movie.Rating,
    letterboxd_rating := movie.LetterboxdRating, length := movie.Length,
    date_added := formatRFC3339 now, poster_url := movie.PosterURL,
    director := movie.Director, cast := movie.Cast, writers := movie.Writers }

/-- `MovieDB.AddMovie`: a plain `INSERT`; the primary key rejects a second row with
the same `letterboxd_id`. -/
def AddMovie (db : Store) (fault : Option AddFault) (now : Time) (movie : Movie) :
    Store × Option String :=
  match fault with
  | some (AddFault.prepare e) => (db, some ("failed to prepare statement: " ++ e))
  | some (AddFault.exec e) => (db, some ("failed to execute insert: " ++ e))
  | none =>
    if db.any (fun r => r.letterboxd_id = movie.LetterboxdID) then
      (db, some "failed to execute insert: UNIQUE constraint failed: movies.letterboxd_id")
    else (db ++ [rowOf movie now], none)

/-- The rows stored under an identifier. -/
def rowsOf (db : Store) (letterboxdID : String) : List Row :=
  db.filter (fun r => r.letterboxd_id = letterboxdID)

/-! ## The fetched documents, as the selectors of `scraper.go` see them -/

/-- A listing tile `li.griditem`, as the document holds it: its own attributes
`data-film-name` and `data-film-link`; the attributes `data-item-name` and
`data-item-link` of the first descendant matching `div.react-component[data-item-name]`
and `div.react-component[data-item-link]` (empty when there is no such descendant); and
the text contents of all descendants matching `p.poster-viewingdata span.rating`, in
document order. -/
structure Tile where
  dataFilmName : String
  dataFilmLink : String
  dataItemName : String
  dataItemLink : String
  ratingSpans : List String
  deriving DecidableEq

/-- A listing page: its tiles in document order and the number of `a[class=next]`. -/
structure ListingDoc where
  tiles : List Tile
  nextAnchors : Nat
  deriving DecidableEq

/-- An element `div.cast-list a.text-slug`. -/
structure CastLink where
  id : String
  text : String
  deriving DecidableEq

/-- An `h3` of the crew section, with the texts of the `a.text-slug` elements inside
the element that follows it. -/
structure Heading where
  text : String
  links : List String
  deriving DecidableEq

/-- A detail page: for each selector its matches in document order. -/
structure DetailDoc where
  releasedates : List String
  footers : List String
  twitterData2 : List String
  ldjson : List String
  directorLinks : List String
  castLinks : List CastLink
  crew : List (List Heading)
  deriving DecidableEq

/-- Everything outside the program: the pages the site serves, the faults of the
store, the clock, and the library functions that are taken as given.
`visitListing n url` is the outcome of fetching listing page `n`, `visitDetail i url`
of fetching the detail page of item `i`; `jsonImage raw` is `none` when
`json.Unmarshal` fails and otherwise the string under key `image`, if there is one. -/
structure World where
  visitListing : Nat → String → Except String ListingDoc
  visitDetail : Nat → String → Except String DetailDoc
  existsFault : Nat → Option String
  addFault : Nat → Option AddFault
  clock : Nat → Time
  tileClock : Nat → Nat → Time
  ToLower : String → String
  ParseFloat : String → ℚ
  jsonImage : String → Option (Option String)

/-- The calls a sync makes, in order. -/
inductive Event where
  | fetchListing (pageNum : Nat) (url : String)
  | movieExists (i : Nat) (letterboxdID : String)
  | scrapeMovieDetails (i : Nat) (movie : Movie)
  | addMovie (i : Nat) (movie : Movie)
  deriving DecidableEq

/-! ## `scraper/scraper.go` -/

/-- Colly `HTMLElement.ChildAttr`, given the attribute of the first matching element
(empty when nothing matches): the attribute with surrounding white space removed. -/
def ChildAttr (attr : String) : String := TrimSpace attr

/-- Colly `HTMLElement.ChildText`, given the text contents of the matching elements:
their concatenation with surrounding white space removed. -/
def ChildText (texts : List String) : String := TrimSpace (String.join texts)

/-- The `li.griditem` callback of `scrapeFilmsPage`: the record a tile yields. The two
primary attributes are read with `e.Attr`, which returns them as they stand; the
alternates with `e.ChildAttr` and the rating text with `e.ChildText`. -/
def tileMovie (now : Time) (t : Tile) : Option Movie :=
  let title := t.dataFilmName
  let letterboxdURL := t.dataFilmLink
  let alt : Bool := title = "" ∨ letterboxdURL = ""
  let title := if alt then ChildAttr t.dataItemName else title
  let letterboxdURL := if alt then ChildAttr t.dataItemLink else letterboxdURL
  if title = "" ∨ letterboxdURL = "" then none
  else
    let ratingText := ChildText t.ratingSpans
    let rating : ℚ :=
      if ratingText ≠ "" then
        (if (symbolToRating ratingText).2 = none then (symbolToRating ratingText).1 else 0)
      else 0
    some { Title := title, LetterboxdID := extractLetterboxdID letterboxdURL,
           LetterboxdURL := letterboxdURL, Rating := rating, DateAdded := now,
           Year := 0, LetterboxdRating := 0, Length := 0, PosterURL := "",
           Director := "", Cast := "", Writers := "" }

/-- The records of the tiles of a page, in document order. -/
def tileMovies (clock : Nat → Time) : Nat → List Tile → List Movie
  | _, [] => []
  | j, t :: ts =>
    match tileMovie (clock j) t with
    | some m => m :: tileMovies clock (j + 1) ts
    | none => tileMovies clock (j + 1) ts

/-- `scrapeFilmsPage` scrapes a single films list page. -/
def scrapeFilmsPage (w : World) (pageNum : Nat) (url : String) :
    List Movie × Bool × Option String :=
  match w.visitListing pageNum url with
  | Except.error e => ([], false, some ("failed to visit page: " ++ e))
  | Except.ok doc => (tileMovies (w.tileClock pageNum) 0 doc.tiles, decide (doc.nextAnchors > 0), none)

/-- The URL of a listing page. -/
def listingURL (username : String) (pageNum : Nat) : String :=
  "https://www.letterboxd.com/" ++ username ++ "/films/page/" ++ toString pageNum ++ "/"

/-- The `for` loop of `scrapeFilmsList`, run for at most `fuel` pages; `none` when the
fuel is used up before the loop ends. The result carries the fetches made. -/
def scrapeFilmsListLoop (w : World) (username : String) :
    Nat → Nat → List Movie → List Event → Option (List Event × List Movie × Option String)
  | 0, _, _, _ => none
  | fuel + 1, pageNum, allMovies, log =>
    let url := listingURL username pageNum
    let log := log ++ [Event.fetchListing pageNum url]
    match scrapeFilmsPage w pageNum url with
    | (_, _, some err) =>
      some (log, [], some ("failed to scrape page " ++ toString pageNum ++ ": " ++ err))
    | (pageMovies, hasNext, none) =>
      let allMovies := allMovies ++ pageMovies
      if ¬ hasNext then some (log, allMovies, none)
      else scrapeFilmsListLoop w username fuel (pageNum + 1) allMovies log

/-- `scrapeFilmsList` walks the listing pages from page 1. -/
def scrapeFilmsList (w : World) (fuel : Nat) (username : String) :
    Option (List Event × List Movie × Option String) :=
  scrapeFilmsListLoop w username fuel 1 [] []

/-- Appending a name to a comma-joined field. -/
def appendName (field name : String) : String :=
  if field = "" then name else field ++ ", " ++ name

/-- The `span.releasedate` callback. -/
def ruleYear (m : Movie) (yearText : String) : Movie :=
  { m with Year := parseInt yearText }

/-- The `p.text-link.text-footer` callback. -/
def ruleRuntime (m : Movie) (runtimeText : String) : Movie :=
  if runtimeText ≠ "" then { m with Length := parseRuntime runtimeText } else m

/-- The `meta[name='twitter:data2']` callback. -/
def ruleRating (w : World) (m : Movie) (content : String) : Movie :=
  if content ≠ "" then { m with LetterboxdRating := parseRating w.ParseFloat content } else m

/-- The `script[type='application/ld+json']` callback. -/
def rulePoster (w : World) (m : Movie) (raw : String) : Movie :=
  let raw := TrimSpace raw
  let raw := TrimPrefix raw "/* <![CDATA[ */"
  let raw := TrimSuffix raw "/* ]]> */"
  match w.jsonImage raw with
  | none => m
  | some image =>
    if m.PosterURL = "" then
      match image with
      | some img => { m with PosterURL := img }
      | none => m
    else m

/-- The `span.directorlist a` callback. -/
def ruleDirectorLink (m : Movie) (director : String) : Movie :=
  if director ≠ "" then { m with Director := appendName m.Director director } else m

/-- The `div.cast-list a.text-slug` callback; the state carries `castCount`. -/
def ruleCast (w : World) (st : Movie × Nat) (a : CastLink) : Movie × Nat :=
  if a.id = "has-cast-overflow" ∨ Contains (w.ToLower a.text) "show all" then st
  else if st.2 < 30 then
    let actor := TrimSpace a.text
    if actor ≠ "" then ({ st.1 with Cast := appendName st.1.Cast actor }, st.2 + 1) else st
  else st

/-- The inner `Each` of the crew rules: up to five trimmed non-empty names. -/
def collectNames (names : List String) (text : String) : List String :=
  if names.length ≥ 5 then names
  else
    let name := TrimSpace text
    if name ≠ "" then names ++ [name] else names

/-- The heading test of the directors rule. -/
def isDirectorHeading (heading : String) : Bool :=
  Contains heading "Director" && !Contains heading "Assistant" && !Contains heading "Original"

/-- The heading test of the writers rule. -/
def isWriterHeading (heading : String) : Bool :=
  Contains heading "Writer" && !Contains heading "Original" && !Contains heading "Story" &&
    !Contains heading "Screenplay"

/-- The `h3` callback of the first `div#tab-crew` rule. -/
def ruleCrewDirector (m : Movie) (h : Heading) : Movie :=
  let heading := TrimSpace h.text
  if isDirectorHeading heading then
    let directors := h.links.foldl collectNames []
    if directors.length > 0 then { m with Director := Join directors ", " } else m
  else m

/-- The `h3` callback of the second `div#tab-crew` rule. -/
def ruleCrewWriter (m : Movie) (h : Heading) : Movie :=
  let heading := TrimSpace h.text
  if isWriterHeading heading then
    let writers := h.links.foldl collectNames []
    if writers.length > 0 then { m with Writers := Join writers ", " } else m
  else m

/-- The callbacks of `scrapeMovieDetails` run over a fetched page: one rule after the
other in registration order, each over its matches in document order. -/
def applyRules (w : World) (doc : DetailDoc) (movie : Movie) : Movie :=
  let m := doc.releasedates.foldl ruleYear movie
  let m := doc.footers.foldl ruleRuntime m
  let m := doc.twitterData2.foldl (ruleRating w) m
  let m := doc.ldjson.foldl (rulePoster w) m
  let m := doc.directorLinks.foldl ruleDirectorLink m
  let m := (doc.castLinks.foldl (ruleCast w) (m, 0)).1
  let m := doc.crew.foldl (fun m hs => hs.foldl ruleCrewDirector m) m
  let m := doc.crew.foldl (fun m hs => hs.foldl ruleCrewWriter m) m
  m

/-- `scrapeMovieDetails` for item `i`: the enriched record and the error. -/
def scrapeMovieDetails (w : World) (i : Nat) (movie : Movie) : Movie × Option String :=
  let visitURL := movie.LetterboxdURL
  let visitURL := if ¬ HasPrefix visitURL "http" then "https://letterboxd.com" ++ visitURL
    else visitURL
  match w.visitDetail i visitURL with
  | Except.error e => (movie, some ("failed to visit movie page: " ++ e))
  | Except.ok doc => (applyRules w doc movie, none)

/-- The state of pass 2 of `ScrapeUser`. -/
structure SyncState where
  db : Store
  events : List Event
  totalScraped : Nat
  skipped : Nat
  failed : Nat

/-- The state in which pass 2 starts. -/
def startState (db : Store) (log : List Event) : SyncState :=
  { db := db, events := log, totalScraped := 0, skipped := 0, failed := 0 }

/-- One iteration of the loop of pass 2, for item `i`. -/
def processItem (w : World) (i : Nat) (movie : Movie) (st : SyncState) : SyncState :=
  let st := { st with events := st.events ++ [Event.movieExists i movie.LetterboxdID] }
  match MovieExists st.db (w.existsFault i) movie.LetterboxdID with
  | (_, some _) => { st with failed := st.failed + 1 }
  | (true, none) => { st with skipped := st.skipped + 1 }
  | (false, none) =>
    let st := { st with events := st.events ++ [Event.scrapeMovieDetails i movie] }
    match scrapeMovieDetails w i movie with
    | (_, some _) => { st with failed := st.failed + 1 }
    | (movie, none) =>
      let st := { st with events := st.events ++ [Event.addMovie i movie] }
      match AddMovie st.db (w.addFault i) (w.clock i) movie with
      | (_, some _) => { st with failed := st.failed + 1 }
      | (db, none) => { st with db := db, totalScraped := st.totalScraped + 1 }

/-- The loop of pass 2 over the items from index `i` on. -/
def pass2 (w : World) : Nat → List Movie → SyncState → SyncState
  | _, [], st => st
  | i, movie :: rest, st => pass2 w (i + 1) rest (processItem w i movie st)

/-- What a sync leaves behind: the returned error, the store, the calls made and the
three counters. -/
structure SyncResult where
  err : Option String
  db : Store
  events : List Event
  totalScraped : Nat
  skipped : Nat
  failed : Nat

/-- `Scraper.ScrapeUser`; `fuel` bounds the number of listing pages walked. -/
def ScrapeUser (w : World) (fuel : Nat) (db : Store) (username : String) : Option SyncResult :=
  match scrapeFilmsList w fuel username with
  | none => none
  | some (log, _, some err) =>
    some { err := some ("pass 1 failed: " ++ err), db := db, events := log,
           totalScraped := 0, skipped := 0, failed := 0 }
  | some (log, basicMovies, none) =>
    let st := pass2 w 0 basicMovies (startState db log)
    some { err := if st.failed > 0 then
                    some ("scraping completed with " ++ toString st.failed ++ " errors")
                  else none,
           db := st.db, events := st.events, totalScraped := st.totalScraped,
           skipped := st.skipped, failed := st.failed }

/-! ## Observations on the calls of a sync -/

/-- The existence checks among the calls: item index and identifier, in call order. -/
def existsChecks : List Event → List (Nat × String)
  | [] => []
  | Event.movieExists i id :: rest => (i, id) :: existsChecks rest
  | _ :: rest => existsChecks rest

/-- The item indices for which `scrapeMovieDetails` was called. -/
def detailCalls : List Event → List Nat
  | [] => []
  | Event.scrapeMovieDetails i _ :: rest => i :: detailCalls rest
  | _ :: rest => detailCalls rest

/-- The item indices for which `AddMovie` was called. -/
def addCalls : List Event → List Nat
  | [] => []
  | Event.addMovie i _ :: rest => i :: addCalls rest
  | _ :: rest => addCalls rest

/-- The page numbers of the listing fetches among the calls. -/
def fetchedPages : List Event → List Nat
  | [] => []
  | Event.fetchListing n _ :: rest => n :: fetchedPages rest
  | _ :: rest => fetchedPages rest

/-- The state of pass 2 when the loop reaches item `i` of the listing. -/
def reached (w : World) (db : Store) (log : List Event) (basicMovies : List Movie) (i : Nat) :
    SyncState :=
  pass2 w 0 (basicMovies.take i) (startState db log)

/-- The listing with the index of each item. -/
def indexed : Nat → List Movie → List (Nat × String)
  | _, [] => []
  | i, m :: rest => (i, m.LetterboxdID) :: indexed (i + 1) rest

/-! ## Shapes of parser input and of list fields -/

/-- The glyph sequence of `n` full stars, followed by a half when `half` is set. -/
def glyphs (n : Nat) (half : Bool) : String :=
  ⟨List.replicate n '★' ++ (if half then ['½'] else [])⟩

/-- A decimal digit character. -/
def isDigitChar (c : Char) : Prop := '0'.toNat ≤ c.toNat ∧ c.toNat ≤ '9'.toNat

/-- A name as the cast and crew rules keep it: trimmed and non-empty. -/
def isName (s : String) : Prop := s ≠ "" ∧ TrimSpace s = s

/-- The three list fields of a record. -/
def listFields (m : Movie) : String × String × String := (m.Director, m.Cast, m.Writers)

/-! ## Example worlds -/

/-- A tile with the given primary name and link, no alternate attributes, no rating. -/
def plainTile (name link : String) : Tile :=
  { dataFilmName := name, dataFilmLink := link, dataItemName := "", dataItemLink := "",
    ratingSpans := [] }

/-- A detail page on which no rule matches. -/
def emptyDetail : DetailDoc :=
  { releasedates := [], footers := [], twitterData2 := [], ldjson := [], directorLinks := [],
    castLinks := [], crew := [] }

/-- A world without store faults that serves the given listing pages (page `n` is the
`n`-th entry, any further page fails to load) and the same detail page for every item. -/
def quietWorld (pages : List ListingDoc) (detail : DetailDoc) : World :=
  { visitListing := fun n _ =>
      match n, pages[n - 1]? with
      | 0, _ => Except.error "404 Not Found"
      | _, some doc => Except.ok doc
      | _, none => Except.error "404 Not Found"
    visitDetail := fun _ _ => Except.ok detail
    existsFault := fun _ => none
    addFault := fun _ => none
    clock := fun _ => Time.zero
    tileClock := fun _ _ => Time.zero
    ToLower := fun s => s
    ParseFloat := fun _ => 0
    jsonImage := fun _ => none }

/-- One listing page showing the same film twice. -/
def dupWorld : World :=
  quietWorld [{ tiles := [plainTile "Heat" "/film/heat/", plainTile "Heat" "/film/heat/"],
                nextAnchors := 0 }] emptyDetail

/-- The record of the film of `dupWorld`. -/
def dupMovie : Movie :=
  { Title := "Heat", LetterboxdID := "/film/heat", LetterboxdURL := "/film/heat/", Rating := 0,
    DateAdded := Time.zero, Year := 0, LetterboxdRating := 0, Length := 0, PosterURL := "",
    Director := "", Cast := "", Writers := "" }

/-- Two listing pages: one film and a next anchor, then an empty last page. -/
def twoPageWorld : World :=
  quietWorld [{ tiles := [plainTile "Heat" "/film/heat/"], nextAnchors := 1 },
              { tiles := [], nextAnchors := 0 }] emptyDetail

/-- A listing whose first page has a film and a next anchor and whose second page
fails to load. -/
def brokenWorld : World :=
  quietWorld [{ tiles := [plainTile "Heat" "/film/heat/"], nextAnchors := 1 }] emptyDetail

/-- One listing page with three films; the detail page of the second one fails to load. -/
def mixedWorld : World :=
  { quietWorld [{ tiles := [plainTile "Heat" "/film/heat/", plainTile "Ran" "/film/ran/",
                            plainTile "Alien" "/film/alien/"],
                  nextAnchors := 0 }] emptyDetail with
    visitDetail := fun i _ => if i = 1 then Except.error "timeout" else Except.ok emptyDetail }

/-- A detail page with an inline byline, a crew section with six writers and one
director, and a cast list of thirty-one actors followed by the overflow control. -/
def creditsDoc : DetailDoc :=
  { emptyDetail with
    directorLinks := ["M. Mann"]
    castLinks := (List.range 31).map (fun k => { id := "", text := " Actor " ++ toString k }) ++
      [{ id := "has-cast-overflow", text := "Show All" }]
    crew := [[{ text := "Directors", links := ["Michael Mann "] },
              { text := "Assistant Director", links := ["Someone Else"] },
              { text := " Writers", links := ["W1", " ", "W2", "W3", "W4", "W5", "W6"] }]] }

/-- A detail page with six inline director links and no crew section. -/
def bylineDoc : DetailDoc :=
  { emptyDetail with directorLinks := ["A", "B", "C", "D", "E", "F"] }

/-- A store that already holds the first film of `mixedWorld`. -/
def heatStore : Store := [rowOf dupMovie Time.zero]

/-! ## Observations on the scalar rules of the detail enricher -/

/-- The image string the poster rule finds in one `ld+json` script, if any. -/
def posterImage (w : World) (raw : String) : Option String :=
  let raw := TrimSpace raw
  let raw := TrimPrefix raw "/* <![CDATA[ */"
  let raw := TrimSuffix raw "/* ]]> */"
  match w.jsonImage raw with
  | some (some img) => some img
  | _ => none

/-- The fields the year, runtime, rating and poster rules write. -/
def scalarFields (m : Movie) : Int × Int × ℚ × String :=
  (m.Year, m.Length, m.LetterboxdRating, m.PosterURL)

/-- A detail page with two release dates, two runtime footers and two posters. -/
def twiceDoc : DetailDoc :=
  { emptyDetail with
    releasedates := ["1995", "2001"]
    footers := ["170 mins More at IMDb", "99 mins"]
    twitterData2 := ["4.5 out of 5", "3.0 out of 5"]
    ldjson := ["first", "second"] }

/-- A world serving `twiceDoc` whose JSON reader finds an image in both scripts and
whose float parser knows the two ratings of `twiceDoc`. -/
def twiceWorld : World :=
  { quietWorld [] twiceDoc with
    ParseFloat := fun s => if s = "4.5" then 4.5 else if s = "3.0" then 3.0 else 0
    jsonImage := fun raw => some (some ("https://img/" ++ raw ++ ".jpg")) }

/-- The URL `scrapeMovieDetails` visits: the record's URL, made absolute. -/
def detailURL (movie : Movie) : String :=
  if ¬ HasPrefix movie.LetterboxdURL "http" then "https://letterboxd.com" ++ movie.LetterboxdURL
  else movie.LetterboxdURL

/-! ## Observations on the tile and crew rules -/

/-- The names a crew rule takes from the block after a heading: the first five of its
link texts that are non-empty once trimmed, trimmed. -/
def crewNames (h : Heading) : List String :=
  ((h.links.map TrimSpace).filter (fun s => s ≠ "")).take 5

/-- A heading from which the crew directors rule sets the field: its trimmed text
passes the heading test and its block has a name. -/
def yieldsDirector (h : Heading) : Bool :=
  isDirectorHeading (TrimSpace h.text) && !(crewNames h).isEmpty

/-- A heading from which the crew writers rule sets the field: its trimmed text
passes the heading test and its block has a name. -/
def yieldsWriter (h : Heading) : Bool :=
  isWriterHeading (TrimSpace h.text) && !(crewNames h).isEmpty

/-- The test of the cast rule for the "Show All" control: by its id or by its text. -/
def isOverflow (w : World) (a : CastLink) : Bool :=
  decide (a.id = "has-cast-overflow") || Contains (w.ToLower a.text) "show all"

/-- The names of a run of cast links: the texts of the links that are not the overflow
control, trimmed, where that leaves a non-empty text. -/
def castNames (w : World) (links : List CastLink) : List String :=
  ((links.filter (fun a => !isOverflow w a)).map (fun a => TrimSpace a.text)).filter
    (fun s => s ≠ "")

/-- The `Director` field as the inline director list leaves it. -/
def inlineDirector (doc : DetailDoc) (movie : Movie) : String :=
  (doc.directorLinks.foldl ruleDirectorLink movie).Director

/-- A tile with a primary name but no primary link, and both alternate attributes. -/
def halfTile : Tile :=
  { dataFilmName := "Heat", dataFilmLink := "", dataItemName := "Ran",
    dataItemLink := "/film/ran/", ratingSpans := [] }

/-- A tile without primary attributes whose alternate attributes are padded with white
space, and whose rating is spread over two spans. -/
def paddedTile : Tile :=
  { dataFilmName := "", dataFilmLink := "", dataItemName := " Ran ",
    dataItemLink := "\n/film/ran/ ", ratingSpans := [" ★★★", "½ "] }

/-- A tile with a primary name, no primary link, and alternates of white space only. -/
def blankTile : Tile :=
  { dataFilmName := "Heat", dataFilmLink := "", dataItemName := " ", dataItemLink := "\t",
    ratingSpans := [] }

/-- A detail page with an inline byline and two director headings in its crew section. -/
def coDirectorDoc : DetailDoc :=
  { emptyDetail with
    directorLinks := ["M. Mann"]
    crew := [[{ text := "Director", links := ["Michael Mann"] },
              { text := "Co-Director", links := [" Someone Else "] },
              { text := "Assistant Directors", links := ["A Third"] }]] }

/-! ## Reading rows back: `scanMovie` and `GetAllMovies` of `database/queries.go` -/

/-- The value of a decimal digit character, `none` for any other character
(`isDigit` of package `time` and the subtraction of `'0'`). -/
def digitVal (c : Char) : Option Nat :=
  if '0'.toNat ≤ c.toNat ∧ c.toNat ≤ '9'.toNat then some (c.toNat - '0'.toNat) else none

/-- The number written by a list of digit characters, `none` if one is not a digit. -/
def digitsVal : List Char → Nat → Option Nat
  | [], acc => some acc
  | c :: cs, acc =>
    match digitVal c with
    | some d => digitsVal cs (acc * 10 + d)
    | none => none

/-- `getnum(s, fixed)` of package `time`: a one- or two-digit number (two digits
required when `fixed`) and the rest of the text. -/
def getnum (s : List Char) (fixed : Bool) : Option (Nat × List Char) :=
  match s with
  | [] => none
  | c0 :: rest =>
    match digitVal c0 with
    | none => none
    | some d0 =>
      match rest with
      | [] => if fixed then none else some (d0, rest)
      | c1 :: rest' =>
        match digitVal c1 with
        | some d1 => some (d0 * 10 + d1, rest')
        | none => if fixed then none else some (d0, rest)

/-- `cutspace` of package `time`. -/
def cutspace (s : List Char) : List Char := s.dropWhile (fun c => c = ' ')

/-- `skip(value, prefix)` of package `time` for a one-character literal of the layout:
a space in the layout matches any run of spaces, another character matches itself. -/
def skip (value : List Char) (lit : Char) : Option (List Char) :=
  if lit = ' ' then
    match value with
    | [] => some []
    | c :: rest => if c ≠ ' ' then none else some (cutspace (c :: rest))
  else
    match value with
    | [] => none
    | c :: rest => if c = lit then some rest else none

/-- Layout element `2006`: four characters, the first a digit, all four a number. -/
def parseLongYear (value : List Char) : Option (Int × List Char) :=
  match value with
  | c0 :: c1 :: c2 :: c3 :: rest =>
    match digitVal c0 with
    | none => none
    | some _ =>
      match digitsVal [c0, c1, c2, c3] 0 with
      | some y => some ((y : Int), rest)
      | none => none
  | _ => none

/-- The fractional second `time.Parse` accepts after the seconds although the layout
has none: a period or comma followed by digits, of which nine count. -/
def parseFraction (value : List Char) : Nat × List Char :=
  match value with
  | c :: d :: rest =>
    if (c = '.' ∨ c = ',') ∧ (digitVal d).isSome then
      let digits := (d :: rest).takeWhile (fun x => (digitVal x).isSome)
      let used := digits.take 9
      (((digitsVal used 0).getD 0) * 10 ^ (9 - used.length),
        (d :: rest).dropWhile (fun x => (digitVal x).isSome))
    else (0, value)
  | _ => (0, value)

/-- Go `isLeap`. -/
def isLeap (year : Int) : Bool := year % 4 = 0 ∧ (year % 100 ≠ 0 ∨ year % 400 = 0)

/-- Go `daysIn(month, year)`. -/
def daysIn (month : Nat) (year : Int) : Nat :=
  if month = 2 then (if isLeap year then 29 else 28)
  else if month = 4 ∨ month = 6 ∨ month = 9 ∨ month = 11 then 30
  else 31

/-- Go `time.Parse("2006-01-02 15:04:05", value)`; `none` stands for a returned error.
The result is in UTC. -/
def parseDateTime (value : String) : Option Time := do
  let (year, v) ← parseLongYear value.data
  let v ← skip v '-'
  let (month, v) ← getnum v true
  if month ≤ 0 ∨ 12 < month then none
  let v ← skip v '-'
  let (day, v) ← getnum v true
  let v ← skip v ' '
  let (hour, v) ← getnum v false
  if 24 ≤ hour then none
  let v ← skip v ':'
  let (minute, v) ← getnum v true
  if 60 ≤ minute then none
  let v ← skip v ':'
  let (second, v) ← getnum v true
  if 60 ≤ second then none
  let (nsec, v) := parseFraction v
  if v ≠ [] then none
  if day < 1 ∨ day > daysIn month year then none
  pure { year := year, month := month, day := day, hour := hour, minute := minute,
         second := second, nsec := nsec, offset := 0 }

/-- `scanMovie` on a row without NULL columns (`AddMovie` writes none): the columns
are copied, and `DateAdded` is the parsed `date_added` or, when the parse fails, the
zero time the struct starts with. -/
def scanMovie (row : Row) : Movie :=
  { LetterboxdID := row.letterboxd_id, Title := row.title, Year := row.year,
    LetterboxdURL := row.letterboxd_url, Rating := row.rating,
    LetterboxdRating := row.letterboxd_rating, Length := row.length,
    DateAdded := (match parseDateTime row.date_added with
      | some parsed => parsed
      | none => Time.zero),
    PosterURL := row.poster_url, Director := row.director, Cast := row.cast,
    Writers := row.writers }

/-- The order of SQLite's `BINARY` collation on text: `memcmp` on the encoded bytes,
which for UTF-8 is the lexicographic order of the code points, a proper initial
segment coming first. -/
def textLt : List Char → List Char → Bool
  | [], [] => false
  | [], _ :: _ => true
  | _ :: _, [] => false
  | a :: as, b :: bs => decide (a.toNat < b.toNat) || (decide (a = b) && textLt as bs)

/-- Row `a` may stand before row `b` under `ORDER BY date_added DESC`. -/
def dateDesc (a b : Row) : Bool := !textLt a.date_added.data b.date_added.data

/-- Insertion of a row in front of the first row it may stand before. -/
def insertDesc (r : Row) : List Row → List Row
  | [] => [r]
  | x :: rest => if dateDesc r x then r :: x :: rest else x :: insertDesc r rest

/-- `ORDER BY date_added DESC` over the table in scan order; rows with equal
`date_added` keep their scan order. -/
def orderByDateAddedDesc (rows : List Row) : List Row := rows.foldr insertDesc []

/-- Where a read query can fail. -/
inductive QueryFault where
  | query (e : String)
  | scan (e : String)
  | rows (e : String)
  deriving DecidableEq

/-- `MovieDB.GetAllMovies`. -/
def GetAllMovies (db : Store) (fault : Option QueryFault) : List Movie × Option String :=
  match fault with
  | some (QueryFault.query e) => ([], some ("failed to query movies: " ++ e))
  | some (QueryFault.scan e) => ([], some ("failed to scan movie row: " ++ e))
  | some (QueryFault.rows e) => ([], some ("error iterating rows: " ++ e))
  | none => ((orderByDateAddedDesc db).map scanMovie, none)

/-- Days from January 1 of the year to the first of the month. -/
def daysBeforeMonth (month : Nat) (year : Int) : Nat :=
  (match month with
    | 1 => 0 | 2 => 31 | 3 => 59 | 4 => 90 | 5 => 120 | 6 => 151 | 7 => 181 | 8 => 212
    | 9 => 243 | 10 => 273 | 11 => 304 | _ => 334) +
  (if isLeap year ∧ month > 2 then 1 else 0)

/-- Days from January 1 of year 1 to the date, in the proleptic Gregorian calendar. -/
def daysSinceEpoch (year : Int) (month day : Nat) : Int :=
  365 * (year - 1) + (year - 1) / 4 - (year - 1) / 100 + (year - 1) / 400 +
    daysBeforeMonth month year + ((day : Int) - 1)

/-- The instant of a time: seconds since January 1 of year 1, 00:00:00 UTC. -/
def Time.instant (t : Time) : Int :=
  daysSinceEpoch t.year t.month t.day * 86400 + t.hour * 3600 + t.minute * 60 + t.second -
    t.offset

/-- The instant of `t1` is before the instant of `t2`. -/
def Time.before (t1 t2 : Time) : Prop :=
  t1.instant < t2.instant ∨ (t1.instant = t2.instant ∧ t1.nsec < t2.nsec)

/-- A wall clock reading as `time.Now` yields it: a calendar date with a four-digit
year and a time of day. -/
def Time.valid (t : Time) : Prop :=
  0 ≤ t.year ∧ t.year ≤ 9999 ∧ 1 ≤ t.month ∧ t.month ≤ 12 ∧ 1 ≤ t.day ∧
    t.day ≤ daysIn t.month t.year ∧ t.hour < 24 ∧ t.minute < 60 ∧ t.second < 60

/-- `out` is the table `db` under `ORDER BY date_added DESC`: the same rows, each
standing before the rows after it; the order of rows with equal text is left open. -/
def isOrderedByDateAddedDesc (db out : List Row) : Prop :=
  out.Perm db ∧ out.Pairwise (fun a b => dateDesc a b = true)

/-- The `w` low decimal digits of `n`, most significant first. -/
def digitsFixed : Nat → Nat → List Char
  | 0, _ => []
  | w + 1, n => digitsFixed w (n / 10) ++ [Nat.digitChar (n % 10)]

instance (t1 t2 : Time) : Decidable (t1.before t2) := by
  unfold Time.before; exact inferInstance

instance (t : Time) : Decidable t.valid := by
  unfold Time.valid; exact inferInstance

/-- A second film, for the examples on the store. -/
def ranMovie : Movie :=
  { dupMovie with Title := "Ran", LetterboxdID := "/film/ran", LetterboxdURL := "/film/ran/" }

/-- The store after `AddMovie` stored `dupMovie` at `t1` and then `ranMovie` at `t2`. -/
def storedAt (t1 t2 : Time) : Store :=
  (AddMovie (AddMovie [] none t1 dupMovie).1 none t2 ranMovie).1

/-! # Theorems

## Lemmas on the calls of pass 2 -/

theorem existsChecks_append (a b : List Event) :
    existsChecks (a ++ b) = existsChecks a ++ existsChecks b := by
  induction a with
  | nil => rfl
  | cons e rest ih => cases e <;> simp [existsChecks, ih]

theorem detailCalls_append (a b : List Event) :
    detailCalls (a ++ b) = detailCalls a ++ detailCalls b := by
  induction a with
  | nil => rfl
  | cons e rest ih => cases e <;> simp [detailCalls, ih]

theorem addCalls_append (a b : List Event) :
    addCalls (a ++ b) = addCalls a ++ addCalls b := by
  induction a with
  | nil => rfl
  | cons e rest ih => cases e <;> simp [addCalls, ih]

theorem fetchedPages_append (a b : List Event) :
    fetchedPages (a ++ b) = fetchedPages a ++ fetchedPages b := by
  induction a with
  | nil => rfl
  | cons e rest ih => cases e <;> simp [fetchedPages, ih]

theorem processItem_lookupError (w : World) (i : Nat) (movie : Movie) (st : SyncState)
    (b : Bool) (e : String)
    (h : MovieExists st.db (w.existsFault i) movie.LetterboxdID = (b, some e)) :
    processItem w i movie st =
      { st with events := st.events ++ [Event.movieExists i movie.LetterboxdID],
                failed := st.failed + 1 } := by
  simp only [processItem, h]

theorem processItem_skip (w : World) (i : Nat) (movie : Movie) (st : SyncState)
    (h : MovieExists st.db (w.existsFault i) movie.LetterboxdID = (true, none)) :
    processItem w i movie st =
      { st with events := st.events ++ [Event.movieExists i movie.LetterboxdID],
                skipped := st.skipped + 1 } := by
  simp only [processItem, h]

theorem processItem_detailError (w : World) (i : Nat) (movie : Movie) (st : SyncState)
    (m' : Movie) (e : String)
    (h : MovieExists st.db (w.existsFault i) movie.LetterboxdID = (false, none))
    (hD : scrapeMovieDetails w i movie = (m', some e)) :
    processItem w i movie st =
      { st with events := st.events ++ [Event.movieExists i movie.LetterboxdID] ++
                  [Event.scrapeMovieDetails i movie],
                failed := st.failed + 1 } := by
  simp only [processItem, h, hD]

theorem processItem_addError (w : World) (i : Nat) (movie : Movie) (st : SyncState)
    (m' : Movie) (db' : Store) (e : String)
    (h : MovieExists st.db (w.existsFault i) movie.LetterboxdID = (false, none))
    (hD : scrapeMovieDetails w i movie = (m', none))
    (hA : AddMovie st.db (w.addFault i) (w.clock i) m' = (db', some e)) :
    processItem w i movie st =
      { st with events := st.events ++ [Event.movieExists i movie.LetterboxdID] ++
                  [Event.scrapeMovieDetails i movie] ++ [Event.addMovie i m'],
                failed := st.failed + 1 } := by
  simp only [processItem, h, hD, hA]

theorem processItem_added (w : World) (i : Nat) (movie : Movie) (st : SyncState)
    (m' : Movie) (db' : Store)
    (h : MovieExists st.db (w.existsFault i) movie.LetterboxdID = (false, none))
    (hD : scrapeMovieDetails w i movie = (m', none))
    (hA : AddMovie st.db (w.addFault i) (w.clock i) m' = (db', none)) :
    processItem w i movie st =
      { st with db := db',
                events := st.events ++ [Event.movieExists i movie.LetterboxdID] ++
                  [Event.scrapeMovieDetails i movie] ++ [Event.addMovie i m'],
                totalScraped := st.totalScraped + 1 } := by
  simp only [processItem, h, hD, hA]

/-- The five ways one iteration of pass 2 can go. -/
theorem processItem_cases (w : World) (i : Nat) (movie : Movie) (st : SyncState) :
    (∃ b e, MovieExists st.db (w.existsFault i) movie.LetterboxdID = (b, some e)) ∨
    MovieExists st.db (w.existsFault i) movie.LetterboxdID = (true, none) ∨
    (MovieExists st.db (w.existsFault i) movie.LetterboxdID = (false, none) ∧
      ((∃ m' e, scrapeMovieDetails w i movie = (m', some e)) ∨
       (∃ m', scrapeMovieDetails w i movie = (m', none) ∧
          ((∃ db' e, AddMovie st.db (w.addFault i) (w.clock i) m' = (db', some e)) ∨
           (∃ db', AddMovie st.db (w.addFault i) (w.clock i) m' = (db', none)))))) := by
  rcases hE : MovieExists st.db (w.existsFault i) movie.LetterboxdID with ⟨b, _ | e⟩
  · cases b
    · right; right
      refine ⟨rfl, ?_⟩
      rcases hD : scrapeMovieDetails w i movie with ⟨m', _ | e'⟩
      · right
        refine ⟨m', rfl, ?_⟩
        rcases hA : AddMovie st.db (w.addFault i) (w.clock i) m' with ⟨db', _ | e''⟩
        · exact Or.inr ⟨db', rfl⟩
        · exact Or.inl ⟨db', e'', rfl⟩
      · exact Or.inl ⟨m', e', rfl⟩
    · exact Or.inr (Or.inl rfl)
  · exact Or.inl ⟨b, e, rfl⟩

/-- The calls one iteration of pass 2 adds: exactly one existence check, for this
item, and detail and insert calls for this item only; none after a positive
existence check, and no insert after a failed enrichment. -/
theorem processItem_events (w : World) (i : Nat) (movie : Movie) (st : SyncState) :
    ∃ tail, (processItem w i movie st).events = st.events ++ tail ∧
      existsChecks tail = [(i, movie.LetterboxdID)] ∧ fetchedPages tail = [] ∧
      (∀ j ∈ detailCalls tail, j = i) ∧ (∀ j ∈ addCalls tail, j = i) ∧
      (MovieExists st.db (w.existsFault i) movie.LetterboxdID = (true, none) →
        detailCalls tail = [] ∧ addCalls tail = []) ∧
      ((scrapeMovieDetails w i movie).2 ≠ none → addCalls tail = []) := by
  rcases processItem_cases w i movie st with ⟨b, e, h⟩ | h | ⟨h, ⟨m', e, hD⟩ | ⟨m', hD, hA⟩⟩
  · rw [processItem_lookupError w i movie st b e h]
    exact ⟨[Event.movieExists i movie.LetterboxdID], by
      simp [existsChecks, fetchedPages, detailCalls, addCalls]⟩
  · rw [processItem_skip w i movie st h]
    exact ⟨[Event.movieExists i movie.LetterboxdID], by
      simp [existsChecks, fetchedPages, detailCalls, addCalls]⟩
  · rw [processItem_detailError w i movie st m' e h hD]
    exact ⟨[Event.movieExists i movie.LetterboxdID, Event.scrapeMovieDetails i movie], by
      simp [existsChecks, fetchedPages, detailCalls, addCalls, h]⟩
  · have hev : ∃ s : SyncState, processItem w i movie st = s ∧ s.events =
        st.events ++ [Event.movieExists i movie.LetterboxdID] ++
          [Event.scrapeMovieDetails i movie] ++ [Event.addMovie i m'] := by
      rcases hA with ⟨db', e, hA⟩ | ⟨db', hA⟩
      · exact ⟨_, processItem_addError w i movie st m' db' e h hD hA, rfl⟩
      · exact ⟨_, processItem_added w i movie st m' db' h hD hA, rfl⟩
    obtain ⟨s, hs, hse⟩ := hev
    rw [hs, hse]
    exact ⟨[Event.movieExists i movie.LetterboxdID, Event.scrapeMovieDetails i movie,
      Event.addMovie i m'], by
      simp [existsChecks, fetchedPages, detailCalls, addCalls, h, hD]⟩

/-- Each iteration of pass 2 adds exactly one to exactly one of the three counters. -/
theorem processItem_counts (w : World) (i : Nat) (movie : Movie) (st : SyncState) :
    (processItem w i movie st).totalScraped + (processItem w i movie st).skipped +
      (processItem w i movie st).failed = st.totalScraped + st.skipped + st.failed + 1 := by
  rcases processItem_cases w i movie st with ⟨b, e, h⟩ | h | ⟨h, ⟨m', e, hD⟩ | ⟨m', hD, hA⟩⟩
  · rw [processItem_lookupError w i movie st b e h]; simp only []; omega
  · rw [processItem_skip w i movie st h]; simp only []; omega
  · rw [processItem_detailError w i movie st m' e h hD]; simp only []; omega
  · rcases hA with ⟨db', e, hA⟩ | ⟨db', hA⟩
    · rw [processItem_addError w i movie st m' db' e h hD hA]; simp only []; omega
    · rw [processItem_added w i movie st m' db' h hD hA]; simp only []; omega

/-! ## Lemmas on the store -/

theorem rowsOf_append (db : Store) (r : Row) (id : String) :
    rowsOf (db ++ [r]) id = rowsOf db id ++ (if r.letterboxd_id = id then [r] else []) := by
  unfold rowsOf
  rw [List.filter_append]
  by_cases h : r.letterboxd_id = id <;> simp [List.filter, h]

/-- `AddMovie` never changes the rows stored under an identifier that is present. -/
theorem AddMovie_rowsOf (db : Store) (fault : Option AddFault) (now : Time) (movie : Movie)
    (id : String) (h : rowsOf db id ≠ []) :
    rowsOf (AddMovie db fault now movie).1 id = rowsOf db id := by
  unfold AddMovie
  rcases fault with _ | (e | e)
  · by_cases hany : db.any (fun r => r.letterboxd_id = movie.LetterboxdID) = true
    · simp only [hany, if_true]
    · simp only [hany, Bool.false_eq_true, if_false]
      rw [rowsOf_append]
      by_cases hid : (rowOf movie now).letterboxd_id = id
      · exfalso
        apply hany
        have hid' : movie.LetterboxdID = id := hid
        rw [hid']
        by_contra hc
        apply h
        unfold rowsOf
        rw [List.filter_eq_nil_iff]
        intro r hr
        simp only [Bool.not_eq_true] at hc
        rw [List.any_eq_false] at hc
        exact hc r hr
      · simp [hid]
  · rfl
  · rfl

/-- A positive existence check means the identifier has a row. -/
theorem MovieExists_true (db : Store) (fault : Option String) (id : String)
    (h : MovieExists db fault id = (true, none)) : rowsOf db id ≠ [] := by
  unfold MovieExists at h
  cases fault with
  | some e => simp at h
  | none =>
    simp only [Prod.mk.injEq, decide_eq_true_eq, and_true] at h
    intro hnil
    unfold rowsOf at hnil
    rw [hnil] at h
    simp at h

/-- One iteration of pass 2 leaves the rows of a present identifier as they are. -/
theorem processItem_rowsOf (w : World) (i : Nat) (movie : Movie) (st : SyncState)
    (id : String) (h : rowsOf st.db id ≠ []) :
    rowsOf (processItem w i movie st).db id = rowsOf st.db id := by
  rcases processItem_cases w i movie st with ⟨b, e, hE⟩ | hE | ⟨hE, ⟨m', e, hD⟩ | ⟨m', hD, hA⟩⟩
  · rw [processItem_lookupError w i movie st b e hE]
  · rw [processItem_skip w i movie st hE]
  · rw [processItem_detailError w i movie st m' e hE hD]
  · rcases hA with ⟨db', e, hA⟩ | ⟨db', hA⟩
    · rw [processItem_addError w i movie st m' db' e hE hD hA]
    · rw [processItem_added w i movie st m' db' hE hD hA]
      have := AddMovie_rowsOf st.db (w.addFault i) (w.clock i) m' id h
      rw [hA] at this
      exact this

/-! ## Lemmas on the loop of pass 2 -/

theorem pass2_append (w : World) (xs ys : List Movie) :
    ∀ (i : Nat) (st : SyncState),
      pass2 w i (xs ++ ys) st = pass2 w (i + xs.length) ys (pass2 w i xs st) := by
  induction xs with
  | nil => intro i st; simp [pass2]
  | cons m rest ih =>
    intro i st
    show pass2 w (i + 1) (rest ++ ys) (processItem w i m st) = _
    rw [ih]
    simp only [pass2, List.length_cons]
    congr 1
    omega

theorem pass2_rowsOf (w : World) (id : String) (L : List Movie) :
    ∀ (i : Nat) (st : SyncState), rowsOf st.db id ≠ [] →
      rowsOf (pass2 w i L st).db id = rowsOf st.db id := by
  induction L with
  | nil => intro i st _; rfl
  | cons m rest ih =>
    intro i st h
    simp only [pass2]
    have h1 := processItem_rowsOf w i m st id h
    rw [ih (i + 1) (processItem w i m st) (by rw [h1]; exact h), h1]

theorem pass2_counts (w : World) (L : List Movie) :
    ∀ (i : Nat) (st : SyncState),
      (pass2 w i L st).totalScraped + (pass2 w i L st).skipped + (pass2 w i L st).failed =
        st.totalScraped + st.skipped + st.failed + L.length := by
  induction L with
  | nil => intro i st; simp [pass2]
  | cons m rest ih =>
    intro i st
    simp only [pass2, List.length_cons]
    rw [ih (i + 1) (processItem w i m st), processItem_counts]
    omega

/-- The calls the loop of pass 2 adds from index `i` on. -/
theorem pass2_events (w : World) (L : List Movie) :
    ∀ (i : Nat) (st : SyncState),
      ∃ tail, (pass2 w i L st).events = st.events ++ tail ∧
        existsChecks tail = indexed i L ∧ fetchedPages tail = [] ∧
        (∀ j ∈ detailCalls tail, i ≤ j ∧ j < i + L.length) ∧
        (∀ j ∈ addCalls tail, i ≤ j ∧ j < i + L.length) ∧
        (∀ k m, L[k]? = some m → (scrapeMovieDetails w (i + k) m).2 ≠ none →
          i + k ∉ addCalls tail) := by
  induction L with
  | nil =>
    intro i st
    exact ⟨[], by simp [pass2, existsChecks, indexed, fetchedPages, detailCalls, addCalls]⟩
  | cons m rest ih =>
    intro i st
    obtain ⟨t1, h1, hx1, hf1, hd1, ha1, _, hfail1⟩ := processItem_events w i m st
    obtain ⟨t2, h2, hx2, hf2, hd2, ha2, hfail2⟩ := ih (i + 1) (processItem w i m st)
    refine ⟨t1 ++ t2, ?_, ?_, ?_, ?_, ?_, ?_⟩
    · simp only [pass2]; rw [h2, h1, List.append_assoc]
    · rw [existsChecks_append, hx1, hx2]; rfl
    · rw [fetchedPages_append, hf1, hf2]; rfl
    · intro j hj
      rw [detailCalls_append, List.mem_append] at hj
      simp only [List.length_cons]
      rcases hj with hj | hj
      · have := hd1 j hj; omega
      · have := hd2 j hj; omega
    · intro j hj
      rw [addCalls_append, List.mem_append] at hj
      simp only [List.length_cons]
      rcases hj with hj | hj
      · have := ha1 j hj; omega
      · have := ha2 j hj; omega
    · intro k m' hk hbad hmem
      rw [addCalls_append, List.mem_append] at hmem
      cases k with
      | zero =>
        simp only [List.getElem?_cons_zero, Option.some.injEq] at hk
        subst hk
        rcases hmem with hmem | hmem
        · rw [hfail1 hbad] at hmem; exact absurd hmem (List.not_mem_nil _)
        · have := ha2 _ hmem
          omega
      | succ k =>
        simp only [List.getElem?_cons_succ] at hk
        rcases hmem with hmem | hmem
        · have := ha1 _ hmem
          omega
        · have hk' := hfail2 k m' hk (by rw [show i + 1 + k = i + (k + 1) by omega]; exact hbad)
          apply hk'
          rw [show i + 1 + k = i + (k + 1) by omega]
          exact hmem

/-! ## Lemmas on the listing walk -/

/-- The listing walk only adds listing fetches to the calls. -/
theorem scrapeFilmsListLoop_log (w : World) (username : String) :
    ∀ (fuel pageNum : Nat) (allMovies : List Movie) (log log' : List Event)
      (L : List Movie) (e : Option String),
      scrapeFilmsListLoop w username fuel pageNum allMovies log = some (log', L, e) →
      ∃ tail, log' = log ++ tail ∧ existsChecks tail = [] ∧ detailCalls tail = [] ∧
        addCalls tail = [] := by
  intro fuel
  induction fuel with
  | zero => intro pageNum allMovies log log' L e h; simp [scrapeFilmsListLoop] at h
  | succ fuel ih =>
    intro pageNum allMovies log log' L e h
    unfold scrapeFilmsListLoop at h
    rcases hp : scrapeFilmsPage w pageNum (listingURL username pageNum) with ⟨pm, hasNext, _ | err⟩
    · simp only [hp] at h
      by_cases hn : hasNext = true
      · simp only [hn, not_true_eq_false, if_false] at h
        obtain ⟨tail, ht, h1, h2, h3⟩ := ih _ _ _ _ _ _ h
        refine ⟨Event.fetchListing pageNum (listingURL username pageNum) :: tail, ?_, ?_, ?_, ?_⟩
        · rw [ht]; simp
        · simpa [existsChecks] using h1
        · simpa [detailCalls] using h2
        · simpa [addCalls] using h3
      · simp only [Bool.not_eq_true] at hn
        simp only [hn, Bool.false_eq_true, not_false_eq_true, if_true, Option.some.injEq,
          Prod.mk.injEq] at h
        exact ⟨[Event.fetchListing pageNum (listingURL username pageNum)], h.1.symm, rfl, rfl, rfl⟩
    · simp only [hp, Option.some.injEq, Prod.mk.injEq] at h
      exact ⟨[Event.fetchListing pageNum (listingURL username pageNum)], h.1.symm, rfl, rfl, rfl⟩

/-- A page that is fetched and parsed. -/
theorem scrapeFilmsPage_ok (w : World) (pageNum : Nat) (url : String) (doc : ListingDoc)
    (h : w.visitListing pageNum url = Except.ok doc) :
    scrapeFilmsPage w pageNum url =
      (tileMovies (w.tileClock pageNum) 0 doc.tiles, decide (doc.nextAnchors > 0), none) := by
  simp only [scrapeFilmsPage, h]

/-- A page whose fetch fails. -/
theorem scrapeFilmsPage_error (w : World) (pageNum : Nat) (url : String) (e : String)
    (h : w.visitListing pageNum url = Except.error e) :
    scrapeFilmsPage w pageNum url = ([], false, some ("failed to visit page: " ++ e)) := by
  simp only [scrapeFilmsPage, h]

/-- The walk over `j` pages that are all fetched and all have a next anchor. -/
theorem scrapeFilmsListLoop_pages (w : World) (username : String) (docs : Nat → ListingDoc) :
    ∀ (j p : Nat) (allMovies : List Movie) (log : List Event) (fuel : Nat),
      (∀ n, p ≤ n → n < p + j →
        w.visitListing n (listingURL username n) = Except.ok (docs n) ∧
          (docs n).nextAnchors > 0) →
      scrapeFilmsListLoop w username (j + fuel) p allMovies log =
        scrapeFilmsListLoop w username fuel (p + j)
          (allMovies ++ ((List.range' p j).map
            (fun n => tileMovies (w.tileClock n) 0 (docs n).tiles)).flatten)
          (log ++ (List.range' p j).map (fun n => Event.fetchListing n (listingURL username n))) := by
  intro j
  induction j with
  | zero => intro p allMovies log fuel _; simp
  | succ j ih =>
    intro p allMovies log fuel h
    have hp := h p (le_refl p) (by omega)
    rw [show j + 1 + fuel = (j + fuel) + 1 by omega]
    rw [scrapeFilmsListLoop, scrapeFilmsPage_ok w p _ (docs p) hp.1]
    simp only [hp.2, decide_True, not_true_eq_false, if_false]
    rw [ih (p + 1) _ _ fuel (fun n h1 h2 => h n (by omega) (by omega))]
    simp only [List.range'_succ, List.map_cons, List.flatten_cons, List.append_assoc,
      List.singleton_append]
    rw [show p + 1 + j = p + (j + 1) by omega]

/-! ## The sync orchestrator -/

/-- What `ScrapeUser` returns once the listing walk has returned its items. -/
theorem ScrapeUser_of_listing (w : World) (fuel : Nat) (db : Store) (username : String)
    (log : List Event) (basicMovies : List Movie)
    (hlist : scrapeFilmsList w fuel username = some (log, basicMovies, none)) :
    ScrapeUser w fuel db username =
      some { err := if (pass2 w 0 basicMovies (startState db log)).failed > 0 then
                      some ("scraping completed with " ++
                        toString (pass2 w 0 basicMovies (startState db log)).failed ++ " errors")
                    else none,
             db := (pass2 w 0 basicMovies (startState db log)).db,
             events := (pass2 w 0 basicMovies (startState db log)).events,
             totalScraped := (pass2 w 0 basicMovies (startState db log)).totalScraped,
             skipped := (pass2 w 0 basicMovies (startState db log)).skipped,
             failed := (pass2 w 0 basicMovies (startState db log)).failed } := by
  simp only [ScrapeUser, hlist]

/-- Pass 2 split at item `i`: the state when item `i` is reached, that item, the rest. -/
theorem pass2_split (w : World) (db : Store) (log : List Event) (basicMovies : List Movie)
    (i : Nat) (movie : Movie) (hi : basicMovies[i]? = some movie) :
    pass2 w 0 basicMovies (startState db log) =
      pass2 w (i + 1) (basicMovies.drop (i + 1))
        (processItem w i movie (reached w db log basicMovies i)) := by
  have hlt : i < basicMovies.length := by
    rcases Nat.lt_or_ge i basicMovies.length with h | h
    · exact h
    · rw [List.getElem?_eq_none h] at hi; exact absurd hi (by simp)
  have hsplit : basicMovies = basicMovies.take i ++ movie :: basicMovies.drop (i + 1) := by
    have hget : basicMovies[i] = movie := by
      rw [List.getElem?_eq_getElem hlt] at hi
      exact Option.some.inj hi
    rw [← hget, List.getElem_cons_drop _ _ hlt, List.take_append_drop]
  have hlen : (basicMovies.take i).length = i := by
    rw [List.length_take]; omega
  conv_lhs => rw [hsplit]
  rw [pass2_append, hlen, Nat.zero_add]
  rfl

/-- C1 (amended): when the listing walk returned the items and the existence check of
item `i` is positive in the store as it is when the loop reaches that item, the sync
ends, makes neither a `scrapeMovieDetails` nor an `AddMovie` call for item `i`, and
the rows stored under the item's identifier are after the sync what they were when
the item was reached; if the identifier had a row before the sync, they are what they
were before the sync. -/
theorem C1_idempotent_skip (w : World) (fuel : Nat) (db : Store) (username : String)
    (log : List Event) (basicMovies : List Movie) (i : Nat) (movie : Movie)
    (hlist : scrapeFilmsList w fuel username = some (log, basicMovies, none))
    (hi : basicMovies[i]? = some movie)
    (hexists : MovieExists (reached w db log basicMovies i).db (w.existsFault i)
      movie.LetterboxdID = (true, none)) :
    ∃ r, ScrapeUser w fuel db username = some r ∧
      i ∉ detailCalls r.events ∧ i ∉ addCalls r.events ∧
      rowsOf r.db movie.LetterboxdID =
        rowsOf (reached w db log basicMovies i).db movie.LetterboxdID ∧
      (rowsOf db movie.LetterboxdID ≠ [] →
        rowsOf r.db movie.LetterboxdID = rowsOf db movie.LetterboxdID) := by
  refine ⟨_, ScrapeUser_of_listing w fuel db username log basicMovies hlist, ?_⟩
  simp only []
  obtain ⟨tl, hlog, _, hld, hla⟩ :=
    scrapeFilmsListLoop_log w username fuel 1 [] [] log basicMovies none hlist
  simp only [List.nil_append] at hlog
  subst hlog
  have hpresent := MovieExists_true _ _ _ hexists
  -- the calls: before item `i`, item `i` itself, after item `i`
  obtain ⟨t0, h0, _, _, hd0, ha0, _⟩ :=
    pass2_events w (basicMovies.take i) 0 (startState db log)
  obtain ⟨t1, h1, _, _, _, _, hskip, _⟩ :=
    processItem_events w i movie (reached w db log basicMovies i)
  obtain ⟨t2, h2, _, _, hd2, ha2, _⟩ :=
    pass2_events w (basicMovies.drop (i + 1)) (i + 1)
      (processItem w i movie (reached w db log basicMovies i))
  have hev : (pass2 w 0 basicMovies (startState db log)).events = log ++ t0 ++ t1 ++ t2 := by
    rw [pass2_split w db log basicMovies i movie hi, h2, h1]
    unfold reached
    rw [h0]
    rfl
  have hlen : (basicMovies.take i).length ≤ i := by
    rw [List.length_take]; exact Nat.min_le_left _ _
  refine ⟨?_, ?_, ?_, ?_⟩
  · rw [hev]
    simp only [detailCalls_append, List.mem_append, hld, (hskip hexists).1, List.not_mem_nil,
      false_or, or_false]
    rintro (h | h)
    · have := hd0 i h; omega
    · have := hd2 i h; omega
  · rw [hev]
    simp only [addCalls_append, List.mem_append, hla, (hskip hexists).2, List.not_mem_nil,
      false_or, or_false]
    rintro (h | h)
    · have := ha0 i h; omega
    · have := ha2 i h; omega
  · rw [pass2_split w db log basicMovies i movie hi]
    have hstep := processItem_rowsOf w i movie (reached w db log basicMovies i)
      movie.LetterboxdID hpresent
    rw [pass2_rowsOf w movie.LetterboxdID _ (i + 1) _ (by rw [hstep]; exact hpresent), hstep]
  · intro hinit
    exact pass2_rowsOf w movie.LetterboxdID basicMovies 0 (startState db log) hinit

/-- C1, an instance: the first film of `mixedWorld` is already in `heatStore`. -/
theorem C1_idempotent_skip_witness :
    ∃ r, ScrapeUser mixedWorld 1 heatStore "u" = some r ∧
      0 ∉ detailCalls r.events ∧ 0 ∉ addCalls r.events ∧
      rowsOf r.db dupMovie.LetterboxdID =
        rowsOf (reached mixedWorld heatStore [Event.fetchListing 1 (listingURL "u" 1)]
          [dupMovie, { dupMovie with Title := "Ran", LetterboxdID := "/film/ran",
                                      LetterboxdURL := "/film/ran/" },
           { dupMovie with Title := "Alien", LetterboxdID := "/film/alien",
                           LetterboxdURL := "/film/alien/" }] 0).db dupMovie.LetterboxdID ∧
      (rowsOf heatStore dupMovie.LetterboxdID ≠ [] →
        rowsOf r.db dupMovie.LetterboxdID = rowsOf heatStore dupMovie.LetterboxdID) :=
  C1_idempotent_skip mixedWorld 1 heatStore "u" [Event.fetchListing 1 (listingURL "u" 1)]
    _ 0 dupMovie (by decide) (by decide) (by decide)

/-- C1 as stated fails: `dupWorld` lists one film twice and the store is empty. When
the loop reaches the second occurrence the identifier is present, yet the rows stored
under it after the sync are not the rows (none) stored under it before the sync. -/
theorem C1_counterexample :
    scrapeFilmsList dupWorld 1 "u" =
      some ([Event.fetchListing 1 (listingURL "u" 1)], [dupMovie, dupMovie], none) ∧
    MovieExists (reached dupWorld [] [Event.fetchListing 1 (listingURL "u" 1)]
      [dupMovie, dupMovie] 1).db (dupWorld.existsFault 1) dupMovie.LetterboxdID = (true, none) ∧
    (ScrapeUser dupWorld 1 [] "u").map (fun r => rowsOf r.db dupMovie.LetterboxdID) =
      some [rowOf dupMovie Time.zero] ∧
    rowsOf [] dupMovie.LetterboxdID = [] := by
  decide

/-- C2: when the listing walk returned the items, then whatever the store and the site
answer for each item, the sync ends; its existence checks are exactly one per item,
in listing order; each iteration adds one to exactly one counter, so the three
counters add up to the number of items; no `AddMovie` call is made for an item whose
enrichment failed; and an error is returned exactly when `failed > 0`, its text
carrying that count. -/
theorem C2_failure_isolation (w : World) (fuel : Nat) (db : Store) (username : String)
    (log : List Event) (basicMovies : List Movie)
    (hlist : scrapeFilmsList w fuel username = some (log, basicMovies, none)) :
    ∃ r, ScrapeUser w fuel db username = some r ∧
      existsChecks r.events = indexed 0 basicMovies ∧
      (∀ (i : Nat) (movie : Movie) (st : SyncState),
        (processItem w i movie st).totalScraped + (processItem w i movie st).skipped +
          (processItem w i movie st).failed = st.totalScraped + st.skipped + st.failed + 1) ∧
      r.totalScraped + r.skipped + r.failed = basicMovies.length ∧
      (∀ i movie, basicMovies[i]? = some movie → (scrapeMovieDetails w i movie).2 ≠ none →
        i ∉ addCalls r.events) ∧
      (r.err ≠ none ↔ r.failed > 0) ∧
      (r.failed > 0 →
        r.err = some ("scraping completed with " ++ toString r.failed ++ " errors")) := by
  refine ⟨_, ScrapeUser_of_listing w fuel db username log basicMovies hlist, ?_⟩
  simp only []
  obtain ⟨tl, hlog, hlx, _, hla⟩ :=
    scrapeFilmsListLoop_log w username fuel 1 [] [] log basicMovies none hlist
  simp only [List.nil_append] at hlog
  subst hlog
  obtain ⟨t, ht, hx, _, _, _, hfail⟩ := pass2_events w basicMovies 0 (startState db log)
  have hev : (pass2 w 0 basicMovies (startState db log)).events = log ++ t := ht
  refine ⟨?_, processItem_counts w, ?_, ?_, ?_, ?_⟩
  · rw [hev, existsChecks_append, hlx, hx]; rfl
  · have := pass2_counts w basicMovies 0 (startState db log)
    simpa [startState] using this
  · intro i movie hi hbad
    rw [hev, addCalls_append, hla, List.nil_append]
    have := hfail i movie hi (by rw [Nat.zero_add]; exact hbad)
    rwa [Nat.zero_add] at this
  · by_cases hf : (pass2 w 0 basicMovies (startState db log)).failed > 0
    · simp [hf]
    · simp [hf]
  · intro hf
    simp [hf]

/-- C2, an instance: in `mixedWorld` with `heatStore` the first film is skipped, the
second fails in enrichment and the third is stored. -/
theorem C2_failure_isolation_witness :
    (ScrapeUser mixedWorld 1 heatStore "u").map
        (fun r => (existsChecks r.events, r.totalScraped, r.skipped, r.failed, addCalls r.events,
          r.err)) =
      some ([(0, "/film/heat"), (1, "/film/ran"), (2, "/film/alien")], 1, 1, 1, [2],
        some "scraping completed with 1 errors") ∧
    ∃ r, ScrapeUser mixedWorld 1 heatStore "u" = some r ∧
      existsChecks r.events = indexed 0
        [dupMovie, { dupMovie with Title := "Ran", LetterboxdID := "/film/ran",
                                    LetterboxdURL := "/film/ran/" },
         { dupMovie with Title := "Alien", LetterboxdID := "/film/alien",
                         LetterboxdURL := "/film/alien/" }] :=
  ⟨by rfl,
   (C2_failure_isolation mixedWorld 1 heatStore "u" [Event.fetchListing 1 (listingURL "u" 1)]
      _ (by decide)).imp (fun _ h => ⟨h.1, h.2.1⟩)⟩

/-- C3: if the listing pages before page `k` load and have a next anchor and page `k`
fails to load, then (given fuel for `k` pages) `scrapeFilmsList` fetches pages 1 to
`k` and returns an error naming page `k` and no items, whatever the earlier pages
held; `ScrapeUser` returns that error wrapped, makes no `MovieExists`,
`scrapeMovieDetails` or `AddMovie` call, and leaves the store as it was. -/
theorem C3_listing_failure_fatal (w : World) (username : String) (db : Store) (k : Nat)
    (docs : Nat → ListingDoc) (e : String) (hk : 1 ≤ k)
    (hok : ∀ n, 1 ≤ n → n < k →
      w.visitListing n (listingURL username n) = Except.ok (docs n) ∧ (docs n).nextAnchors > 0)
    (hfail : w.visitListing k (listingURL username k) = Except.error e)
    (fuel : Nat) (hfuel : k ≤ fuel) :
    scrapeFilmsList w fuel username =
      some ((List.range' 1 k).map (fun n => Event.fetchListing n (listingURL username n)), [],
        some ("failed to scrape page " ++ toString k ++ ": " ++ ("failed to visit page: " ++ e))) ∧
    ∃ r, ScrapeUser w fuel db username = some r ∧
      r.err = some ("pass 1 failed: " ++
        ("failed to scrape page " ++ toString k ++ ": " ++ ("failed to visit page: " ++ e))) ∧
      r.db = db ∧ existsChecks r.events = [] ∧ detailCalls r.events = [] ∧
      addCalls r.events = [] ∧ fetchedPages r.events = List.range' 1 k := by
  have hwalk : scrapeFilmsList w fuel username =
      some ((List.range' 1 k).map (fun n => Event.fetchListing n (listingURL username n)), [],
        some ("failed to scrape page " ++ toString k ++ ": " ++ ("failed to visit page: " ++ e))) := by
    obtain ⟨j, rfl⟩ : ∃ j, k = j + 1 := ⟨k - 1, by omega⟩
    obtain ⟨f, rfl⟩ : ∃ f, fuel = j + (f + 1) := ⟨fuel - j - 1, by omega⟩
    unfold scrapeFilmsList
    rw [scrapeFilmsListLoop_pages w username docs j 1 [] [] (f + 1)
      (fun n h1 h2 => hok n h1 (by omega))]
    rw [scrapeFilmsListLoop, Nat.add_comm 1 j, scrapeFilmsPage_error w (j + 1) _ e hfail]
    simp only [List.nil_append]
    rw [List.range'_concat, List.map_append]
    simp [Nat.add_comm]
  refine ⟨hwalk, ?_⟩
  obtain ⟨tl, hlog, hx, hd, ha⟩ := scrapeFilmsListLoop_log w username fuel 1 [] [] _ _ _ hwalk
  simp only [List.nil_append] at hlog
  refine ⟨SyncResult.mk _ db tl 0 0 0, by simp only [ScrapeUser, hwalk, hlog], rfl, rfl, hx, hd,
    ha, ?_⟩
  · simp only []
    rw [← hlog]
    generalize List.range' 1 k = ps
    induction ps with
    | nil => rfl
    | cons p ps ih => simp [fetchedPages, ih]

/-- C3, an instance: in `brokenWorld` page 1 has a film and a next anchor, page 2
does not load. -/
theorem C3_listing_failure_fatal_witness :
    scrapeFilmsList brokenWorld 5 "u" =
      some ((List.range' 1 2).map (fun n => Event.fetchListing n (listingURL "u" n)), [],
        some ("failed to scrape page " ++ toString 2 ++ ": " ++
          ("failed to visit page: " ++ "404 Not Found"))) ∧
    ∃ r, ScrapeUser brokenWorld 5 heatStore "u" = some r ∧
      r.err = some ("pass 1 failed: " ++
        ("failed to scrape page " ++ toString 2 ++ ": " ++
          ("failed to visit page: " ++ "404 Not Found"))) ∧
      r.db = heatStore ∧ existsChecks r.events = [] ∧ detailCalls r.events = [] ∧
      addCalls r.events = [] ∧ fetchedPages r.events = List.range' 1 2 :=
  C3_listing_failure_fatal brokenWorld "u" heatStore 2
    (fun _ => { tiles := [plainTile "Heat" "/film/heat/"], nextAnchors := 1 }) "404 Not Found"
    (by decide)
    (fun n h1 h2 => by
      have hn : n = 1 := by omega
      subst hn
      exact ⟨rfl, by decide⟩)
    rfl 5 (by decide)

/-- C4: if listing pages 1 to `k` all load, pages 1 to `k - 1` have a next anchor and
page `k` has none, then (given fuel for `k` pages) `scrapeFilmsList` ends, having
fetched exactly pages 1, 2, ..., `k` in this order, and returns without error the
records of these pages concatenated in page order, whatever tiles page `k` holds. -/
theorem C4_listing_walk_terminates (w : World) (username : String) (k : Nat)
    (docs : Nat → ListingDoc) (hk : 1 ≤ k)
    (hok : ∀ n, 1 ≤ n → n ≤ k → w.visitListing n (listingURL username n) = Except.ok (docs n))
    (hnext : ∀ n, 1 ≤ n → n < k → (docs n).nextAnchors > 0)
    (hlast : (docs k).nextAnchors = 0)
    (fuel : Nat) (hfuel : k ≤ fuel) :
    scrapeFilmsList w fuel username =
      some ((List.range' 1 k).map (fun n => Event.fetchListing n (listingURL username n)),
            ((List.range' 1 k).map
              (fun n => tileMovies (w.tileClock n) 0 (docs n).tiles)).flatten,
            none) := by
  obtain ⟨j, rfl⟩ : ∃ j, k = j + 1 := ⟨k - 1, by omega⟩
  obtain ⟨f, rfl⟩ : ∃ f, fuel = j + (f + 1) := ⟨fuel - j - 1, by omega⟩
  unfold scrapeFilmsList
  rw [scrapeFilmsListLoop_pages w username docs j 1 [] [] (f + 1)
    (fun n h1 h2 => ⟨hok n h1 (by omega), hnext n h1 (by omega)⟩)]
  rw [scrapeFilmsListLoop, Nat.add_comm 1 j,
    scrapeFilmsPage_ok w (j + 1) _ (docs (j + 1)) (hok (j + 1) (by omega) (le_refl _))]
  simp only [hlast, List.nil_append]
  rw [List.range'_concat, List.map_append, List.map_append, List.flatten_append]
  simp [Nat.add_comm]

/-- C4, an instance: `twoPageWorld`, whose last page is empty. -/
theorem C4_listing_walk_terminates_witness :
    scrapeFilmsList twoPageWorld 7 "u" =
      some ([Event.fetchListing 1 (listingURL "u" 1), Event.fetchListing 2 (listingURL "u" 2)],
        [dupMovie], none) :=
  C4_listing_walk_terminates twoPageWorld "u" 2
    (fun n => if n = 1 then { tiles := [plainTile "Heat" "/film/heat/"], nextAnchors := 1 }
      else { tiles := [], nextAnchors := 0 })
    (by decide)
    (fun n h1 h2 => by
      have hn : n = 1 ∨ n = 2 := by omega
      rcases hn with rfl | rfl <;> rfl)
    (fun n h1 h2 => by
      have hn : n = 1 := by omega
      subst hn
      decide)
    rfl 7 (by decide)

/-! ## Field extractors -/

/-- C5: `symbolToRating` maps the glyph sequence of `n` full stars optionally followed
by a half (`n ≤ 5`, no half after five stars, not the empty sequence) to `n`, plus one
half when the half is present, with no error; every other string gets value 0 and the
error naming the symbol. -/
theorem C5_symbolToRating :
    (∀ (n : Nat) (half : Bool), n ≤ 5 → (n = 5 → half = false) → (n = 0 → half = true) →
      symbolToRating (glyphs n half) = ((n : ℚ) + (if half then 0.5 else 0), none)) ∧
    (∀ s : String,
      (∀ (n : Nat) (half : Bool), n ≤ 5 → (n = 5 → half = false) → (n = 0 → half = true) →
        s ≠ glyphs n half) →
      symbolToRating s = (0, some ("unknown rating symbol: " ++ s))) := by
  constructor
  · intro n half hn h5 h0
    interval_cases n <;> cases half <;> simp at h5 h0 <;>
      simp +decide [symbolToRating, mapLookup, ratingMap, glyphs] <;> norm_num
  · intro s h
    have h1 : s ≠ "½" := h 0 true (by decide) (by decide) (by decide)
    have h2 : s ≠ "★" := h 1 false (by decide) (by decide) (by decide)
    have h3 : s ≠ "★½" := h 1 true (by decide) (by decide) (by decide)
    have h4 : s ≠ "★★" := h 2 false (by decide) (by decide) (by decide)
    have h5 : s ≠ "★★½" := h 2 true (by decide) (by decide) (by decide)
    have h6 : s ≠ "★★★" := h 3 false (by decide) (by decide) (by decide)
    have h7 : s ≠ "★★★½" := h 3 true (by decide) (by decide) (by decide)
    have h8 : s ≠ "★★★★" := h 4 false (by decide) (by decide) (by decide)
    have h9 : s ≠ "★★★★½" := h 4 true (by decide) (by decide) (by decide)
    have h10 : s ≠ "★★★★★" := h 5 false (by decide) (by decide) (by decide)
    simp only [symbolToRating, mapLookup, ratingMap, h1, h2, h3, h4, h5, h6, h7, h8, h9, h10,
      if_false]

/-- C5, instances: three and a half stars; the empty string, six stars, a half in
front and a padded glyph are unknown symbols. -/
theorem C5_symbolToRating_witness :
    symbolToRating "★★★½" = (3.5, none) ∧
    symbolToRating "" = (0, some "unknown rating symbol: ") ∧
    symbolToRating "★★★★★★" = (0, some "unknown rating symbol: ★★★★★★") ∧
    symbolToRating "½★" = (0, some "unknown rating symbol: ½★") ∧
    symbolToRating " ★ " = (0, some "unknown rating symbol:  ★ ") := by
  refine ⟨?_, by rfl, by rfl, by rfl, by rfl⟩
  have h := C5_symbolToRating.1 3 true (by decide) (by decide) (by decide)
  have hg : glyphs 3 true = "★★★½" := by decide
  rw [hg] at h
  rw [h]
  norm_num

/-- A list ending in a character it does not otherwise contain splits at that
character in one way only. -/
theorem append_singleton_eq_split (c : Char) :
    ∀ (X P Q : List Char), c ∉ X → X ++ [c] = P ++ c :: Q → X = P ∧ Q = [] := by
  intro X
  induction X with
  | nil =>
    intro P Q _ h
    cases P with
    | nil => simp at h; exact ⟨rfl, h⟩
    | cons p P => simp at h
  | cons x X ih =>
    intro P Q hc h
    cases P with
    | nil =>
      simp only [List.cons_append, List.nil_append, List.cons.injEq] at h
      exact absurd (h.1 ▸ List.mem_cons_self x X) hc
    | cons p P =>
      simp only [List.cons_append, List.cons.injEq] at h
      obtain ⟨hX, hQ⟩ := ih P Q (fun hm => hc (List.mem_cons_of_mem _ hm)) h.2
      exact ⟨by rw [h.1, hX], hQ⟩

theorem TrimPrefix_append (p s : String) : TrimPrefix (p ++ s) p = s := by
  have h : HasPrefix (p ++ s) p = true := by
    simp [HasPrefix, String.data_append]
  simp only [TrimPrefix, h, if_true, String.data_append, List.drop_left]

theorem TrimSuffix_append (s suf : String) : TrimSuffix (s ++ suf) suf = s := by
  have h : HasSuffix (s ++ suf) suf = true := by
    simp [HasSuffix, String.data_append]
  simp only [TrimSuffix, h, if_true, String.data_append, List.length_append,
    Nat.add_sub_cancel, List.take_left]

theorem TrimPrefix_of_not (s p : String) (h : HasPrefix s p = false) : TrimPrefix s p = s := by
  simp [TrimPrefix, h]

/-- A slug followed by a slash does not start with the `http` film prefix. -/
theorem slug_not_http (X : String) (hX : '/' ∉ X.data) :
    HasPrefix (X ++ "/") "http://letterboxd.com/film/" = false := by
  rw [Bool.eq_false_iff]
  intro h
  simp only [HasPrefix, String.data_append, List.isPrefixOf_iff_prefix] at h
  obtain ⟨t, ht⟩ := h
  have hsplit : X.data ++ ['/'] = "http:".data ++ '/' :: ("/letterboxd.com/film/".data ++ t) := by
    rw [← ht]; rfl
  have := (append_singleton_eq_split '/' X.data _ _ hX hsplit).2
  simp at this

/-- C6: for every slug `X` without a slash, `extractLetterboxdID` returns `X` for the
`https` film URL of `X` and for the `http` one; being a function on strings, it
returns a string for every input. -/
theorem C6_extractLetterboxdID (X : String) (hX : '/' ∉ X.data) :
    extractLetterboxdID ("https://letterboxd.com/film/" ++ X ++ "/") = X ∧
    extractLetterboxdID ("http://letterboxd.com/film/" ++ X ++ "/") = X ∧
    ∀ url : String, ∃ id : String, extractLetterboxdID url = id := by
  refine ⟨?_, ?_, fun url => ⟨_, rfl⟩⟩
  · unfold extractLetterboxdID
    simp only [String.append_assoc]
    rw [TrimPrefix_append, TrimPrefix_of_not _ _ (slug_not_http X hX), TrimSuffix_append]
  · unfold extractLetterboxdID
    have h1 : HasPrefix ("http://letterboxd.com/film/" ++ (X ++ "/"))
        "https://letterboxd.com/film/" = false := by
      simp [HasPrefix, String.data_append, List.isPrefixOf]
    simp only [String.append_assoc]
    rw [TrimPrefix_of_not _ _ h1, TrimPrefix_append, TrimSuffix_append]

/-- C6, an instance: the slug `the-shawshank-redemption`. -/
theorem C6_extractLetterboxdID_witness :
    extractLetterboxdID ("https://letterboxd.com/film/" ++ "the-shawshank-redemption" ++ "/") =
      "the-shawshank-redemption" ∧
    extractLetterboxdID ("http://letterboxd.com/film/" ++ "the-shawshank-redemption" ++ "/") =
      "the-shawshank-redemption" :=
  ⟨(C6_extractLetterboxdID "the-shawshank-redemption" (by decide)).1,
   (C6_extractLetterboxdID "the-shawshank-redemption" (by decide)).2.1⟩

/-! ## Decimal numerals and `strconv.Atoi` -/

theorem digitChar_isDigit (d : Nat) (h : d < 10) :
    isDigitChar (Nat.digitChar d) ∧ (Nat.digitChar d).toNat - '0'.toNat = d := by
  unfold isDigitChar
  interval_cases d <;> decide

theorem isSpace_of_digit (c : Char) (h : isDigitChar c) : isSpace c = false := by
  unfold isDigitChar at h
  have h0 : '0'.toNat = 48 := by decide
  have h9 : '9'.toNat = 57 := by decide
  rw [h0, h9] at h
  unfold isSpace
  simp only [Bool.or_eq_false_iff, Bool.and_eq_false_iff, decide_eq_false_iff_not,
    beq_eq_false_iff_ne, ne_eq]
  omega

theorem toDigitsCore_append (fuel : Nat) :
    ∀ (n : Nat) (ds : List Char),
      Nat.toDigitsCore 10 fuel n ds = Nat.toDigitsCore 10 fuel n [] ++ ds := by
  induction fuel with
  | zero => intro n ds; simp [Nat.toDigitsCore]
  | succ fuel ih =>
    intro n ds
    simp only [Nat.toDigitsCore]
    by_cases h : n / 10 = 0
    · simp [h]
    · simp only [h, if_false]
      rw [ih (n / 10) (Nat.digitChar (n % 10) :: ds), ih (n / 10) [Nat.digitChar (n % 10)]]
      simp

theorem toDigitsCore_digits (fuel : Nat) :
    ∀ (n : Nat) (ds : List Char), (∀ c ∈ ds, isDigitChar c) →
      ∀ c ∈ Nat.toDigitsCore 10 fuel n ds, isDigitChar c := by
  induction fuel with
  | zero => intro n ds h; simpa [Nat.toDigitsCore] using h
  | succ fuel ih =>
    intro n ds h
    have hd : ∀ c ∈ Nat.digitChar (n % 10) :: ds, isDigitChar c := by
      intro c hc
      rcases List.mem_cons.mp hc with rfl | hc
      · exact (digitChar_isDigit (n % 10) (Nat.mod_lt _ (by decide))).1
      · exact h c hc
    simp only [Nat.toDigitsCore]
    by_cases hz : n / 10 = 0
    · simpa [hz] using hd
    · simp only [hz, if_false]
      exact ih (n / 10) _ hd

theorem toDigitsCore_ne_nil (fuel : Nat) :
    ∀ (n : Nat) (ds : List Char), ds ≠ [] → Nat.toDigitsCore 10 fuel n ds ≠ [] := by
  induction fuel with
  | zero => intro n ds h; simpa [Nat.toDigitsCore] using h
  | succ fuel ih =>
    intro n ds _
    simp only [Nat.toDigitsCore]
    by_cases hz : n / 10 = 0
    · simp [hz]
    · simp only [hz, if_false]
      exact ih (n / 10) _ (by simp)

theorem toDigits_ne_nil (n : Nat) : Nat.toDigits 10 n ≠ [] := by
  unfold Nat.toDigits
  simp only [Nat.toDigitsCore]
  by_cases hz : n / 10 = 0
  · simp [hz]
  · simp only [hz, if_false]
    exact toDigitsCore_ne_nil n (n / 10) _ (by simp)

theorem toDigits_digits (n : Nat) : ∀ c ∈ Nat.toDigits 10 n, isDigitChar c :=
  toDigitsCore_digits (n + 1) n [] (by simp)

/-- One step of the digit loop on a digit that does not overflow. -/
theorem parseUintLoop_digit (d : Nat) (hd : d < 10) (cs : List Char) (n : Nat)
    (h : n * 10 + d ≤ maxUint64) :
    parseUintLoop (Nat.digitChar d :: cs) n = parseUintLoop cs (n * 10 + d) := by
  obtain ⟨hdig, hval⟩ := digitChar_isDigit d hd
  unfold isDigitChar at hdig
  have hcut : ¬ n ≥ maxUint64 / 10 + 1 := by
    have : maxUint64 = 18446744073709551615 := by decide
    omega
  rw [parseUintLoop]
  simp only [hdig, and_self, if_true, hcut, if_false, hval]
  have : ¬ n * 10 + d > maxUint64 := by omega
  simp only [this, if_false]

/-- Reading back the digits `Nat.toDigitsCore` writes in front of `ds`. -/
theorem parseUintLoop_toDigitsCore (fuel : Nat) :
    ∀ (n : Nat) (ds : List Char), n < fuel → n ≤ maxUint64 →
      parseUintLoop (Nat.toDigitsCore 10 fuel n ds) 0 = parseUintLoop ds n := by
  induction fuel with
  | zero => intro n ds h; omega
  | succ fuel ih =>
    intro n ds hf hmax
    simp only [Nat.toDigitsCore]
    have hdm := Nat.div_add_mod n 10
    by_cases hz : n / 10 = 0
    · simp only [hz, if_true]
      rw [parseUintLoop_digit (n % 10) (Nat.mod_lt _ (by decide)) ds 0 (by omega)]
      congr 1
      omega
    · simp only [hz, if_false]
      rw [ih (n / 10) _ (by omega) (by omega),
        parseUintLoop_digit (n % 10) (Nat.mod_lt _ (by decide)) ds (n / 10) (by omega)]
      congr 1
      omega

theorem parseUintLoop_toDigits (n : Nat) (ds : List Char) (h : n ≤ maxUint64) :
    parseUintLoop (Nat.toDigits 10 n ++ ds) 0 = parseUintLoop ds n := by
  unfold Nat.toDigits
  rw [← toDigitsCore_append]
  exact parseUintLoop_toDigitsCore (n + 1) n ds (Nat.lt_succ_self n) h

theorem ParseUint_toDigits (n : Nat) (h : n ≤ maxUint64) :
    ParseUint (Nat.toDigits 10 n) = (n, none) := by
  unfold ParseUint
  have hne := toDigits_ne_nil n
  have hemp : (Nat.toDigits 10 n).isEmpty = false := by
    cases hd : Nat.toDigits 10 n with
    | nil => exact absurd hd hne
    | cons c cs => rfl
  rw [hemp]
  have := parseUintLoop_toDigits n [] h
  simp only [List.append_nil] at this
  simp only [Bool.false_eq_true, if_false, this, parseUintLoop]

/-- A numeral does not start with a sign. -/
theorem toDigits_head (n : Nat) :
    ∃ c cs, Nat.toDigits 10 n = c :: cs ∧ isDigitChar c ∧ c ≠ '+' ∧ c ≠ '-' := by
  cases hd : Nat.toDigits 10 n with
  | nil => exact absurd hd (toDigits_ne_nil n)
  | cons c cs =>
    have hc : isDigitChar c := toDigits_digits n c (by rw [hd]; exact List.mem_cons_self c cs)
    refine ⟨c, cs, rfl, hc, ?_, ?_⟩
    · rintro rfl; revert hc; unfold isDigitChar; decide
    · rintro rfl; revert hc; unfold isDigitChar; decide

/-- `ParseInt` reads back the numeral of a natural number below `2 ^ 63`. -/
theorem ParseInt_toDigits (n : Nat) (h : n < 2 ^ 63) :
    ParseInt (Nat.toDigits 10 n) = ((n : Int), none) := by
  obtain ⟨c, cs, hcs, _, hplus, hminus⟩ := toDigits_head n
  have hu := ParseUint_toDigits n (by unfold maxUint64; omega)
  rw [hcs] at hu
  rw [hcs]
  simp only [ParseInt, hplus, hminus, or_self, if_false, hu, decide_False]
  have : ¬ n ≥ 2 ^ 63 := by omega
  simp only [this, and_false, if_false, Bool.false_eq_true, false_and]

/-- `ParseInt` reads back the numeral of a negative number down to `-2 ^ 63`. -/
theorem ParseInt_neg_toDigits (n : Nat) (h : n ≤ 2 ^ 63) :
    ParseInt ('-' :: Nat.toDigits 10 n) = (-(n : Int), none) := by
  have hu := ParseUint_toDigits n (by unfold maxUint64; omega)
  simp only [ParseInt, or_true, if_true, hu, decide_True]
  have : ¬ n > 2 ^ 63 := by omega
  simp only [this, and_false, if_false, Bool.not_eq_true, Bool.true_eq_false, not_true_eq_false,
    false_and, if_true]

/-- `Atoi` reads back the decimal numeral of every 64-bit `int`. -/
theorem Atoi_toString (z : Int) (hlo : minInt ≤ z) (hhi : z ≤ maxInt) :
    Atoi (toString z) = (z, none) := by
  unfold minInt at hlo
  unfold maxInt at hhi
  unfold Atoi
  cases z with
  | ofNat m =>
    have : (toString (Int.ofNat m)).data = Nat.toDigits 10 m := rfl
    rw [this]
    have hm : (Int.ofNat m : Int) = (m : Int) := rfl
    rw [hm] at hhi ⊢
    exact ParseInt_toDigits m (by omega)
  | negSucc m =>
    have : (toString (Int.negSucc m)).data = '-' :: Nat.toDigits 10 (m + 1) := rfl
    have hm : Int.negSucc m = -((m + 1 : Nat) : Int) := rfl
    rw [this, ParseInt_neg_toDigits (m + 1) (by omega), hm]

/-! ## Lemmas on trimming, fields and splitting -/

theorem trimLeft_spaces (ws rest : List Char) (h : ∀ c ∈ ws, isSpace c = true) :
    trimLeft (ws ++ rest) = trimLeft rest := by
  unfold trimLeft
  exact List.dropWhile_append_of_pos h

theorem trimLeft_cons_nonspace (c : Char) (cs : List Char) (h : isSpace c = false) :
    trimLeft (c :: cs) = c :: cs := by
  unfold trimLeft
  rw [List.dropWhile_cons_of_neg (by simp [h])]

theorem trimRight_spaces (rest ws : List Char) (h : ∀ c ∈ ws, isSpace c = true) :
    trimRight (rest ++ ws) = trimRight rest := by
  unfold trimRight
  rw [List.reverse_append,
    List.dropWhile_append_of_pos (fun c hc => h c (List.mem_reverse.mp hc))]

theorem trimRight_concat_nonspace (cs : List Char) (c : Char) (h : isSpace c = false) :
    trimRight (cs ++ [c]) = cs ++ [c] := by
  unfold trimRight
  rw [List.reverse_append, List.reverse_singleton, List.singleton_append,
    List.dropWhile_cons_of_neg (by simp [h])]
  simp

/-- Trimming a text that is a token without spaces between two runs of spaces. -/
theorem trim_token (ws1 tok ws2 : List Char) (h1 : ∀ c ∈ ws1, isSpace c = true)
    (h2 : ∀ c ∈ ws2, isSpace c = true) (htok : ∀ c ∈ tok, isSpace c = false) :
    trimRight (trimLeft (ws1 ++ tok ++ ws2)) = tok := by
  rw [List.append_assoc, trimLeft_spaces ws1 _ h1]
  cases tok with
  | nil =>
    simp only [List.nil_append]
    unfold trimLeft trimRight
    rw [(List.dropWhile_eq_nil_iff).mpr h2]
    rfl
  | cons c cs =>
    rw [List.cons_append, trimLeft_cons_nonspace c _ (htok c (List.mem_cons_self c cs)),
      ← List.cons_append, trimRight_spaces _ ws2 h2]
    rcases List.eq_nil_or_concat (c :: cs) with h | ⟨init, last, h⟩
    · exact absurd h (by simp)
    · rw [List.concat_eq_append] at h
      rw [h]
      exact trimRight_concat_nonspace init last
        (htok last (by rw [h]; simp))

theorem trimRight_cons (c : Char) (cs : List Char) :
    trimRight (c :: cs) =
      if trimRight cs = [] then (if isSpace c then [] else [c]) else c :: trimRight cs := by
  unfold trimRight
  rw [List.reverse_cons, List.dropWhile_append]
  by_cases h : List.dropWhile isSpace cs.reverse = []
  · simp only [h, List.isEmpty_nil, if_true, List.reverse_nil]
    by_cases hc : isSpace c = true
    · simp [hc]
    · simp [hc]
  · have h' : (List.dropWhile isSpace cs.reverse).isEmpty = false := by
      cases hd : List.dropWhile isSpace cs.reverse with
      | nil => exact absurd hd h
      | cons x xs => rfl
    simp [h', h]

theorem fieldsL_trimLeft (cs : List Char) : fieldsL (trimLeft cs) [] = fieldsL cs [] := by
  unfold trimLeft
  induction cs with
  | nil => rfl
  | cons c cs ih =>
    by_cases hc : isSpace c = true
    · rw [List.dropWhile_cons_of_pos hc, ih]
      simp [fieldsL, hc]
    · rw [List.dropWhile_cons_of_neg hc]

theorem fieldsL_trimRight (cs : List Char) :
    ∀ cur : List Char, fieldsL (trimRight cs) cur = fieldsL cs cur := by
  induction cs with
  | nil => intro cur; rfl
  | cons c cs ih =>
    intro cur
    rw [trimRight_cons]
    by_cases ht : trimRight cs = []
    · simp only [ht, if_true]
      have ih' : ∀ cur, fieldsL cs cur = fieldsL [] cur := by
        intro cur'; rw [← ih cur', ht]
      by_cases hc : isSpace c = true
      · simp only [hc, if_true]
        simp only [fieldsL, hc, if_true, ih']
        by_cases hcur : cur.isEmpty = true <;> simp [hcur]
      · simp only [hc, if_false]
        simp only [fieldsL, hc, if_false, ih', Bool.false_eq_true]
    · simp only [ht, if_false]
      simp only [fieldsL, ih]

/-- `strings.Fields` does not see the white space `strings.TrimSpace` removes. -/
theorem Fields_TrimSpace (s : String) : Fields (TrimSpace s) = Fields s := by
  unfold Fields TrimSpace
  simp only
  rw [fieldsL_trimRight, fieldsL_trimLeft]

theorem fieldsL_token (tok rest : List Char) (htok : ∀ c ∈ tok, isSpace c = false) :
    ∀ cur : List Char, fieldsL (tok ++ rest) cur = fieldsL rest (tok.reverse ++ cur) := by
  induction tok with
  | nil => intro cur; rfl
  | cons c cs ih =>
    intro cur
    have hc := htok c (List.mem_cons_self c cs)
    rw [List.cons_append, fieldsL]
    simp only [hc, Bool.false_eq_true, if_false]
    rw [ih (fun x hx => htok x (List.mem_cons_of_mem _ hx))]
    simp

theorem fieldsL_spaces (ws rest : List Char) (h : ∀ c ∈ ws, isSpace c = true) :
    fieldsL (ws ++ rest) [] = fieldsL rest [] := by
  induction ws with
  | nil => rfl
  | cons c cs ih =>
    rw [List.cons_append, fieldsL]
    simp only [h c (List.mem_cons_self c cs), if_true, List.isEmpty_nil]
    exact ih (fun x hx => h x (List.mem_cons_of_mem _ hx))

/-- The first field of a text that starts, after spaces, with a token ended by the end
of the text or by a space. -/
theorem fieldsL_head (ws tok tail : List Char) (hws : ∀ c ∈ ws, isSpace c = true)
    (htok : ∀ c ∈ tok, isSpace c = false) (hne : tok ≠ [])
    (htail : tail = [] ∨ ∃ c cs, tail = c :: cs ∧ isSpace c = true) :
    ∃ more, fieldsL (ws ++ tok ++ tail) [] = tok :: more := by
  rw [List.append_assoc, fieldsL_spaces ws _ hws, fieldsL_token tok tail htok, List.append_nil]
  have hemp : tok.reverse.isEmpty = false := by
    cases tok with
    | nil => exact absurd rfl hne
    | cons c cs => simp
  rcases htail with rfl | ⟨c, cs, rfl, hc⟩
  · exact ⟨[], by simp [fieldsL, hemp]⟩
  · exact ⟨fieldsL cs [], by simp [fieldsL, hc, hemp]⟩

theorem containsL_singleton (c : Char) (cs : List Char) :
    containsL cs [c] = decide (c ∈ cs) := by
  induction cs with
  | nil => simp [containsL, List.isPrefixOf]
  | cons x xs ih =>
    simp only [containsL, ih, List.isPrefixOf, List.mem_cons]
    by_cases hx : c = x
    · subst hx; simp
    · have hx' : (c == x) = false := by simpa using hx
      cases xs <;> simp [hx, hx', List.isPrefixOf]

theorem mem_trim (c : Char) (cs : List Char) (hc : isSpace c = false) :
    c ∈ trimRight (trimLeft cs) ↔ c ∈ cs := by
  have hdrop : ∀ l : List Char, c ∈ l.dropWhile isSpace ↔ c ∈ l := by
    intro l
    induction l with
    | nil => simp
    | cons x xs ih =>
      by_cases hx : isSpace x = true
      · rw [List.dropWhile_cons_of_pos hx, ih, List.mem_cons]
        constructor
        · exact Or.inr
        · rintro (rfl | h)
          · rw [hc] at hx; exact absurd hx (by simp)
          · exact h
      · rw [List.dropWhile_cons_of_neg hx]
  unfold trimRight trimLeft
  rw [List.mem_reverse, hdrop, List.mem_reverse, hdrop]

/-- White space trimming does not change whether a non-space character occurs. -/
theorem Contains_TrimSpace (s : String) (c : Char) (hc : isSpace c = false) :
    Contains (TrimSpace s) ⟨[c]⟩ = Contains s ⟨[c]⟩ := by
  unfold Contains TrimSpace
  simp only [containsL_singleton]
  rw [decide_eq_decide]
  exact mem_trim c s.data hc

theorem splitL_no_sep (sep : Char) (cs : List Char) (h : sep ∉ cs) :
    ∀ cur : List Char, splitL sep cs cur = [cur.reverse ++ cs] := by
  induction cs with
  | nil => intro cur; simp [splitL]
  | cons c cs ih =>
    intro cur
    have hc : c ≠ sep := fun e => h (e ▸ List.mem_cons_self c cs)
    simp only [splitL, hc, if_false]
    rw [ih (fun hm => h (List.mem_cons_of_mem _ hm))]
    simp

theorem splitL_at_sep (sep : Char) (a b : List Char) (h : sep ∉ a) :
    ∀ cur : List Char,
      splitL sep (a ++ sep :: b) cur = (cur.reverse ++ a) :: splitL sep b [] := by
  induction a with
  | nil => intro cur; simp [splitL]
  | cons c cs ih =>
    intro cur
    have hc : c ≠ sep := fun e => h (e ▸ List.mem_cons_self c cs)
    rw [List.cons_append, splitL]
    simp only [hc, if_false]
    rw [ih (fun hm => h (List.mem_cons_of_mem _ hm))]
    simp

/-! ## `parseInt` -/

/-- The value `ParseInt` returns next to an error: 0 with a syntax error; with a range
error the smallest `int` when the text starts with a minus sign and the largest `int`
otherwise. -/
theorem ParseInt_error_value (cs : List Char) :
    ((ParseInt cs).2 = some NumError.ErrSyntax → (ParseInt cs).1 = 0) ∧
    ((ParseInt cs).2 = some NumError.ErrRange →
      (ParseInt cs).1 = if cs.head? = some '-' then minInt else maxInt) := by
  cases cs with
  | nil => simp [ParseInt]
  | cons c rest =>
    simp only [ParseInt, List.head?_cons, Option.some.injEq]
    split
    · simp
    · split_ifs <;> simp_all

theorem toString_int_data (z : Int) :
    (toString z).data ≠ [] ∧ ∀ c ∈ (toString z).data, isSpace c = false := by
  cases z with
  | ofNat m =>
    have h : (toString (Int.ofNat m)).data = Nat.toDigits 10 m := rfl
    rw [h]
    exact ⟨toDigits_ne_nil m, fun c hc => isSpace_of_digit c (toDigits_digits m c hc)⟩
  | negSucc m =>
    have h : (toString (Int.negSucc m)).data = '-' :: Nat.toDigits 10 (m + 1) := rfl
    rw [h]
    refine ⟨by simp, fun c hc => ?_⟩
    rcases List.mem_cons.mp hc with rfl | hc
    · decide
    · exact isSpace_of_digit c (toDigits_digits (m + 1) c hc)

/-- Trailing white space is trimmed behind a token without spaces. -/
theorem trimRight_token_append (g : List Char) :
    ∀ tok : List Char, (∀ c ∈ tok, isSpace c = false) →
      trimRight (tok ++ g) = tok ++ trimRight g := by
  intro tok
  induction tok with
  | nil => intro _; rfl
  | cons c cs ih =>
    intro h
    have hc : isSpace c = false := h c (List.mem_cons_self c cs)
    rw [List.cons_append, trimRight_cons, ih (fun x hx => h x (List.mem_cons_of_mem c hx))]
    by_cases he : cs ++ trimRight g = []
    · simp [he, hc]
    · simp [he]

/-- The trimmed form of a token without spaces followed by any text. -/
theorem TrimSpace_token_append (a g : String) (hne : a.data ≠ [])
    (h : ∀ c ∈ a.data, isSpace c = false) :
    (TrimSpace (a ++ g)).data = a.data ++ trimRight g.data := by
  unfold TrimSpace
  simp only [String.data_append]
  cases ha : a.data with
  | nil => exact absurd ha hne
  | cons c cs =>
    rw [ha] at h
    rw [List.cons_append, trimLeft_cons_nonspace c _ (h c (List.mem_cons_self c cs)),
      ← List.cons_append, trimRight_token_append g.data (c :: cs) h]

/-- A text with a character that is not a space keeps its first character when its
trailing white space is trimmed. -/
theorem trimRight_head (c : Char) (rest : List Char)
    (h : ∃ x ∈ c :: rest, isSpace x = false) : ∃ r, trimRight (c :: rest) = c :: r := by
  rw [trimRight_cons]
  by_cases he : trimRight rest = []
  · simp only [he, if_true]
    obtain ⟨x, hx, hsp⟩ := h
    rcases List.mem_cons.mp hx with rfl | hx
    · exact ⟨[], by simp [hsp]⟩
    · exfalso
      unfold trimRight at he
      have he' : List.dropWhile isSpace rest.reverse = [] := by
        simpa using congrArg List.reverse he
      rw [List.dropWhile_eq_nil_iff] at he'
      have := he' x (List.mem_reverse.mpr hx)
      rw [hsp] at this
      exact absurd this (by decide)
  · exact ⟨trimRight rest, by simp [he]⟩

/-- The digit loop stops with a range error inside a numeral beyond `uint64`, whatever
follows the numeral. -/
theorem parseUintLoop_overflow (fuel : Nat) :
    ∀ (n : Nat) (ds : List Char), n < fuel → maxUint64 < n →
      parseUintLoop (Nat.toDigitsCore 10 fuel n ds) 0 = (maxUint64, some NumError.ErrRange) := by
  induction fuel with
  | zero => intro n ds h; omega
  | succ fuel ih =>
    intro n ds hf hbig
    have hmax : maxUint64 = 18446744073709551615 := by decide
    simp only [Nat.toDigitsCore]
    have hdm := Nat.div_add_mod n 10
    have hz : ¬ n / 10 = 0 := by omega
    simp only [hz, if_false]
    by_cases hq : maxUint64 < n / 10
    · exact ih (n / 10) _ (by omega) hq
    · rw [parseUintLoop_toDigitsCore fuel (n / 10) _ (by omega) (by omega)]
      obtain ⟨hdig, hval⟩ := digitChar_isDigit (n % 10) (Nat.mod_lt _ (by decide))
      unfold isDigitChar at hdig
      rw [parseUintLoop]
      simp only [hdig, and_self, if_true, hval]
      by_cases hcut : n / 10 ≥ maxUint64 / 10 + 1
      · simp only [hcut, if_true]
      · have : n / 10 * 10 + n % 10 > maxUint64 := by omega
        simp only [hcut, if_false, this, if_true]

theorem ParseUint_overflow (n : Nat) (ds : List Char) (h : maxUint64 < n) :
    ParseUint (Nat.toDigits 10 n ++ ds) = (maxUint64, some NumError.ErrRange) := by
  unfold ParseUint
  obtain ⟨c, cs, hcs, _⟩ := toDigits_head n
  have hemp : (Nat.toDigits 10 n ++ ds).isEmpty = false := by rw [hcs]; rfl
  rw [hemp]
  simp only [Bool.false_eq_true, if_false]
  unfold Nat.toDigits
  rw [← toDigitsCore_append]
  exact parseUintLoop_overflow (n + 1) n ds (Nat.lt_succ_self n) h

/-- A non-digit behind a numeral that fits `uint64` is a syntax error. -/
theorem ParseUint_garbage (n : Nat) (c : Char) (rest : List Char) (h : n ≤ maxUint64)
    (hc : ¬ isDigitChar c) :
    ParseUint (Nat.toDigits 10 n ++ c :: rest) = (0, some NumError.ErrSyntax) := by
  unfold ParseUint
  obtain ⟨d, ds, hds, _⟩ := toDigits_head n
  have hemp : (Nat.toDigits 10 n ++ c :: rest).isEmpty = false := by rw [hds]; rfl
  rw [hemp]
  simp only [Bool.false_eq_true, if_false]
  rw [parseUintLoop_toDigits n _ h, parseUintLoop]
  unfold isDigitChar at hc
  simp only [hc, if_false]

/-- `ParseInt` on an unsigned text, from the result of `ParseUint`. -/
theorem ParseInt_unsigned (cs : List Char) (hne : cs ≠ []) (hp : cs.head? ≠ some '+')
    (hm : cs.head? ≠ some '-') :
    ParseInt cs =
      if (ParseUint cs).2 = some NumError.ErrSyntax then (0, some NumError.ErrSyntax)
      else if (ParseUint cs).1 ≥ 2 ^ 63 then (maxInt, some NumError.ErrRange)
      else (((ParseUint cs).1 : Int), none) := by
  cases cs with
  | nil => exact absurd rfl hne
  | cons c rest =>
    have hp' : c ≠ '+' := by simpa using hp
    have hm' : c ≠ '-' := by simpa using hm
    simp only [ParseInt, hp', hm', or_self, if_false, decide_False]
    generalize ParseUint (c :: rest) = p
    rcases p with ⟨un, _ | _ | _⟩ <;> simp

/-- `ParseInt` on a text with a minus sign, from the result of `ParseUint`. -/
theorem ParseInt_minus (cs : List Char) :
    ParseInt ('-' :: cs) =
      if (ParseUint cs).2 = some NumError.ErrSyntax then (0, some NumError.ErrSyntax)
      else if (ParseUint cs).1 > 2 ^ 63 then (minInt, some NumError.ErrRange)
      else (-((ParseUint cs).1 : Int), none) := by
  simp only [ParseInt, or_true, if_true, decide_True]
  generalize ParseUint cs = p
  rcases p with ⟨un, _ | _ | _⟩ <;> simp

/-- The decimal numeral of an integer: the digits of its absolute value, behind a minus
sign when it is negative. -/
theorem toString_int_cases (z : Int) :
    (0 ≤ z ∧ (toString z).data = Nat.toDigits 10 z.natAbs) ∨
    (z < 0 ∧ (toString z).data = '-' :: Nat.toDigits 10 z.natAbs) := by
  cases z with
  | ofNat m => exact Or.inl ⟨Int.ofNat_nonneg m, rfl⟩
  | negSucc m => exact Or.inr ⟨Int.negSucc_lt_zero m, rfl⟩

/-- `ParseInt` on the numeral of an integer followed by any text, from the result of
`ParseUint` on the digits and that text. -/
theorem ParseInt_numeral (z : Int) (r : List Char) :
    ParseInt ((toString z).data ++ r) =
      if (ParseUint (Nat.toDigits 10 z.natAbs ++ r)).2 = some NumError.ErrSyntax then
        (0, some NumError.ErrSyntax)
      else if z < 0 then
        (if (ParseUint (Nat.toDigits 10 z.natAbs ++ r)).1 > 2 ^ 63 then
          (minInt, some NumError.ErrRange)
         else (-((ParseUint (Nat.toDigits 10 z.natAbs ++ r)).1 : Int), none))
      else
        (if (ParseUint (Nat.toDigits 10 z.natAbs ++ r)).1 ≥ 2 ^ 63 then
          (maxInt, some NumError.ErrRange)
         else (((ParseUint (Nat.toDigits 10 z.natAbs ++ r)).1 : Int), none)) := by
  rcases toString_int_cases z with ⟨hz, hd⟩ | ⟨hz, hd⟩
  · rw [hd]
    obtain ⟨c, cs, hcs, _, hplus, hminus⟩ := toDigits_head z.natAbs
    have hneg : ¬ z < 0 := by omega
    rw [ParseInt_unsigned _ (by rw [hcs]; simp) (by rw [hcs]; simpa using hplus)
      (by rw [hcs]; simpa using hminus)]
    simp only [hneg, if_false]
  · rw [hd, List.cons_append, ParseInt_minus]
    simp only [hz, if_true]

/-- C8 (amended): `parseInt` returns the integer for every decimal numeral of a 64-bit
`int` between any white space, and more generally whatever integer `Atoi` accepts in
the trimmed string. It returns 0 when the parse reports a syntax error: for a string
that is empty once trimmed, for one that starts with a character that is neither a
digit nor a sign, and for a numeral that fits `uint64` followed by garbage. It returns
a bound of `int` when the parse reports a range error, the smallest `int` when the
trimmed string starts with a minus sign and the largest `int` otherwise: for a numeral
outside the `int` range between any white space, and for a numeral beyond the `uint64`
range whatever follows it. Its result type has no error. -/
theorem C8_parseInt :
    (∀ (z : Int) (ws1 ws2 : String), minInt ≤ z → z ≤ maxInt →
      (∀ c ∈ ws1.data, isSpace c = true) → (∀ c ∈ ws2.data, isSpace c = true) →
      parseInt (ws1 ++ toString z ++ ws2) = z) ∧
    (∀ (s : String) (n : Int), Atoi (TrimSpace s) = (n, none) → parseInt s = n) ∧
    (∀ s : String, (Atoi (TrimSpace s)).2 = some NumError.ErrSyntax → parseInt s = 0) ∧
    (∀ s : String, (Atoi (TrimSpace s)).2 = some NumError.ErrRange →
      parseInt s = if (TrimSpace s).data.head? = some '-' then minInt else maxInt) ∧
    (∀ s : String, TrimSpace s = "" → parseInt s = 0) ∧
    (∀ (s : String) (c : Char) (rest : List Char), (TrimSpace s).data = c :: rest →
      ¬ isDigitChar c → c ≠ '+' → c ≠ '-' → parseInt s = 0) ∧
    (∀ (z : Int) (g : String) (c : Char) (rest : List Char),
      -(maxUint64 : Int) ≤ z → z ≤ (maxUint64 : Int) → g.data = c :: rest → ¬ isDigitChar c →
      (∃ x ∈ g.data, isSpace x = false) → parseInt (toString z ++ g) = 0) ∧
    (∀ (z : Int) (ws1 ws2 : String),
      (∀ c ∈ ws1.data, isSpace c = true) → (∀ c ∈ ws2.data, isSpace c = true) →
      (maxInt < z → parseInt (ws1 ++ toString z ++ ws2) = maxInt) ∧
      (z < minInt → parseInt (ws1 ++ toString z ++ ws2) = minInt)) ∧
    (∀ (z : Int) (g : String),
      ((maxUint64 : Int) < z → parseInt (toString z ++ g) = maxInt) ∧
      (z < -(maxUint64 : Int) → parseInt (toString z ++ g) = minInt)) := by
  have hmax : maxUint64 = 18446744073709551615 := by decide
  refine ⟨?_, ?_, ?_, ?_, ?_, ?_, ?_, ?_, ?_⟩
  · intro z ws1 ws2 hlo hhi h1 h2
    have htrim : TrimSpace (ws1 ++ toString z ++ ws2) = toString z := by
      unfold TrimSpace
      simp only [String.data_append]
      rw [trim_token ws1.data (toString z).data ws2.data h1 h2 (toString_int_data z).2]
    unfold parseInt
    rw [htrim, Atoi_toString z hlo hhi]
  · intro s n h
    unfold parseInt
    rw [h]
  · intro s h
    exact (ParseInt_error_value (TrimSpace s).data).1 h
  · intro s h
    exact (ParseInt_error_value (TrimSpace s).data).2 h
  · intro s h
    unfold parseInt
    rw [h]
    rfl
  · intro s c rest h hc hp hm
    unfold parseInt Atoi
    rw [h, ParseInt_unsigned _ (by simp) (by simpa using hp) (by simpa using hm)]
    have hu : ParseUint (c :: rest) = (0, some NumError.ErrSyntax) := by
      unfold isDigitChar at hc
      rw [ParseUint, parseUintLoop]
      simp only [hc, if_false, List.isEmpty_cons, Bool.false_eq_true]
    rw [hu]
    simp
  · intro z g c rest hlo hhi hg hc hx
    rw [hg] at hx
    obtain ⟨r, hr⟩ := trimRight_head c rest hx
    have htrim : (TrimSpace (toString z ++ g)).data = (toString z).data ++ c :: r := by
      rw [TrimSpace_token_append (toString z) g (toString_int_data z).1
        (toString_int_data z).2, hg, hr]
    unfold parseInt Atoi
    rw [htrim, ParseInt_numeral,
      ParseUint_garbage z.natAbs c r (by omega) hc]
    simp
  · intro z ws1 ws2 h1 h2
    have htrim : (TrimSpace (ws1 ++ toString z ++ ws2)).data = (toString z).data ++ [] := by
      unfold TrimSpace
      simp only [String.data_append]
      rw [trim_token ws1.data (toString z).data ws2.data h1 h2 (toString_int_data z).2]
      simp
    unfold parseInt Atoi
    rw [htrim, ParseInt_numeral]
    unfold maxInt minInt
    by_cases hbig : maxUint64 < z.natAbs
    · rw [ParseUint_overflow z.natAbs [] hbig]
      constructor
      · intro hz
        have : ¬ z < 0 := by omega
        simp [this, hmax]
      · intro hz
        have : z < 0 := by omega
        simp [this, hmax]
    · have hu := ParseUint_toDigits z.natAbs (by omega)
      rw [List.append_nil, hu]
      constructor
      · intro hz
        have h0 : ¬ z < 0 := by omega
        have h1 : 9223372036854775808 ≤ z.natAbs := by omega
        simp [h0, h1]
      · intro hz
        have h0 : z < 0 := by omega
        have h1 : 9223372036854775808 < z.natAbs := by omega
        simp [h0, h1]
  · intro z g
    have htrim : (TrimSpace (toString z ++ g)).data = (toString z).data ++ trimRight g.data :=
      TrimSpace_token_append (toString z) g (toString_int_data z).1 (toString_int_data z).2
    unfold parseInt Atoi
    rw [htrim, ParseInt_numeral]
    constructor
    · intro hz
      rw [ParseUint_overflow z.natAbs _ (by omega)]
      have : ¬ z < 0 := by omega
      simp [this, hmax]
    · intro hz
      rw [ParseUint_overflow z.natAbs _ (by omega)]
      have : z < 0 := by omega
      simp [this, hmax]

/-- C8, instances: a padded numeral; the empty string, a word, and a numeral with
trailing garbage give 0; a numeral beyond `uint64` gives the largest `int` also when
garbage follows it, and the smallest `int` behind a minus sign. -/
theorem C8_parseInt_witness :
    parseInt (" \t" ++ toString (-1994 : Int) ++ "\n") = -1994 ∧
    parseInt "" = 0 ∧ parseInt "year" = 0 ∧
    parseInt (toString (1994 : Int) ++ "x") = 0 ∧
    parseInt "99999999999999999999x" =
      (if (TrimSpace "99999999999999999999x").data.head? = some '-' then minInt else maxInt) ∧
    parseInt (toString (-99999999999999999999 : Int) ++ " min") = minInt :=
  ⟨C8_parseInt.1 (-1994) " \t" "\n" (by decide) (by decide) (by decide) (by decide),
   C8_parseInt.2.2.2.2.1 "" (by decide),
   C8_parseInt.2.2.2.2.2.1 "year" 'y' ['e', 'a', 'r'] (by decide)
     (by unfold isDigitChar; decide) (by decide) (by decide),
   C8_parseInt.2.2.2.2.2.2.1 1994 "x" 'x' [] (by decide) (by decide) rfl
     (by unfold isDigitChar; decide) ⟨'x', by decide, by decide⟩,
   C8_parseInt.2.2.2.1 "99999999999999999999x" (by decide),
   (C8_parseInt.2.2.2.2.2.2.2.2 (-99999999999999999999) " min").2 (by decide)⟩

/-- C8 as stated fails: for the numeral of `2 ^ 63` the parse reports a range error
and `parseInt` returns the largest `int`, not 0; likewise the smallest `int` for a
numeral below the range; and a numeral beyond `uint64` followed by garbage is a range
error too, while the numeral of `2 ^ 63` followed by garbage gives 0. -/
theorem C8_counterexample :
    (Atoi (TrimSpace "9223372036854775808")).2 = some NumError.ErrRange ∧
    parseInt "9223372036854775808" = 9223372036854775807 ∧
    parseInt "9223372036854775808" ≠ 0 ∧
    parseInt "-99999999999999999999" = -9223372036854775808 ∧
    parseInt "99999999999999999999x" = 9223372036854775807 ∧
    parseInt "9223372036854775808x" = 0 := by
  decide

/-! ## `parseRuntime` -/

/-- The first shape: the first field is returned when `Atoi` accepts it. -/
theorem parseRuntime_first_field (text tok : String) (rest : List String) (n : Int)
    (hf : Fields text = tok :: rest) (ha : Atoi tok = (n, none)) : parseRuntime text = n := by
  unfold parseRuntime
  simp only [Fields_TrimSpace, hf, List.length_cons, List.headD_cons, ha]
  simp

/-- Neither shape: no first field that `Atoi` accepts and not both letters. -/
theorem parseRuntime_neither (text : String)
    (hf : Fields text = [] ∨ (Atoi ((Fields text).headD "")).2 ≠ none)
    (hc : ¬ (Contains text "h" = true ∧ Contains text "m" = true)) : parseRuntime text = 0 := by
  unfold parseRuntime
  have hh : Contains (TrimSpace text) "h" = Contains text "h" :=
    Contains_TrimSpace text 'h' (by decide)
  have hm : Contains (TrimSpace text) "m" = Contains text "m" :=
    Contains_TrimSpace text 'm' (by decide)
  simp only [Fields_TrimSpace, hh, hm]
  have h1 : ¬ (0 < (Fields text).length ∧ (Atoi ((Fields text).headD "")).2 = none) := by
    rcases hf with hf | hf
    · rw [hf]; simp
    · exact fun h => hf h.2
  rw [if_neg h1, if_neg hc]

theorem not_mem_digits (c : Char) (hc : ¬ isDigitChar c) (n : Nat) : c ∉ Nat.toDigits 10 n :=
  fun h => hc (toDigits_digits n c h)

/-- The characters of the compact shape `<H>h <M>m`. -/
theorem compact_data (H M : Nat) :
    (toString H ++ "h " ++ toString M ++ "m").data =
      Nat.toDigits 10 H ++ 'h' :: (' ' :: Nat.toDigits 10 M ++ ['m']) := by
  simp only [String.data_append]
  have h1 : (toString H).data = Nat.toDigits 10 H := rfl
  have h2 : (toString M).data = Nat.toDigits 10 M := rfl
  rw [h1, h2]
  simp

/-- The second shape, within the range of `int`. -/
theorem parseRuntime_compact (H M : Nat) (h : (60 * H + M : Int) ≤ maxInt) :
    parseRuntime (toString H ++ "h " ++ toString M ++ "m") = 60 * H + M := by
  unfold maxInt at h
  have hH : H < 2 ^ 63 := by omega
  have hM : M < 2 ^ 63 := by omega
  have hnh : ¬ isDigitChar 'h' := by unfold isDigitChar; decide
  have hnm : ¬ isDigitChar 'm' := by unfold isDigitChar; decide
  have hsp : ∀ n c, c ∈ Nat.toDigits 10 n → isSpace c = false :=
    fun n c hc => isSpace_of_digit c (toDigits_digits n c hc)
  obtain ⟨c0, cs0, hcs0, hd0, hplus, hminus⟩ := toDigits_head H
  generalize htext : toString H ++ "h " ++ toString M ++ "m" = text
  have hdata : text.data = Nat.toDigits 10 H ++ 'h' :: (' ' :: Nat.toDigits 10 M ++ ['m']) := by
    rw [← htext]; exact compact_data H M
  -- trimming changes nothing
  have htrim : TrimSpace text = text := by
    unfold TrimSpace
    have e1 : text.data = c0 :: (cs0 ++ 'h' :: ' ' :: Nat.toDigits 10 M) ++ ['m'] := by
      rw [hdata, hcs0]; simp
    have e2 : trimLeft text.data = text.data := by
      rw [e1, List.cons_append]
      exact trimLeft_cons_nonspace c0 _ (isSpace_of_digit c0 hd0)
    rw [e2]
    conv_lhs => rw [e1]
    rw [trimRight_concat_nonspace _ 'm' (by decide), ← e1]
  -- the first field is not a number
  have hfield : ∃ more, Fields text = ⟨Nat.toDigits 10 H ++ ['h']⟩ :: more := by
    have := fieldsL_head [] (Nat.toDigits 10 H ++ ['h']) (' ' :: Nat.toDigits 10 M ++ ['m'])
      (by simp) (by
        intro c hc
        rcases List.mem_append.mp hc with hc | hc
        · exact hsp H c hc
        · rw [List.mem_singleton.mp hc]; decide) (by simp)
      (Or.inr ⟨' ', _, rfl, by decide⟩)
    obtain ⟨more, hmore⟩ := this
    refine ⟨more.map String.mk, ?_⟩
    unfold Fields
    rw [hdata]
    have e : Nat.toDigits 10 H ++ 'h' :: (' ' :: Nat.toDigits 10 M ++ ['m']) =
        [] ++ (Nat.toDigits 10 H ++ ['h']) ++ (' ' :: Nat.toDigits 10 M ++ ['m']) := by simp
    rw [e, hmore]
    rfl
  obtain ⟨more, hmore⟩ := hfield
  have hfirst : (Atoi ⟨Nat.toDigits 10 H ++ ['h']⟩).2 ≠ none := by
    unfold Atoi
    have hu : ParseUint (c0 :: cs0 ++ ['h']) = (0, some NumError.ErrSyntax) := by
      unfold ParseUint
      have := parseUintLoop_toDigits H ['h'] (by unfold maxUint64; omega)
      rw [hcs0] at this
      simp only [List.cons_append, List.isEmpty_cons, Bool.false_eq_true, if_false] at this ⊢
      rw [this]
      simp only [parseUintLoop]
      rw [if_neg (by decide)]
    simp only [hcs0, List.cons_append, ParseInt, hplus, hminus, or_self, if_false]
    rw [show c0 :: (cs0 ++ ['h']) = c0 :: cs0 ++ ['h'] by rfl, hu]
    simp
  -- both letters occur
  have hch : Contains text "h" = true := by
    unfold Contains
    rw [show ("h" : String).data = ['h'] by rfl, containsL_singleton, hdata]
    simp
  have hcm : Contains text "m" = true := by
    unfold Contains
    rw [show ("m" : String).data = ['m'] by rfl, containsL_singleton, hdata]
    simp
  -- the split at `h`
  have hsplit : Split text 'h' =
      [⟨Nat.toDigits 10 H⟩, ⟨' ' :: Nat.toDigits 10 M ++ ['m']⟩] := by
    unfold Split
    rw [hdata, splitL_at_sep 'h' _ _ (not_mem_digits 'h' hnh H),
      splitL_no_sep 'h' _ (by
        intro hm
        rcases List.mem_cons.mp hm with e | hm
        · exact absurd e (by decide)
        · rcases List.mem_append.mp hm with hm | hm
          · exact not_mem_digits 'h' hnh M hm
          · exact absurd (List.mem_singleton.mp hm) (by decide))]
    rfl
  -- the split of the last part at `m`
  have hsplit2 : Split ⟨' ' :: Nat.toDigits 10 M ++ ['m']⟩ 'm' =
      [⟨' ' :: Nat.toDigits 10 M⟩, ⟨[]⟩] := by
    unfold Split
    have e : ' ' :: Nat.toDigits 10 M ++ ['m'] = (' ' :: Nat.toDigits 10 M) ++ 'm' :: [] := by
      simp
    simp only []
    rw [e, splitL_at_sep 'm' _ _ (by
        intro hm
        rcases List.mem_cons.mp hm with e | hm
        · exact absurd e (by decide)
        · exact not_mem_digits 'm' hnm M hm)]
    rfl
  have hhours : Atoi (TrimSpace ⟨Nat.toDigits 10 H⟩) = ((H : Int), none) := by
    have : TrimSpace ⟨Nat.toDigits 10 H⟩ = ⟨Nat.toDigits 10 H⟩ := by
      unfold TrimSpace
      have := trim_token [] (Nat.toDigits 10 H) [] (by simp) (by simp) (hsp H)
      simp only [List.nil_append, List.append_nil] at this
      rw [this]
    rw [this]
    exact ParseInt_toDigits H hH
  have hmins : Atoi (TrimSpace ⟨' ' :: Nat.toDigits 10 M⟩) = ((M : Int), none) := by
    have : TrimSpace ⟨' ' :: Nat.toDigits 10 M⟩ = ⟨Nat.toDigits 10 M⟩ := by
      unfold TrimSpace
      have := trim_token [' '] (Nat.toDigits 10 M) [] (by decide) (by simp) (hsp M)
      simp only [List.singleton_append, List.append_nil] at this
      rw [this]
    rw [this]
    exact ParseInt_toDigits M hM
  have hlast : ∀ a b : String, [a, b].getLastD "" = b := fun _ _ => rfl
  unfold parseRuntime
  simp only [htrim, hmore, List.headD_cons, hfirst, and_false, if_false, hch, hcm, and_self,
    if_true, hsplit, hlast, hsplit2, hhours, hmins]
  unfold wrapInt
  omega

/-- C7 (amended): (1) `parseRuntime` returns the first white-space-delimited field of
the text whenever `Atoi` accepts it, in particular the integer `z` for every text made
of spaces, the decimal numeral of a 64-bit `int` `z`, and either nothing or a space
followed by anything; (2) for all natural numbers `H` and `M` with `60·H + M` within
the range of `int`, it returns `60·H + M` on the text `<H>h <M>m`; (3) it returns 0 on
every text whose first field `Atoi` does not accept (or that has no field) and that
does not contain both `h` and `m`. -/
theorem C7_parseRuntime :
    (∀ (text tok : String) (rest : List String) (n : Int),
      Fields text = tok :: rest → Atoi tok = (n, none) → parseRuntime text = n) ∧
    (∀ (z : Int) (ws tail : String), minInt ≤ z → z ≤ maxInt →
      (∀ c ∈ ws.data, isSpace c = true) →
      (tail.data = [] ∨ ∃ c cs, tail.data = c :: cs ∧ isSpace c = true) →
      parseRuntime (ws ++ toString z ++ tail) = z) ∧
    (∀ H M : Nat, (60 * H + M : Int) ≤ maxInt →
      parseRuntime (toString H ++ "h " ++ toString M ++ "m") = 60 * H + M) ∧
    (∀ text : String, (Fields text = [] ∨ (Atoi ((Fields text).headD "")).2 ≠ none) →
      ¬ (Contains text "h" = true ∧ Contains text "m" = true) → parseRuntime text = 0) := by
  refine ⟨parseRuntime_first_field, ?_, parseRuntime_compact, parseRuntime_neither⟩
  intro z ws tail hlo hhi hws htail
  obtain ⟨more, hmore⟩ := fieldsL_head ws.data (toString z).data tail.data hws
    (toString_int_data z).2 (toString_int_data z).1 htail
  have hf : Fields (ws ++ toString z ++ tail) = toString z :: more.map String.mk := by
    unfold Fields
    simp only [String.data_append]
    rw [hmore]
    rfl
  exact parseRuntime_first_field _ _ _ z hf (Atoi_toString z hlo hhi)

/-- C7, the three instances of the specification. -/
theorem C7_parseRuntime_witness :
    parseRuntime "148 mins More" = 148 ∧ parseRuntime "2h 28m" = 148 ∧
    parseRuntime "garbage" = 0 :=
  ⟨C7_parseRuntime.2.1 148 "" " mins More" (by decide) (by decide) (by decide)
      (Or.inr ⟨' ', _, rfl, by decide⟩),
   C7_parseRuntime.2.2.1 2 28 (by decide),
   C7_parseRuntime.2.2.2 "garbage" (by decide) (by decide)⟩

/-- C7 as stated fails in its second part: `2 ^ 63` hours is a text of the shape
`<H>h <M>m` on which `parseRuntime` returns 0, not `60·H + M`; so is `2 ^ 62` hours,
where the product wraps around. -/
theorem C7_counterexample :
    toString (9223372036854775808 : Nat) ++ "h " ++ toString (0 : Nat) ++ "m" =
      "9223372036854775808h 0m" ∧
    parseRuntime "9223372036854775808h 0m" = 0 ∧
    (60 * 9223372036854775808 + 0 : Int) ≠ 0 ∧
    parseRuntime "4611686018427387904h 0m" = 0 := by
  decide

/-! ## The records of a listing page -/

theorem TrimPrefix_cases (s p : String) : TrimPrefix s p = s ∨ s = p ++ TrimPrefix s p := by
  unfold TrimPrefix
  by_cases h : HasPrefix s p = true
  · right
    simp only [h, if_true]
    unfold HasPrefix at h
    rw [List.isPrefixOf_iff_prefix] at h
    obtain ⟨t, ht⟩ := h
    apply String.ext
    simp only [String.data_append]
    rw [← ht]
    simp
  · left
    simp only [h, Bool.false_eq_true, if_false]

theorem TrimSuffix_slash_empty (x : String) (h : TrimSuffix x "/" = "") : x = "" ∨ x = "/" := by
  unfold TrimSuffix at h
  by_cases hs : HasSuffix x "/" = true
  · right
    simp only [hs, if_true] at h
    unfold HasSuffix at hs
    rw [List.isPrefixOf_iff_prefix] at hs
    obtain ⟨t, ht⟩ := hs
    have hlen : x.data.length = t.length + 1 := by
      have := congrArg List.length ht
      rw [List.length_append, List.length_reverse, List.length_reverse] at this
      have hl1 : ("/" : String).data.length = 1 := rfl
      omega
    have h' : x.data.take (x.data.length - ("/" : String).data.length) = [] :=
      congrArg String.data h
    have hl : ("/" : String).data.length = 1 := rfl
    rw [hl, List.take_eq_nil_iff] at h'
    have ht0 : t = [] := by
      rcases h' with h' | h'
      · exact List.length_eq_zero.mp (by omega)
      · rw [h'] at hlen; simp at hlen
    subst ht0
    apply String.ext
    have hrev : x.data.reverse = ['/'] := ht.symm
    have := congrArg List.reverse hrev
    simpa using this
  · left
    simp only [hs, Bool.false_eq_true, if_false] at h
    exact h

/-- The URLs that `extractLetterboxdID` maps to the empty identifier. -/
theorem extractLetterboxdID_eq_empty (url : String) :
    extractLetterboxdID url = "" ↔
      url ∈ ["", "/", "https://letterboxd.com/film/", "https://letterboxd.com/film//",
        "http://letterboxd.com/film/", "http://letterboxd.com/film//",
        "https://letterboxd.com/film/http://letterboxd.com/film/",
        "https://letterboxd.com/film/http://letterboxd.com/film//"] := by
  constructor
  · intro h
    unfold extractLetterboxdID at h
    simp only [] at h
    have hx := TrimSuffix_slash_empty _ h
    rcases TrimPrefix_cases (TrimPrefix url "https://letterboxd.com/film/")
      "http://letterboxd.com/film/" with hb | hb <;>
    rcases TrimPrefix_cases url "https://letterboxd.com/film/" with ha | ha <;>
    rcases hx with hx | hx
    all_goals first
      | (rw [hb, ha] at hx; rw [hx]; decide)
      | (rw [hb] at hx; rw [ha, hx]; decide)
      | (rw [hx] at hb; rw [ha] at hb; rw [hb]; decide)
      | (rw [hx] at hb; rw [ha, hb]; decide)
  · intro h
    simp only [List.mem_cons, List.mem_singleton, List.not_mem_nil, or_false] at h
    rcases h with rfl | rfl | rfl | rfl | rfl | rfl | rfl | rfl <;> decide

/-- What the tile callback emits. -/
theorem tileMovie_some (now : Time) (t : Tile) (m : Movie) (h : tileMovie now t = some m) :
    m.Title ≠ "" ∧ m.LetterboxdURL ≠ "" ∧ m.LetterboxdID = extractLetterboxdID m.LetterboxdURL := by
  unfold tileMovie at h
  simp only [] at h
  split_ifs at h <;> simp only [Option.some.injEq] at h <;> subst h <;> simp_all

theorem mem_tileMovies (clock : Nat → Time) (m : Movie) :
    ∀ (tiles : List Tile) (j : Nat), m ∈ tileMovies clock j tiles →
      ∃ k, ∃ t ∈ tiles, tileMovie (clock k) t = some m := by
  intro tiles
  induction tiles with
  | nil => intro j h; simp [tileMovies] at h
  | cons t ts ih =>
    intro j h
    unfold tileMovies at h
    cases ht : tileMovie (clock j) t with
    | none =>
      simp only [ht] at h
      obtain ⟨k, t', ht', hk⟩ := ih (j + 1) h
      exact ⟨k, t', List.mem_cons_of_mem _ ht', hk⟩
    | some m' =>
      simp only [ht, List.mem_cons] at h
      rcases h with rfl | h
      · exact ⟨j, t, List.mem_cons_self t ts, ht⟩
      · obtain ⟨k, t', ht', hk⟩ := ih (j + 1) h
        exact ⟨k, t', List.mem_cons_of_mem _ ht', hk⟩

/-- C9 (amended): every record `scrapeFilmsPage` emits has a non-empty `Title` and a
non-empty `LetterboxdURL`, and its `LetterboxdID` is `extractLetterboxdID` of that URL;
the `LetterboxdID` is empty exactly when the URL is a bare slash or a bare film-path
prefix (one of the seven URLs listed), and non-empty for every other URL. -/
theorem C9_emitted_records (w : World) (pageNum : Nat) (url : String) (m : Movie)
    (hm : m ∈ (scrapeFilmsPage w pageNum url).1) :
    m.Title ≠ "" ∧ m.LetterboxdURL ≠ "" ∧
    m.LetterboxdID = extractLetterboxdID m.LetterboxdURL ∧
    (m.LetterboxdID = "" ↔
      m.LetterboxdURL ∈ ["/", "https://letterboxd.com/film/", "https://letterboxd.com/film//",
        "http://letterboxd.com/film/", "http://letterboxd.com/film//",
        "https://letterboxd.com/film/http://letterboxd.com/film/",
        "https://letterboxd.com/film/http://letterboxd.com/film//"]) := by
  unfold scrapeFilmsPage at hm
  cases hv : w.visitListing pageNum url with
  | error e => simp [hv] at hm
  | ok doc =>
    simp only [hv] at hm
    obtain ⟨k, t, _, hk⟩ := mem_tileMovies _ m doc.tiles 0 hm
    obtain ⟨h1, h2, h3⟩ := tileMovie_some _ t m hk
    refine ⟨h1, h2, h3, ?_⟩
    rw [h3, extractLetterboxdID_eq_empty]
    simp only [List.mem_cons, h2, false_or]

/-- C9, an instance: the record of the first page of `twoPageWorld`. -/
theorem C9_emitted_records_witness :
    dupMovie.Title ≠ "" ∧ dupMovie.LetterboxdURL ≠ "" ∧
    dupMovie.LetterboxdID = extractLetterboxdID dupMovie.LetterboxdURL ∧
    (dupMovie.LetterboxdID = "" ↔
      dupMovie.LetterboxdURL ∈ ["/", "https://letterboxd.com/film/",
        "https://letterboxd.com/film//", "http://letterboxd.com/film/",
        "http://letterboxd.com/film//",
        "https://letterboxd.com/film/http://letterboxd.com/film/",
        "https://letterboxd.com/film/http://letterboxd.com/film//"]) :=
  C9_emitted_records twoPageWorld 1 (listingURL "u" 1) dupMovie (by decide)

/-- C9 as stated fails: a tile whose link is the bare film path (or a bare slash)
yields a record with an empty `LetterboxdID`. -/
theorem C9_counterexample :
    (scrapeFilmsPage
        (quietWorld [{ tiles := [plainTile "Heat" "https://letterboxd.com/film/",
                                 plainTile "Ran" "/"], nextAnchors := 0 }] emptyDetail)
        1 (listingURL "u" 1)).1.map (fun m => (m.Title, m.LetterboxdURL, m.LetterboxdID)) =
      [("Heat", "https://letterboxd.com/film/", ""), ("Ran", "/", "")] := by
  decide

/-! ## The list fields of the detail enricher -/

/-- A trimmed text is empty or starts with a character that is not a space. -/
theorem trim_head (cs : List Char) :
    trimRight (trimLeft cs) = [] ∨
      ∃ c rest, trimRight (trimLeft cs) = c :: rest ∧ isSpace c = false := by
  have hL : trimLeft cs = [] ∨ ∃ c rest, trimLeft cs = c :: rest ∧ isSpace c = false := by
    unfold trimLeft
    induction cs with
    | nil => left; rfl
    | cons c cs ih =>
      by_cases hc : isSpace c = true
      · rw [List.dropWhile_cons_of_pos hc]; exact ih
      · rw [List.dropWhile_cons_of_neg hc]
        exact Or.inr ⟨c, cs, rfl, by simpa using hc⟩
  rcases hL with h | ⟨c, rest, h, hc⟩
  · left; rw [h]; rfl
  · right
    rw [h, trimRight_cons]
    by_cases ht : trimRight rest = []
    · exact ⟨c, [], by simp [ht, hc], hc⟩
    · exact ⟨c, trimRight rest, by simp [ht], hc⟩

theorem trimRight_idem (cs : List Char) : trimRight (trimRight cs) = trimRight cs := by
  unfold trimRight
  rw [List.reverse_reverse]
  congr 1
  generalize cs.reverse = l
  induction l with
  | nil => rfl
  | cons c l ih =>
    by_cases hc : isSpace c = true
    · rw [List.dropWhile_cons_of_pos hc]; exact ih
    · rw [List.dropWhile_cons_of_neg hc, List.dropWhile_cons_of_neg hc]

/-- `strings.TrimSpace` is idempotent. -/
theorem TrimSpace_idem (s : String) : TrimSpace (TrimSpace s) = TrimSpace s := by
  unfold TrimSpace
  simp only []
  rcases trim_head s.data with h | ⟨c, rest, h, hc⟩
  · rw [h]; rfl
  · have hl : trimLeft (trimRight (trimLeft s.data)) = trimRight (trimLeft s.data) := by
      rw [h]; exact trimLeft_cons_nonspace c rest hc
    rw [hl, trimRight_idem]

theorem isName_TrimSpace (s : String) (h : TrimSpace s ≠ "") : isName (TrimSpace s) :=
  ⟨h, TrimSpace_idem s⟩

theorem isName_head (a : String) (h : isName a) :
    ∃ c cs, a.data = c :: cs ∧ isSpace c = false := by
  obtain ⟨hne, htrim⟩ := h
  have hd : a.data = trimRight (trimLeft a.data) := by
    conv_lhs => rw [← htrim]
    rfl
  rcases trim_head a.data with h0 | ⟨c, rest, h1, hc⟩
  · exfalso
    apply hne
    apply String.ext
    rw [hd, h0]
  · exact ⟨c, rest, by rw [hd, h1], hc⟩

theorem Join_cons_data (a : String) (rest : List String) (sep : String) :
    ∃ t, (Join (a :: rest) sep).data = a.data ++ t := by
  cases rest with
  | nil => exact ⟨[], by simp [Join]⟩
  | cons b rest =>
    exact ⟨sep.data ++ (Join (b :: rest) sep).data, by
      simp only [Join, String.data_append, List.append_assoc]⟩

theorem Join_ne_empty (a : String) (rest : List String) (sep : String) (ha : a ≠ "") :
    Join (a :: rest) sep ≠ "" := by
  obtain ⟨t, ht⟩ := Join_cons_data a rest sep
  intro h
  rw [h] at ht
  apply ha
  apply String.ext
  have : a.data ++ t = [] := ht.symm
  exact (List.append_eq_nil.mp this).1

/-- Appending a name to a comma-joined field of non-empty names. -/
theorem Join_concat (names : List String) (a : String) (h : ∀ n ∈ names, n ≠ "") :
    appendName (Join names ", ") a = Join (names ++ [a]) ", " := by
  induction names with
  | nil => simp [Join, appendName]
  | cons x rest ih =>
    have hx : x ≠ "" := h x (List.mem_cons_self x rest)
    cases rest with
    | nil => simp [Join, appendName, hx]
    | cons y rest =>
      have ih' := ih (fun n hn => h n (List.mem_cons_of_mem _ hn))
      have hy : y ≠ "" := h y (List.mem_cons_of_mem _ (List.mem_cons_self y rest))
      have hne : Join (x :: y :: rest) ", " ≠ "" := Join_ne_empty x _ _ hx
      have hne' : Join (y :: rest) ", " ≠ "" := Join_ne_empty y _ _ hy
      have e1 : Join ((x :: y :: rest) ++ [a]) ", " =
          x ++ ", " ++ Join ((y :: rest) ++ [a]) ", " := rfl
      have e2 : Join (x :: y :: rest) ", " = x ++ ", " ++ Join (y :: rest) ", " := rfl
      rw [e1, ← ih']
      unfold appendName
      rw [if_neg hne, if_neg hne', e2]
      simp only [String.append_assoc]

theorem foldl_inv {α β : Type} (f : β → α → β) (P : β → Prop) (h : ∀ b a, P b → P (f b a)) :
    ∀ (l : List α) (b : β), P b → P (l.foldl f b) := by
  intro l
  induction l with
  | nil => intro b hb; exact hb
  | cons a l ih => intro b hb; exact ih (f b a) (h b a hb)

theorem foldl_field {α β γ : Type} (f : β → α → β) (g : β → γ)
    (h : ∀ b a, g (f b a) = g b) (l : List α) (b : β) : g (l.foldl f b) = g b :=
  foldl_inv f (fun x => g x = g b) (fun x a hx => (h x a).trans hx) l b rfl

theorem ruleYear_frame (m : Movie) (t : String) : listFields (ruleYear m t) = listFields m := rfl

theorem ruleRuntime_frame (m : Movie) (t : String) :
    listFields (ruleRuntime m t) = listFields m := by
  unfold ruleRuntime; split <;> rfl

theorem ruleRating_frame (w : World) (m : Movie) (t : String) :
    listFields (ruleRating w m t) = listFields m := by
  unfold ruleRating; split <;> rfl

theorem rulePoster_frame (w : World) (m : Movie) (t : String) :
    listFields (rulePoster w m t) = listFields m := by
  unfold rulePoster
  simp only []
  split
  · rfl
  · split
    · split <;> rfl
    · rfl

theorem ruleDirectorLink_frame (m : Movie) (t : String) :
    (ruleDirectorLink m t).Cast = m.Cast ∧ (ruleDirectorLink m t).Writers = m.Writers := by
  unfold ruleDirectorLink; split <;> exact ⟨rfl, rfl⟩

theorem ruleCast_frame (w : World) (st : Movie × Nat) (a : CastLink) :
    (ruleCast w st a).1.Director = st.1.Director ∧ (ruleCast w st a).1.Writers = st.1.Writers := by
  unfold ruleCast
  simp only []
  split_ifs <;> exact ⟨rfl, rfl⟩

theorem ruleCrewDirector_frame (m : Movie) (h : Heading) :
    (ruleCrewDirector m h).Cast = m.Cast ∧ (ruleCrewDirector m h).Writers = m.Writers := by
  unfold ruleCrewDirector
  simp only []
  split_ifs <;> exact ⟨rfl, rfl⟩

theorem ruleCrewWriter_frame (m : Movie) (h : Heading) :
    (ruleCrewWriter m h).Cast = m.Cast ∧ (ruleCrewWriter m h).Director = m.Director := by
  unfold ruleCrewWriter
  simp only []
  split_ifs <;> exact ⟨rfl, rfl⟩

/-- The inline director rule joins all its non-empty link texts, without a cap. -/
theorem directorLinks_fold (links : List String) :
    ∀ (m : Movie) (names : List String), (∀ n ∈ names, n ≠ "") →
      m.Director = Join names ", " →
      (links.foldl ruleDirectorLink m).Director =
        Join (names ++ links.filter (fun s => s ≠ "")) ", " := by
  induction links with
  | nil => intro m names _ h; simpa using h
  | cons t links ih =>
    intro m names hn h
    simp only [List.foldl_cons]
    by_cases ht : t = ""
    · have e : ruleDirectorLink m t = m := by simp [ruleDirectorLink, ht]
      rw [e, ih m names hn h]
      simp [ht]
    · have e : (ruleDirectorLink m t).Director = Join (names ++ [t]) ", " := by
        simp only [ruleDirectorLink, ne_eq, ht, not_false_eq_true, if_true]
        rw [h, Join_concat names t hn]
      rw [ih (ruleDirectorLink m t) (names ++ [t]) (by
        intro n hmem
        rcases List.mem_append.mp hmem with hmem | hmem
        · exact hn n hmem
        · rw [List.mem_singleton.mp hmem]; exact ht) e]
      simp [ht]

/-! ## The scalar rules of the detail enricher -/

/-- A rule that assigns a value on every match leaves the value of the last match. -/
theorem foldl_set_last {α β γ : Type} (f : β → α → β) (g : β → γ) (v : α → γ)
    (h : ∀ b a, g (f b a) = v a) (l : List α) (b : β) :
    g (l.foldl f b) = (l.getLast?.map v).getD (g b) := by
  rcases List.eq_nil_or_concat l with rfl | ⟨init, last, rfl⟩
  · rfl
  · rw [List.concat_eq_append, List.foldl_append, List.getLast?_append]
    simp [h]

/-- A rule that does nothing on the matches outside `p` may skip them. -/
theorem foldl_filter {α β : Type} (f : β → α → β) (p : α → Bool)
    (h : ∀ b a, p a = false → f b a = b) (l : List α) :
    ∀ b : β, l.foldl f b = (l.filter p).foldl f b := by
  induction l with
  | nil => intro b; rfl
  | cons a l ih =>
    intro b
    by_cases ha : p a = true
    · simp only [List.foldl_cons, List.filter_cons_of_pos ha]
      exact ih (f b a)
    · simp only [Bool.not_eq_true] at ha
      rw [List.foldl_cons, h b a ha, List.filter_cons_of_neg (by simp [ha])]
      exact ih b

/-- The poster rule in terms of `posterImage`. -/
theorem rulePoster_eq (w : World) (m : Movie) (raw : String) :
    rulePoster w m raw =
      if m.PosterURL = "" then
        (match posterImage w raw with
          | some img => { m with PosterURL := img }
          | none => m)
      else m := by
  unfold rulePoster posterImage
  simp only []
  rcases w.jsonImage (TrimSuffix (TrimPrefix (TrimSpace raw) "/* <![CDATA[ */") "/* ]]> */")
    with _ | _ | img <;> by_cases h : m.PosterURL = "" <;> simp [h]

/-- The poster rule keeps a poster that is set, and otherwise leaves the first
non-empty image among its matches. -/
theorem poster_fold (w : World) (l : List String) :
    ∀ m : Movie, (l.foldl (rulePoster w) m).PosterURL =
      if m.PosterURL ≠ "" then m.PosterURL
      else ((l.filterMap (posterImage w)).find? (fun s => s ≠ "")).getD "" := by
  induction l with
  | nil =>
    intro m
    by_cases h : m.PosterURL = "" <;> simp [h]
  | cons raw l ih =>
    intro m
    rw [List.foldl_cons, ih, rulePoster_eq]
    by_cases h : m.PosterURL = ""
    · cases himg : posterImage w raw with
      | none => simp [h, himg, List.filterMap_cons]
      | some img =>
        by_cases hi : img = ""
        · simp [h, himg, hi, List.filterMap_cons]
        · simp [h, himg, hi, List.filterMap_cons]
    · simp [h]

theorem ruleYear_others (m : Movie) (t : String) :
    (ruleYear m t).Length = m.Length ∧ (ruleYear m t).LetterboxdRating = m.LetterboxdRating ∧
      (ruleYear m t).PosterURL = m.PosterURL := ⟨rfl, rfl, rfl⟩

theorem ruleRuntime_others (m : Movie) (t : String) :
    (ruleRuntime m t).Year = m.Year ∧ (ruleRuntime m t).LetterboxdRating = m.LetterboxdRating ∧
      (ruleRuntime m t).PosterURL = m.PosterURL := by
  unfold ruleRuntime; split <;> exact ⟨rfl, rfl, rfl⟩

theorem ruleRating_others (w : World) (m : Movie) (t : String) :
    (ruleRating w m t).Year = m.Year ∧ (ruleRating w m t).Length = m.Length ∧
      (ruleRating w m t).PosterURL = m.PosterURL := by
  unfold ruleRating; split <;> exact ⟨rfl, rfl, rfl⟩

theorem rulePoster_others (w : World) (m : Movie) (t : String) :
    (rulePoster w m t).Year = m.Year ∧ (rulePoster w m t).Length = m.Length ∧
      (rulePoster w m t).LetterboxdRating = m.LetterboxdRating := by
  rw [rulePoster_eq]
  split
  · split <;> exact ⟨rfl, rfl, rfl⟩
  · exact ⟨rfl, rfl, rfl⟩

theorem ruleDirectorLink_scalar (m : Movie) (t : String) :
    scalarFields (ruleDirectorLink m t) = scalarFields m := by
  unfold ruleDirectorLink; split <;> rfl

theorem ruleCast_scalar (w : World) (st : Movie × Nat) (a : CastLink) :
    scalarFields (ruleCast w st a).1 = scalarFields st.1 := by
  unfold ruleCast
  simp only []
  split_ifs <;> rfl

theorem ruleCrewDirector_scalar (m : Movie) (h : Heading) :
    scalarFields (ruleCrewDirector m h) = scalarFields m := by
  unfold ruleCrewDirector
  simp only []
  split_ifs <;> rfl

theorem ruleCrewWriter_scalar (m : Movie) (h : Heading) :
    scalarFields (ruleCrewWriter m h) = scalarFields m := by
  unfold ruleCrewWriter
  simp only []
  split_ifs <;> rfl

/-- The list rules leave the scalar fields as the four scalar rules set them. -/
theorem applyRules_scalarFields (w : World) (doc : DetailDoc) (movie : Movie) :
    scalarFields (applyRules w doc movie) =
      scalarFields (doc.ldjson.foldl (rulePoster w)
        (doc.twitterData2.foldl (ruleRating w)
          (doc.footers.foldl ruleRuntime (doc.releasedates.foldl ruleYear movie)))) := by
  unfold applyRules
  simp only []
  rw [foldl_field (fun (m : Movie) (hs : List Heading) => hs.foldl ruleCrewWriter m) scalarFields
      (fun b hs => foldl_field ruleCrewWriter scalarFields ruleCrewWriter_scalar hs b),
    foldl_field (fun (m : Movie) (hs : List Heading) => hs.foldl ruleCrewDirector m) scalarFields
      (fun b hs => foldl_field ruleCrewDirector scalarFields ruleCrewDirector_scalar hs b),
    foldl_field (ruleCast w) (fun st => scalarFields st.1) (ruleCast_scalar w),
    foldl_field ruleDirectorLink scalarFields ruleDirectorLink_scalar]

/-- What `scrapeMovieDetails` returns when the page is fetched. -/
theorem scrapeMovieDetails_ok (w : World) (i : Nat) (movie : Movie) (doc : DetailDoc)
    (hfetch : w.visitDetail i (detailURL movie) = Except.ok doc) :
    scrapeMovieDetails w i movie = (applyRules w doc movie, none) := by
  unfold scrapeMovieDetails
  unfold detailURL at hfetch
  simp only [hfetch]

/-- The scalar fields after all rules ran over a detail page. -/
theorem applyRules_scalar (w : World) (doc : DetailDoc) (movie : Movie) :
    (applyRules w doc movie).PosterURL =
      (if movie.PosterURL ≠ "" then movie.PosterURL
       else ((doc.ldjson.filterMap (posterImage w)).find? (fun s => s ≠ "")).getD "") ∧
    (applyRules w doc movie).Year =
      (doc.releasedates.getLast?.map parseInt).getD movie.Year ∧
    (applyRules w doc movie).Length =
      ((doc.footers.filter (fun s => s ≠ "")).getLast?.map parseRuntime).getD movie.Length ∧
    (applyRules w doc movie).LetterboxdRating =
      ((doc.twitterData2.filter (fun s => s ≠ "")).getLast?.map
        (parseRating w.ParseFloat)).getD movie.LetterboxdRating := by
  have hs := applyRules_scalarFields w doc movie
  have hY : ∀ m : Movie, m.Year = (scalarFields m).1 := fun _ => rfl
  have hL : ∀ m : Movie, m.Length = (scalarFields m).2.1 := fun _ => rfl
  have hR : ∀ m : Movie, m.LetterboxdRating = (scalarFields m).2.2.1 := fun _ => rfl
  have hP : ∀ m : Movie, m.PosterURL = (scalarFields m).2.2.2 := fun _ => rfl
  refine ⟨?_, ?_, ?_, ?_⟩
  · rw [hP (applyRules w doc movie), hs, ← hP, poster_fold]
    rw [foldl_field (ruleRating w) (fun m => m.PosterURL) (fun b a => (ruleRating_others w b a).2.2),
      foldl_field ruleRuntime (fun m => m.PosterURL) (fun b a => (ruleRuntime_others b a).2.2),
      foldl_field ruleYear (fun m => m.PosterURL) (fun b a => (ruleYear_others b a).2.2)]
  · rw [hY (applyRules w doc movie), hs, ← hY]
    rw [foldl_field (rulePoster w) (fun m => m.Year) (fun b a => (rulePoster_others w b a).1),
      foldl_field (ruleRating w) (fun m => m.Year) (fun b a => (ruleRating_others w b a).1),
      foldl_field ruleRuntime (fun m => m.Year) (fun b a => (ruleRuntime_others b a).1)]
    exact foldl_set_last ruleYear (fun m => m.Year) parseInt (fun _ _ => rfl) _ _
  · rw [hL (applyRules w doc movie), hs, ← hL]
    rw [foldl_field (rulePoster w) (fun m => m.Length) (fun b a => (rulePoster_others w b a).2.1),
      foldl_field (ruleRating w) (fun m => m.Length) (fun b a => (ruleRating_others w b a).2.1),
      foldl_filter ruleRuntime (fun s => decide (s ≠ "")) (by
        intro b a ha
        simp only [decide_eq_false_iff_not, ne_eq, Decidable.not_not] at ha
        simp [ruleRuntime, ha])]
    have := foldl_set_last
      (fun (m : Movie) (t : String) => ({ m with Length := parseRuntime t } : Movie))
      (fun m => m.Length) parseRuntime (fun _ _ => rfl)
      (doc.footers.filter (fun s => decide (s ≠ ""))) (doc.releasedates.foldl ruleYear movie)
    rw [foldl_field ruleYear (fun m => m.Length) (fun b a => (ruleYear_others b a).1)] at this
    rw [← this]
    congr 1
    refine List.foldl_ext _ _ _ ?_
    intro b a ha
    have hne : a ≠ "" := by simpa using (List.mem_filter.mp ha).2
    simp [ruleRuntime, hne]
  · rw [hR (applyRules w doc movie), hs, ← hR]
    rw [foldl_field (rulePoster w) (fun m => m.LetterboxdRating)
        (fun b a => (rulePoster_others w b a).2.2),
      foldl_filter (ruleRating w) (fun s => decide (s ≠ "")) (by
        intro b a ha
        simp only [decide_eq_false_iff_not, ne_eq, Decidable.not_not] at ha
        simp [ruleRating, ha])]
    have := foldl_set_last
      (fun (m : Movie) (t : String) =>
        ({ m with LetterboxdRating := parseRating w.ParseFloat t } : Movie))
      (fun m => m.LetterboxdRating) (parseRating w.ParseFloat) (fun _ _ => rfl)
      (doc.twitterData2.filter (fun s => decide (s ≠ "")))
      (doc.footers.foldl ruleRuntime (doc.releasedates.foldl ruleYear movie))
    rw [foldl_field ruleRuntime (fun m => m.LetterboxdRating)
        (fun b a => (ruleRuntime_others b a).2.1),
      foldl_field ruleYear (fun m => m.LetterboxdRating)
        (fun b a => (ruleYear_others b a).2.1)] at this
    rw [← this]
    congr 1
    refine List.foldl_ext _ _ _ ?_
    intro b a ha
    have hne : a ≠ "" := by simpa using (List.mem_filter.mp ha).2
    simp [ruleRating, hne]

/-- C11 (amended): when the detail page is fetched, of the four scalar rules of
`scrapeMovieDetails` only the poster
rule is set-once: a poster that is set is kept, and otherwise the first non-empty
image among the matching scripts stands. The release-year rule assigns on every
match, and the runtime and rating rules on every match with a non-empty text, so for
these three the value of the last such match stands, whatever the field held before;
the field keeps its earlier value only when there is no such match. -/
theorem C11_scalar_rules (w : World) (i : Nat) (movie : Movie) (doc : DetailDoc)
    (hfetch : w.visitDetail i (detailURL movie) = Except.ok doc) :
    (scrapeMovieDetails w i movie).1.PosterURL =
      (if movie.PosterURL ≠ "" then movie.PosterURL
       else ((doc.ldjson.filterMap (posterImage w)).find? (fun s => s ≠ "")).getD "") ∧
    (scrapeMovieDetails w i movie).1.Year =
      (doc.releasedates.getLast?.map parseInt).getD movie.Year ∧
    (scrapeMovieDetails w i movie).1.Length =
      ((doc.footers.filter (fun s => s ≠ "")).getLast?.map parseRuntime).getD movie.Length ∧
    (scrapeMovieDetails w i movie).1.LetterboxdRating =
      ((doc.twitterData2.filter (fun s => s ≠ "")).getLast?.map
        (parseRating w.ParseFloat)).getD movie.LetterboxdRating := by
  rw [scrapeMovieDetails_ok w i movie doc hfetch]
  exact applyRules_scalar w doc movie

/-- C11, an instance: a record whose year is already set, on the page `twiceDoc`. -/
theorem C11_scalar_rules_witness :
    (scrapeMovieDetails twiceWorld 0 { dupMovie with Year := 1990 }).1.PosterURL =
      (if ({ dupMovie with Year := 1990 } : Movie).PosterURL ≠ "" then
        ({ dupMovie with Year := 1990 } : Movie).PosterURL
       else ((twiceDoc.ldjson.filterMap (posterImage twiceWorld)).find?
        (fun s => s ≠ "")).getD "") ∧
    (scrapeMovieDetails twiceWorld 0 { dupMovie with Year := 1990 }).1.Year =
      (twiceDoc.releasedates.getLast?.map parseInt).getD 1990 ∧
    (scrapeMovieDetails twiceWorld 0 { dupMovie with Year := 1990 }).1.Length =
      ((twiceDoc.footers.filter (fun s => s ≠ "")).getLast?.map parseRuntime).getD 0 ∧
    (scrapeMovieDetails twiceWorld 0 { dupMovie with Year := 1990 }).1.LetterboxdRating =
      ((twiceDoc.twitterData2.filter (fun s => s ≠ "")).getLast?.map
        (parseRating twiceWorld.ParseFloat)).getD 0 :=
  C11_scalar_rules twiceWorld 0 { dupMovie with Year := 1990 } twiceDoc rfl

/-- C11 as stated fails: on a page with two release dates, two runtime footers and two
rating tags the year, the runtime and the rating of the second element stand, not
those of the first; only the poster of the first script stands. -/
theorem C11_counterexample :
    twiceDoc.releasedates = ["1995", "2001"] ∧
    (scrapeMovieDetails twiceWorld 0 dupMovie).1.Year = 2001 ∧
    twiceDoc.footers = ["170 mins More at IMDb", "99 mins"] ∧
    (scrapeMovieDetails twiceWorld 0 dupMovie).1.Length = 99 ∧
    twiceDoc.twitterData2 = ["4.5 out of 5", "3.0 out of 5"] ∧
    (scrapeMovieDetails twiceWorld 0 dupMovie).1.LetterboxdRating = 3.0 ∧
    (scrapeMovieDetails twiceWorld 0 dupMovie).1.PosterURL = "https://img/first.jpg" :=
  ⟨by decide, by decide, by decide, by decide, by decide, by rfl, by decide⟩

/-! ## Listing tiles -/

/-- C14 (amended): the tile rule of `scrapeFilmsPage` emits the two primary attributes,
as they stand, when both are non-empty; when at least one primary attribute is empty it
takes both the title and the URL from the alternate attributes with their surrounding
white space removed (a non-empty primary value is then replaced), emitting them when
both are non-empty after trimming and dropping the tile otherwise, in particular when
all four attributes are empty. A dropped tile adds no record and no error: a fetched
page returns the records of its other tiles and a nil error. -/
theorem C14_tile_attributes (now : Time) (t : Tile) :
    (t.dataFilmName ≠ "" → t.dataFilmLink ≠ "" →
      ∃ m, tileMovie now t = some m ∧ m.Title = t.dataFilmName ∧
        m.LetterboxdURL = t.dataFilmLink) ∧
    ((t.dataFilmName = "" ∨ t.dataFilmLink = "") →
      TrimSpace t.dataItemName ≠ "" → TrimSpace t.dataItemLink ≠ "" →
      ∃ m, tileMovie now t = some m ∧ m.Title = TrimSpace t.dataItemName ∧
        m.LetterboxdURL = TrimSpace t.dataItemLink) ∧
    ((t.dataFilmName = "" ∨ t.dataFilmLink = "") →
      (TrimSpace t.dataItemName = "" ∨ TrimSpace t.dataItemLink = "") →
      tileMovie now t = none) ∧
    (t.dataFilmName = "" → t.dataFilmLink = "" → t.dataItemName = "" → t.dataItemLink = "" →
      tileMovie now t = none) ∧
    (∀ (clock : Nat → Time) (j : Nat) (ts : List Tile), tileMovie (clock j) t = none →
      tileMovies clock j (t :: ts) = tileMovies clock (j + 1) ts) ∧
    (∀ (w : World) (pageNum : Nat) (url : String) (doc : ListingDoc),
      w.visitListing pageNum url = Except.ok doc →
      scrapeFilmsPage w pageNum url =
        (tileMovies (w.tileClock pageNum) 0 doc.tiles, decide (doc.nextAnchors > 0), none)) := by
  have hempty : TrimSpace "" = "" := by decide
  refine ⟨?_, ?_, ?_, ?_, ?_, ?_⟩
  · intro h1 h2
    simp [tileMovie, h1, h2]
  · intro h h1 h2
    simp [tileMovie, ChildAttr, h, h1, h2]
  · intro h h'
    simp [tileMovie, ChildAttr, h, h']
  · intro h1 h2 h3 h4
    simp [tileMovie, ChildAttr, h1, h2, h3, h4, hempty]
  · intro clock j ts h
    simp only [tileMovies, h]
  · intro w pageNum url doc h
    exact scrapeFilmsPage_ok w pageNum url doc h

/-- C14, instances: `paddedTile` has no primary attribute and padded alternates, and is
emitted with the trimmed alternates; `blankTile` has an empty primary link and blank
alternates, and is dropped. -/
theorem C14_tile_attributes_witness :
    (∃ m, tileMovie Time.zero paddedTile = some m ∧ m.Title = TrimSpace " Ran " ∧
      m.LetterboxdURL = TrimSpace "\n/film/ran/ ") ∧
    tileMovie Time.zero blankTile = none :=
  ⟨(C14_tile_attributes Time.zero paddedTile).2.1 (Or.inl rfl) (by decide) (by decide),
   (C14_tile_attributes Time.zero blankTile).2.2.1 (Or.inr rfl) (Or.inl (by decide))⟩

/-- C14 as stated fails: `halfTile` has a non-empty primary name and an empty primary
link; the emitted record carries the alternate name, not the primary one. -/
theorem C14_counterexample :
    halfTile.dataFilmName = "Heat" ∧ halfTile.dataItemName = "Ran" ∧
    (scrapeFilmsPage (quietWorld [{ tiles := [halfTile], nextAnchors := 0 }] emptyDetail) 1
      "page").1.map (fun m => (m.Title, m.LetterboxdURL)) = [("Ran", "/film/ran/")] := by
  decide

/-- The tiles `paddedTile` and `blankTile` on one page: the first is emitted with the
trimmed alternates and the rating of its concatenated spans, the second is dropped. -/
theorem paddedTile_page :
    (scrapeFilmsPage (quietWorld [{ tiles := [blankTile, paddedTile], nextAnchors := 0 }]
        emptyDetail) 1 "page").1.map
      (fun m => (m.Title, m.LetterboxdURL, m.LetterboxdID, decide (m.Rating = 7 / 2))) =
      [("Ran", "/film/ran/", "/film/ran", true)] := by
  have h : ChildText [" ★★★", "½ "] = "★★★½" := by decide
  have hr : (symbolToRating "★★★½").1 = 7 / 2 := by
    simp +decide [symbolToRating, ratingMap, mapLookup]
    norm_num
  simp +decide [scrapeFilmsPage, quietWorld, tileMovies, tileMovie, blankTile, paddedTile, h, hr]

/-! ## The crew directors rule -/

/-- The names the inner loop of a crew rule collects. -/
theorem collectNames_foldl (links : List String) :
    ∀ acc : List String, acc.length ≤ 5 →
      links.foldl collectNames acc =
        (acc ++ (links.map TrimSpace).filter (fun s => s ≠ "")).take 5 := by
  induction links with
  | nil =>
    intro acc h
    simp [List.take_of_length_le h]
  | cons t l ih =>
    intro acc h
    rw [List.foldl_cons]
    by_cases h5 : acc.length ≥ 5
    · have hc : collectNames acc t = acc := by simp [collectNames, h5]
      rw [hc, ih acc h]
      have e : acc.length = 5 := by omega
      rw [List.take_left' e, List.take_left' e]
    · by_cases hn : TrimSpace t = ""
      · have hc : collectNames acc t = acc := by simp [collectNames, h5, hn]
        rw [hc, ih acc h]
        simp [hn]
      · have hc : collectNames acc t = acc ++ [TrimSpace t] := by
          simp [collectNames, h5, hn]
        rw [hc, ih _ (by simp; omega)]
        simp [hn]

theorem collectNames_crewNames (h : Heading) : h.links.foldl collectNames [] = crewNames h := by
  rw [collectNames_foldl h.links [] (by simp)]
  rfl

/-- The crew directors rule on one heading. -/
theorem ruleCrewDirector_eq (m : Movie) (h : Heading) :
    ruleCrewDirector m h =
      if yieldsDirector h = true then { m with Director := Join (crewNames h) ", " } else m := by
  unfold ruleCrewDirector yieldsDirector
  simp only [collectNames_crewNames]
  by_cases h1 : isDirectorHeading (TrimSpace h.text) = true
  · cases hn : crewNames h with
    | nil => simp [h1]
    | cons a rest => simp [h1]
  · simp [h1]

/-- The `Director` field after the crew directors rule ran over all headings. -/
theorem crewDirector_last (hs : List Heading) (m : Movie) :
    (∀ pre h post, hs = pre ++ h :: post → yieldsDirector h = true →
      (∀ h' ∈ post, yieldsDirector h' = false) →
      (hs.foldl ruleCrewDirector m).Director = Join (crewNames h) ", ") ∧
    ((∀ h ∈ hs, yieldsDirector h = false) →
      (hs.foldl ruleCrewDirector m).Director = m.Director) := by
  have hskip : ∀ (l : List Heading) (b : Movie), (∀ h ∈ l, yieldsDirector h = false) →
      l.foldl ruleCrewDirector b = b := by
    intro l b hl
    rw [foldl_filter ruleCrewDirector yieldsDirector (by
      intro b a ha
      rw [ruleCrewDirector_eq, if_neg (by simp [ha])])]
    have : l.filter yieldsDirector = [] := by
      rw [List.filter_eq_nil_iff]
      intro a ha
      simp [hl a ha]
    rw [this]
    rfl
  constructor
  · intro pre h post hsplit hy hpost
    rw [hsplit, List.foldl_append, List.foldl_cons, hskip post _ hpost, ruleCrewDirector_eq,
      if_pos hy]
  · intro hall
    rw [hskip hs m hall]

/-- The `Director` field after all rules ran over a detail page. -/
theorem applyRules_Director (w : World) (doc : DetailDoc) (movie : Movie) :
    (applyRules w doc movie).Director =
      (doc.crew.flatten.foldl ruleCrewDirector
        { movie with Director := inlineDirector doc movie }).Director := by
  unfold applyRules
  simp only []
  rw [foldl_field (fun (m : Movie) (hs : List Heading) => hs.foldl ruleCrewWriter m)
      (fun m => m.Director)
      (fun b hs => foldl_field ruleCrewWriter (fun m => m.Director)
        (fun x h => (ruleCrewWriter_frame x h).2) hs b),
    ← List.foldl_flatten]
  have hdir : ∀ (l : List Heading) (a b : Movie), a.Director = b.Director →
      (l.foldl ruleCrewDirector a).Director = (l.foldl ruleCrewDirector b).Director := by
    intro l
    induction l with
    | nil => intro a b h; exact h
    | cons x l ih =>
      intro a b h
      simp only [List.foldl_cons]
      apply ih
      rw [ruleCrewDirector_eq, ruleCrewDirector_eq]
      split_ifs
      · rfl
      · exact h
  apply hdir
  have h6 := foldl_field (ruleCast w) (fun st => st.1.Director)
    (fun b a => (ruleCast_frame w b a).1) doc.castLinks
  rw [h6]
  unfold inlineDirector
  simp only []
  have hlist : ∀ m : Movie, m.Director = (listFields m).1 := fun _ => rfl
  have hinl : ∀ (l : List String) (a b : Movie), a.Director = b.Director →
      (l.foldl ruleDirectorLink a).Director = (l.foldl ruleDirectorLink b).Director := by
    intro l
    induction l with
    | nil => intro a b h; exact h
    | cons x l ih =>
      intro a b h
      simp only [List.foldl_cons]
      apply ih
      unfold ruleDirectorLink
      split_ifs
      · simp only [h]
      · exact h
  apply hinl
  rw [hlist, foldl_field (rulePoster w) listFields (rulePoster_frame w),
    foldl_field (ruleRating w) listFields (ruleRating_frame w),
    foldl_field ruleRuntime listFields ruleRuntime_frame,
    foldl_field ruleYear listFields ruleYear_frame]
  rfl

/-- C13 (amended): when the detail page is fetched and exactly one heading of its crew
section has a trimmed text that contains "Director" but neither "Assistant" nor
"Original" and a block with at least one name, then after `scrapeMovieDetails` the
`Director` field is exactly the ", "-join of the first up to five trimmed non-empty
link texts of that block, whatever the inline director list produced; if no heading is
such a heading, the field is as the inline director list left it, which for a record
with an empty `Director` is the join of the non-empty inline link texts. Pages with
several such headings are not covered. -/
theorem C13_crew_director (w : World) (i : Nat) (movie : Movie) (doc : DetailDoc)
    (hfetch : w.visitDetail i (detailURL movie) = Except.ok doc) :
    (∀ pre h post, doc.crew.flatten = pre ++ h :: post → yieldsDirector h = true →
      (∀ h' ∈ pre, yieldsDirector h' = false) → (∀ h' ∈ post, yieldsDirector h' = false) →
      (scrapeMovieDetails w i movie).1.Director = Join (crewNames h) ", ") ∧
    ((∀ h ∈ doc.crew.flatten, yieldsDirector h = false) →
      (scrapeMovieDetails w i movie).1.Director = inlineDirector doc movie) ∧
    (movie.Director = "" →
      inlineDirector doc movie = Join (doc.directorLinks.filter (fun s => s ≠ "")) ", ") := by
  rw [scrapeMovieDetails_ok w i movie doc hfetch]
  simp only [applyRules_Director]
  obtain ⟨h1, h2⟩ := crewDirector_last doc.crew.flatten
    { movie with Director := inlineDirector doc movie }
  refine ⟨fun pre h post hsplit hy _ hpost => h1 pre h post hsplit hy hpost, h2, ?_⟩
  intro hD
  unfold inlineDirector
  rw [directorLinks_fold doc.directorLinks movie [] (by simp) (by rw [hD]; rfl)]
  simp

/-- C13, an instance: the only directors heading of `creditsDoc` with a name is its
first heading; its block replaces the inline byline "M. Mann". -/
theorem C13_crew_director_witness :
    (scrapeMovieDetails (quietWorld [] creditsDoc) 0 dupMovie).1.Director =
      Join (crewNames { text := "Directors", links := ["Michael Mann "] }) ", " :=
  (C13_crew_director (quietWorld [] creditsDoc) 0 dupMovie creditsDoc rfl).1
    [] { text := "Directors", links := ["Michael Mann "] }
    [{ text := "Assistant Director", links := ["Someone Else"] },
     { text := " Writers", links := ["W1", " ", "W2", "W3", "W4", "W5", "W6"] }]
    rfl (by decide) (by decide) (by decide)

/-- C13 as stated fails: the first crew heading of `coDirectorDoc` reads "Director"
and its block names Michael Mann, a later one reads "Co-Director"; both are headings
of the kind the claim describes, and the field ends as the name under the later one,
not as the join of the block of the first. -/
theorem C13_counterexample :
    coDirectorDoc.crew.flatten.map (fun h => (h.text, yieldsDirector h, crewNames h)) =
      [("Director", true, ["Michael Mann"]), ("Co-Director", true, ["Someone Else"]),
       ("Assistant Directors", false, ["A Third"])] ∧
    (scrapeMovieDetails (quietWorld [] coDirectorDoc) 0 dupMovie).1.Director = "Someone Else" ∧
    (scrapeMovieDetails (quietWorld [] coDirectorDoc) 0 dupMovie).1.Director ≠
      Join (crewNames { text := "Director", links := ["Michael Mann"] }) ", " := by
  decide

/-- The fields `creditsDoc` gives: the first five of its six writers and the name under
its directors heading; its cast list has thirty-one names. -/
theorem creditsDoc_fields :
    (scrapeMovieDetails (quietWorld [] creditsDoc) 0 dupMovie).1.Writers =
      "W1, W2, W3, W4, W5" ∧
    (scrapeMovieDetails (quietWorld [] creditsDoc) 0 dupMovie).1.Director = "Michael Mann" ∧
    (castNames (quietWorld [] creditsDoc) creditsDoc.castLinks).length = 31 := by
  refine ⟨by decide, by decide, by decide⟩

/-! ## The caps of the list fields -/

/-- An invariant of a fold that may use the membership of the element folded in. -/
theorem foldl_mem_inv {α β : Type} (f : β → α → β) (P : β → Prop) :
    ∀ (l : List α), (∀ b, ∀ a ∈ l, P b → P (f b a)) → ∀ b, P b → P (l.foldl f b) := by
  intro l
  induction l with
  | nil => intro _ b hb; exact hb
  | cons a l ih =>
    intro h b hb
    exact ih (fun b' a' ha' => h b' a' (List.mem_cons_of_mem a ha')) (f b a)
      (h b a (List.mem_cons_self a l) hb)

/-- The names of a crew block: at most five, each trimmed and non-empty. -/
theorem crewNames_names (h : Heading) :
    (crewNames h).length ≤ 5 ∧ ∀ n ∈ crewNames h, isName n := by
  unfold crewNames
  refine ⟨List.length_take_le 5 _, ?_⟩
  intro n hn
  have hmem := List.mem_of_mem_take hn
  rw [List.mem_filter, List.mem_map] at hmem
  obtain ⟨⟨t, _, rfl⟩, hne⟩ := hmem
  exact isName_TrimSpace t (by simpa using hne)

/-- The crew writers rule on one heading. -/
theorem ruleCrewWriter_eq (m : Movie) (h : Heading) :
    ruleCrewWriter m h =
      if yieldsWriter h = true then { m with Writers := Join (crewNames h) ", " } else m := by
  unfold ruleCrewWriter yieldsWriter
  simp only [collectNames_crewNames]
  by_cases h1 : isWriterHeading (TrimSpace h.text) = true
  · cases hn : crewNames h with
    | nil => simp [h1]
    | cons a rest => simp [h1]
  · simp [h1]

/-- After the crew writers rule the field is as before or comes from one writers
heading. -/
theorem crewWriter_some (hs : List Heading) (m : Movie) :
    (hs.foldl ruleCrewWriter m).Writers = m.Writers ∨
      ∃ h ∈ hs, yieldsWriter h = true ∧
        (hs.foldl ruleCrewWriter m).Writers = Join (crewNames h) ", " := by
  apply foldl_mem_inv ruleCrewWriter (fun x => x.Writers = m.Writers ∨
    ∃ h ∈ hs, yieldsWriter h = true ∧ x.Writers = Join (crewNames h) ", ") hs
  · intro b a ha hb
    rw [ruleCrewWriter_eq]
    by_cases hy : yieldsWriter a = true
    · rw [if_pos hy]
      exact Or.inr ⟨a, ha, hy, rfl⟩
    · rw [if_neg hy]
      exact hb
  · exact Or.inl rfl

/-- After the crew directors rule the field is as before or comes from one directors
heading. -/
theorem crewDirector_some (hs : List Heading) (m : Movie) :
    (hs.foldl ruleCrewDirector m).Director = m.Director ∨
      ∃ h ∈ hs, yieldsDirector h = true ∧
        (hs.foldl ruleCrewDirector m).Director = Join (crewNames h) ", " := by
  apply foldl_mem_inv ruleCrewDirector (fun x => x.Director = m.Director ∨
    ∃ h ∈ hs, yieldsDirector h = true ∧ x.Director = Join (crewNames h) ", ") hs
  · intro b a ha hb
    rw [ruleCrewDirector_eq]
    by_cases hy : yieldsDirector a = true
    · rw [if_pos hy]
      exact Or.inr ⟨a, ha, hy, rfl⟩
    · rw [if_neg hy]
      exact hb
  · exact Or.inl rfl

/-- The `Writers` field after the crew writers rule ran over all headings, when at most
one of them yields a name. -/
theorem crewWriter_last (hs : List Heading) (m : Movie) :
    (∀ pre h post, hs = pre ++ h :: post → yieldsWriter h = true →
      (∀ h' ∈ post, yieldsWriter h' = false) →
      (hs.foldl ruleCrewWriter m).Writers = Join (crewNames h) ", ") ∧
    ((∀ h ∈ hs, yieldsWriter h = false) →
      (hs.foldl ruleCrewWriter m).Writers = m.Writers) := by
  have hskip : ∀ (l : List Heading) (b : Movie), (∀ h ∈ l, yieldsWriter h = false) →
      l.foldl ruleCrewWriter b = b := by
    intro l b hl
    rw [foldl_filter ruleCrewWriter yieldsWriter (by
      intro b a ha
      rw [ruleCrewWriter_eq, if_neg (by simp [ha])])]
    have : l.filter yieldsWriter = [] := by
      rw [List.filter_eq_nil_iff]
      intro a ha
      simp [hl a ha]
    rw [this]
    rfl
  constructor
  · intro pre h post hsplit hy hpost
    rw [hsplit, List.foldl_append, List.foldl_cons, hskip post _ hpost, ruleCrewWriter_eq,
      if_pos hy]
  · intro hall
    rw [hskip hs m hall]

/-- The `Writers` field after all rules ran over a detail page: the crew writers rule
run from a record with the `Writers` of the record given. -/
theorem applyRules_Writers (w : World) (doc : DetailDoc) (movie : Movie) :
    ∃ m : Movie, m.Writers = movie.Writers ∧
      (applyRules w doc movie).Writers = (doc.crew.flatten.foldl ruleCrewWriter m).Writers := by
  refine ⟨doc.crew.foldl (fun m hs => hs.foldl ruleCrewDirector m)
      (doc.castLinks.foldl (ruleCast w)
        (doc.directorLinks.foldl ruleDirectorLink
          (doc.ldjson.foldl (rulePoster w)
            (doc.twitterData2.foldl (ruleRating w)
              (doc.footers.foldl ruleRuntime (doc.releasedates.foldl ruleYear movie)))), 0)).1,
    ?_, ?_⟩
  · rw [foldl_field (fun (m : Movie) (hs : List Heading) => hs.foldl ruleCrewDirector m)
        (fun m => m.Writers)
        (fun b hs => foldl_field ruleCrewDirector (fun m => m.Writers)
          (fun x h => (ruleCrewDirector_frame x h).2) hs b)]
    have h6 := foldl_field (ruleCast w) (fun st => st.1.Writers)
      (fun b a => (ruleCast_frame w b a).2) doc.castLinks
    rw [h6, foldl_field ruleDirectorLink (fun m => m.Writers)
      (fun b a => (ruleDirectorLink_frame b a).2)]
    have hlist : ∀ m : Movie, m.Writers = (listFields m).2.2 := fun _ => rfl
    rw [hlist, foldl_field (rulePoster w) listFields (rulePoster_frame w),
      foldl_field (ruleRating w) listFields (ruleRating_frame w),
      foldl_field ruleRuntime listFields ruleRuntime_frame,
      foldl_field ruleYear listFields ruleYear_frame]
    rfl
  · unfold applyRules
    simp only []
    rw [← List.foldl_flatten]

theorem castNames_cons (w : World) (a : CastLink) (l : List CastLink) :
    castNames w (a :: l) =
      if isOverflow w a = true then castNames w l
      else if TrimSpace a.text ≠ "" then TrimSpace a.text :: castNames w l
      else castNames w l := by
  unfold castNames
  by_cases h : isOverflow w a = true
  · simp [h]
  · by_cases h2 : TrimSpace a.text = "" <;> simp [h, h2]

/-- The cast rule on one link. -/
theorem ruleCast_eq (w : World) (st : Movie × Nat) (a : CastLink) :
    ruleCast w st a =
      if isOverflow w a = true then st
      else if st.2 < 30 ∧ TrimSpace a.text ≠ "" then
        ({ st.1 with Cast := appendName st.1.Cast (TrimSpace a.text) }, st.2 + 1)
      else st := by
  unfold ruleCast isOverflow
  simp only [Bool.or_eq_true, decide_eq_true_eq]
  split_ifs <;> simp_all

/-- The cast rule over a run of links: the first thirty names. -/
theorem castLinks_foldl (w : World) (links : List CastLink) :
    ∀ (st : Movie × Nat) (names : List String), st.2 = names.length → names.length ≤ 30 →
      (∀ n ∈ names, n ≠ "") → st.1.Cast = Join names ", " →
      (links.foldl (ruleCast w) st).1.Cast =
        Join ((names ++ castNames w links).take 30) ", " := by
  induction links with
  | nil =>
    intro st names _ hle _ hj
    simp [castNames, List.take_of_length_le hle, hj]
  | cons a l ih =>
    intro st names hc hle hne hj
    rw [List.foldl_cons, ruleCast_eq, castNames_cons]
    by_cases ho : isOverflow w a = true
    · simp only [ho, if_true]
      exact ih st names hc hle hne hj
    · simp only [ho, Bool.false_eq_true, if_false]
      by_cases ht : TrimSpace a.text = ""
      · simp only [ht, ne_eq, not_true_eq_false, and_false, if_false]
        exact ih st names hc hle hne hj
      · by_cases h30 : st.2 < 30
        · simp only [h30, ne_eq, ht, not_false_eq_true, and_self, if_true]
          rw [ih _ (names ++ [TrimSpace a.text]) (by simp [hc]) (by simp; omega) (by
            intro n hmem
            rcases List.mem_append.mp hmem with hmem | hmem
            · exact hne n hmem
            · rw [List.mem_singleton.mp hmem]; exact ht) (by
            simp only []
            rw [hj, Join_concat names _ hne])]
          simp
        · simp only [h30, false_and, if_false, ne_eq, ht, not_false_eq_true, if_true]
          rw [ih st names hc hle hne hj]
          have e : names.length = 30 := by omega
          rw [List.take_left' e, List.take_left' e]

/-- The `Cast` field after all rules ran over a detail page. -/
theorem applyRules_Cast (w : World) (doc : DetailDoc) (movie : Movie) (hC : movie.Cast = "") :
    (applyRules w doc movie).Cast = Join ((castNames w doc.castLinks).take 30) ", " := by
  unfold applyRules
  simp only []
  rw [foldl_field (fun (m : Movie) (hs : List Heading) => hs.foldl ruleCrewWriter m)
      (fun m => m.Cast)
      (fun b hs => foldl_field ruleCrewWriter (fun m => m.Cast)
        (fun x h => (ruleCrewWriter_frame x h).1) hs b),
    foldl_field (fun (m : Movie) (hs : List Heading) => hs.foldl ruleCrewDirector m)
      (fun m => m.Cast)
      (fun b hs => foldl_field ruleCrewDirector (fun m => m.Cast)
        (fun x h => (ruleCrewDirector_frame x h).1) hs b)]
  rw [castLinks_foldl w doc.castLinks _ [] rfl (by simp) (by simp) (by
    simp only []
    rw [foldl_field ruleDirectorLink (fun m => m.Cast)
      (fun b a => (ruleDirectorLink_frame b a).1)]
    have hlist : ∀ m : Movie, m.Cast = (listFields m).2.1 := fun _ => rfl
    rw [hlist, foldl_field (rulePoster w) listFields (rulePoster_frame w),
      foldl_field (ruleRating w) listFields (ruleRating_frame w),
      foldl_field ruleRuntime listFields ruleRuntime_frame,
      foldl_field ruleYear listFields ruleYear_frame]
    exact hC)]
  simp

/-- The names of a run of cast links: each trimmed and non-empty. -/
theorem castNames_names (w : World) (links : List CastLink) :
    ∀ n ∈ castNames w links, isName n := by
  intro n hn
  unfold castNames at hn
  rw [List.mem_filter, List.mem_map] at hn
  obtain ⟨⟨a, _, rfl⟩, hne⟩ := hn
  exact isName_TrimSpace a.text (by simpa using hne)

/-- Overflow controls behind a run of cast links add no name. -/
theorem castNames_append_overflow (w : World) (pre post : List CastLink)
    (hpost : ∀ a ∈ post, isOverflow w a = true) :
    castNames w (pre ++ post) = castNames w pre := by
  unfold castNames
  have : post.filter (fun a => !isOverflow w a) = [] := by
    rw [List.filter_eq_nil_iff]
    intro a ha
    simp [hpost a ha]
  rw [List.filter_append, this, List.append_nil]

/-- The commas of a join of names without commas: one less than the names. -/
theorem Join_commas (names : List String) (h : ∀ n ∈ names, ',' ∉ n.data) :
    (Join names ", ").data.count ',' = names.length - 1 := by
  induction names with
  | nil => rfl
  | cons a rest ih =>
    have ha : a.data.count ',' = 0 := List.count_eq_zero.mpr (h a (List.mem_cons_self a rest))
    cases rest with
    | nil => simpa [Join] using ha
    | cons b rest =>
      have e : Join (a :: b :: rest) ", " = a ++ ", " ++ Join (b :: rest) ", " := rfl
      have hsep : (", " : String).data.count ',' = 1 := by decide
      rw [e]
      simp only [String.data_append, List.count_append]
      rw [ih (fun n hn => h n (List.mem_cons_of_mem a hn)), ha, hsep]
      simp only [List.length_cons]
      omega

/-- C10 (amended): after `scrapeMovieDetails` fetched a detail page for a record whose
`Director`, `Cast` and `Writers` are empty, the `Writers` field is empty or the
", "-join of the first up to five trimmed non-empty link texts of the block under a
writers heading of the crew section (empty when no writers heading has a name, that
join when exactly one has); the `Cast` field is the ", "-join of at most 30 of
the trimmed non-empty texts of the cast links other than the overflow control, in
document order, and of exactly the first 30 of them when no other cast link follows an
overflow control; the `Director` field is the ", "-join of the first up to five trimmed
non-empty link texts of the block under a directors heading of the crew section, or
else the join of all non-empty link texts of the inline director list, however many
they are and as they stand (not trimmed). -/
theorem C10_list_field_caps (w : World) (i : Nat) (movie : Movie) (doc : DetailDoc)
    (hfetch : w.visitDetail i (detailURL movie) = Except.ok doc)
    (hD : movie.Director = "") (hC : movie.Cast = "") (hW : movie.Writers = "") :
    ((scrapeMovieDetails w i movie).1.Writers = "" ∨
      ∃ h ∈ doc.crew.flatten, yieldsWriter h = true ∧
        (scrapeMovieDetails w i movie).1.Writers = Join (crewNames h) ", ") ∧
    ((∀ h ∈ doc.crew.flatten, yieldsWriter h = false) →
      (scrapeMovieDetails w i movie).1.Writers = "") ∧
    (∀ pre h post, doc.crew.flatten = pre ++ h :: post → yieldsWriter h = true →
      (∀ h' ∈ pre, yieldsWriter h' = false) → (∀ h' ∈ post, yieldsWriter h' = false) →
      (scrapeMovieDetails w i movie).1.Writers = Join (crewNames h) ", ") ∧
    (∃ names : List String, names.Sublist (castNames w doc.castLinks) ∧ names.length ≤ 30 ∧
      (scrapeMovieDetails w i movie).1.Cast = Join names ", ") ∧
    (∀ pre post : List CastLink, doc.castLinks = pre ++ post →
      (∀ a ∈ pre, isOverflow w a = false) → (∀ a ∈ post, isOverflow w a = true) →
      (scrapeMovieDetails w i movie).1.Cast =
        Join (((pre.map (fun a => TrimSpace a.text)).filter (fun s => s ≠ "")).take 30) ", ") ∧
    ((∃ h ∈ doc.crew.flatten, yieldsDirector h = true ∧
        (scrapeMovieDetails w i movie).1.Director = Join (crewNames h) ", ") ∨
      (scrapeMovieDetails w i movie).1.Director =
        Join (doc.directorLinks.filter (fun s => s ≠ "")) ", ") ∧
    (∀ h : Heading, (crewNames h).length ≤ 5 ∧ ∀ n ∈ crewNames h, isName n) ∧
    (∀ n ∈ castNames w doc.castLinks, isName n) := by
  rw [scrapeMovieDetails_ok w i movie doc hfetch]
  simp only []
  obtain ⟨m, hm, hwr⟩ := applyRules_Writers w doc movie
  refine ⟨?_, ?_, ?_, ?_, ?_, ?_, crewNames_names, castNames_names w doc.castLinks⟩
  · rw [hwr]
    rcases crewWriter_some doc.crew.flatten m with h | h
    · left; rw [h, hm, hW]
    · right; exact h
  · intro hnone
    rw [hwr, (crewWriter_last doc.crew.flatten m).2 hnone, hm, hW]
  · intro pre h post hsplit hy _ hpost
    rw [hwr]
    exact (crewWriter_last doc.crew.flatten m).1 pre h post hsplit hy hpost
  · exact ⟨(castNames w doc.castLinks).take 30, List.take_sublist 30 _,
      List.length_take_le 30 _, applyRules_Cast w doc movie hC⟩
  · intro pre post hsplit hpre hpost
    rw [applyRules_Cast w doc movie hC, hsplit, castNames_append_overflow w pre post hpost]
    unfold castNames
    have : pre.filter (fun a => !isOverflow w a) = pre := by
      rw [List.filter_eq_self]
      intro a ha
      simp [hpre a ha]
    rw [this]
  · rw [applyRules_Director]
    have hin : inlineDirector doc movie =
        Join (doc.directorLinks.filter (fun s => s ≠ "")) ", " := by
      unfold inlineDirector
      rw [directorLinks_fold doc.directorLinks movie [] (by simp) (by rw [hD]; rfl)]
      simp
    rcases crewDirector_some doc.crew.flatten
      { movie with Director := inlineDirector doc movie } with h | h
    · right; rw [h]; exact hin
    · left; exact h

/-- C10, an instance: `creditsDoc` has six writers under its writers heading, thirty-one
cast links followed by the overflow control, and one directors heading. -/
theorem C10_list_field_caps_witness :
    (scrapeMovieDetails (quietWorld [] creditsDoc) 0 dupMovie).1.Cast =
      Join (((((List.range 31).map
        (fun k => ({ id := "", text := " Actor " ++ toString k } : CastLink))).map
          (fun a => TrimSpace a.text)).filter (fun s => s ≠ "")).take 30) ", " :=
  (C10_list_field_caps (quietWorld [] creditsDoc) 0 dupMovie creditsDoc rfl rfl rfl
    rfl).2.2.2.2.1
    ((List.range 31).map (fun k => { id := "", text := " Actor " ++ toString k }))
    [{ id := "has-cast-overflow", text := "Show All" }] rfl (by decide) (by decide)

/-- C10 as stated fails for the `Director` field: with no crew section the inline
director list is joined as it stands. Six links give a field with five commas, which
is the join of six names and not of fewer; and a link text with a leading space gives
a field that is not a join of trimmed names. -/
theorem C10_counterexample :
    (scrapeMovieDetails (quietWorld [] bylineDoc) 0 dupMovie).1.Director =
      "A, B, C, D, E, F" ∧
    (∀ names : List String, (∀ n ∈ names, ',' ∉ n.data) →
      Join names ", " = "A, B, C, D, E, F" → names.length = 6) ∧
    (scrapeMovieDetails
      (quietWorld [] { emptyDetail with directorLinks := [" Michael Mann"] }) 0
      dupMovie).1.Director = " Michael Mann" ∧
    (∀ names : List String, (∀ n ∈ names, isName n) → Join names ", " ≠ " Michael Mann") := by
  refine ⟨by decide, ?_, by decide, ?_⟩
  · intro names hall hj
    have hc := Join_commas names hall
    rw [hj] at hc
    have h5 : ("A, B, C, D, E, F" : String).data.count ',' = 5 := by decide
    rw [h5] at hc
    omega
  · intro names hall hj
    cases names with
    | nil => exact absurd hj (by decide)
    | cons a rest =>
      obtain ⟨c, cs, hc, hsp⟩ := isName_head a (hall a (List.mem_cons_self a rest))
      obtain ⟨t, ht⟩ := Join_cons_data a rest ", "
      rw [hj, hc] at ht
      have hhead : (' ' : Char) = c := by
        have : (" Michael Mann" : String).data = ' ' :: "Michael Mann".data := rfl
        rw [this] at ht
        exact (List.cons.inj ht).1
      rw [← hhead] at hsp
      exact absurd hsp (by decide)

/-! ## The text of `date_added` -/

/-- With enough fuel the digits `Nat.toDigitsCore` writes do not depend on the fuel. -/
theorem toDigitsCore_fuel (f : Nat) :
    ∀ (f' n : Nat) (ds : List Char), n < f → n < f' →
      Nat.toDigitsCore 10 f n ds = Nat.toDigitsCore 10 f' n ds := by
  induction f with
  | zero => intro f' n ds h; omega
  | succ f ih =>
    intro f' n ds h h'
    obtain ⟨g, rfl⟩ : ∃ g, f' = g + 1 := ⟨f' - 1, by omega⟩
    simp only [Nat.toDigitsCore]
    by_cases hz : n / 10 = 0
    · simp [hz]
    · simp only [hz, if_false]
      exact ih g (n / 10) _ (by omega) (by omega)

theorem toDigits_small (n : Nat) (h : n < 10) : Nat.toDigits 10 n = [Nat.digitChar n] := by
  unfold Nat.toDigits
  simp only [Nat.toDigitsCore]
  have hz : n / 10 = 0 := by omega
  have hm : n % 10 = n := by omega
  simp [hz, hm]

theorem toDigits_step (n : Nat) (h : 10 ≤ n) :
    Nat.toDigits 10 n = Nat.toDigits 10 (n / 10) ++ [Nat.digitChar (n % 10)] := by
  unfold Nat.toDigits
  rw [Nat.toDigitsCore]
  have hz : ¬ n / 10 = 0 := by omega
  simp only [hz, if_false]
  rw [toDigitsCore_append, toDigitsCore_fuel n (n / 10 + 1) (n / 10) [] (by omega) (by omega)]

theorem digitsFixed_zero (w : Nat) : digitsFixed w 0 = List.replicate w '0' := by
  induction w with
  | zero => rfl
  | succ w ih =>
    simp only [digitsFixed, Nat.zero_div, ih, Nat.zero_mod]
    rw [List.replicate_succ']
    rfl

theorem digitsFixed_length (w n : Nat) : (digitsFixed w n).length = w := by
  induction w generalizing n with
  | zero => rfl
  | succ w ih => simp [digitsFixed, ih]

/-- The numeral of `n` has at most `w` digits when `n < 10 ^ w`. -/
theorem toDigits_length_le (w : Nat) :
    ∀ n : Nat, n < 10 ^ (w + 1) → (Nat.toDigits 10 n).length ≤ w + 1 := by
  induction w with
  | zero => intro n h; rw [toDigits_small n (by simpa using h)]; simp
  | succ w ih =>
    intro n h
    by_cases hs : n < 10
    · rw [toDigits_small n hs]; simp
    · rw [toDigits_step n (by omega)]
      have := ih (n / 10) (by rw [Nat.div_lt_iff_lt_mul (by decide)]; rw [pow_succ] at h; exact h)
      simp only [List.length_append, List.length_singleton]
      omega

/-- Zero padding to width `w` writes the `w` low digits when the number fits. -/
theorem padInt_eq (w : Nat) :
    ∀ n : Nat, n < 10 ^ (w + 1) → (padInt n (w + 1)).data = digitsFixed (w + 1) n := by
  induction w with
  | zero =>
    intro n h
    have hn : n < 10 := by simpa using h
    simp only [padInt, toDigits_small n hn, digitsFixed]
    have hm : n % 10 = n := by omega
    simp [hm]
  | succ w ih =>
    intro n h
    by_cases hs : n < 10
    · have hz : n / 10 = 0 := by omega
      have hm : n % 10 = n := by omega
      simp only [padInt, toDigits_small n hs, digitsFixed, hz, hm, Nat.zero_div]
      have := digitsFixed_zero w
      simp only [List.length_singleton, Nat.add_sub_cancel]
      rw [List.replicate_succ', this]
      simp only [Nat.zero_mod, List.append_assoc, List.singleton_append]
      rfl
    · have hstep := toDigits_step n (by omega)
      have hlt : n / 10 < 10 ^ (w + 1) := by
        rw [Nat.div_lt_iff_lt_mul (by decide)]; rw [pow_succ] at h; exact h
      have ih' := ih (n / 10) hlt
      have hlen := toDigits_length_le w (n / 10) hlt
      rw [digitsFixed, ← ih']
      simp only [padInt, hstep, List.length_append, List.length_singleton]
      rw [show w + 1 + 1 - ((Nat.toDigits 10 (n / 10)).length + 1) =
        w + 1 - (Nat.toDigits 10 (n / 10)).length by omega]
      simp

theorem digitVal_digitChar (d : Nat) (h : d < 10) : digitVal (Nat.digitChar d) = some d := by
  obtain ⟨h1, h2⟩ := digitChar_isDigit d h
  unfold isDigitChar at h1
  simp only [digitVal, h1, and_self, if_true, h2]

theorem digitsFixed_two (n : Nat) :
    digitsFixed 2 n = [Nat.digitChar (n / 10 % 10), Nat.digitChar (n % 10)] := by
  simp [digitsFixed]

theorem digitsFixed_four (n : Nat) :
    digitsFixed 4 n = [Nat.digitChar (n / 10 / 10 / 10 % 10), Nat.digitChar (n / 10 / 10 % 10),
      Nat.digitChar (n / 10 % 10), Nat.digitChar (n % 10)] := by
  simp [digitsFixed]

/-- The date part of the text `AddMovie` writes, for a four-digit year. -/
theorem formatRFC3339_date (t : Time) (hy0 : 0 ≤ t.year) (hy : t.year ≤ 9999)
    (hm : t.month < 100) (hd : t.day < 100) :
    ∃ rest, (formatRFC3339 t).data =
      digitsFixed 4 t.year.natAbs ++ '-' :: (digitsFixed 2 t.month ++ '-' ::
        (digitsFixed 2 t.day ++ 'T' :: rest)) := by
  have hneg : ¬ t.year < 0 := by omega
  have h4 := padInt_eq 3 t.year.natAbs (by norm_num; omega)
  have h2m := padInt_eq 1 t.month (by norm_num; omega)
  have h2d := padInt_eq 1 t.day (by norm_num; omega)
  refine ⟨(padInt t.hour 2 ++ ":" ++ padInt t.minute 2 ++ ":" ++ padInt t.second 2 ++
    formatZone t.offset).data, ?_⟩
  unfold formatRFC3339
  simp only [hneg, if_false, String.data_append, h4, h2m, h2d]
  simp [String.data_append]

theorem parseLongYear_digits (y : Nat) (rest : List Char) :
    ∃ v : Int, parseLongYear (digitsFixed 4 y ++ rest) = some (v, rest) := by
  have hv : ∀ k : Nat, digitVal (Nat.digitChar (k % 10)) = some (k % 10) :=
    fun k => digitVal_digitChar (k % 10) (Nat.mod_lt _ (by decide))
  simp only [digitsFixed_four, List.cons_append, List.nil_append, parseLongYear, digitsVal, hv]
  exact ⟨_, rfl⟩

theorem getnum_digits (n : Nat) (rest : List Char) :
    getnum (digitsFixed 2 n ++ rest) true = some (n / 10 % 10 * 10 + n % 10, rest) := by
  have hv : ∀ k : Nat, digitVal (Nat.digitChar (k % 10)) = some (k % 10) :=
    fun k => digitVal_digitChar (k % 10) (Nat.mod_lt _ (by decide))
  simp only [digitsFixed_two, List.cons_append, List.nil_append, getnum, hv]

/-- A text with a `T` after the date is not of the layout `2006-01-02 15:04:05`. -/
theorem parseDateTime_T (y mo d : Nat) (rest : List Char) :
    parseDateTime ⟨digitsFixed 4 y ++ '-' :: (digitsFixed 2 mo ++ '-' ::
      (digitsFixed 2 d ++ 'T' :: rest))⟩ = none := by
  obtain ⟨v, hyear⟩ := parseLongYear_digits y ('-' :: (digitsFixed 2 mo ++ '-' ::
      (digitsFixed 2 d ++ 'T' :: rest)))
  have hdash : ∀ r : List Char, skip ('-' :: r) '-' = some r := by
    intro r; simp [skip]
  have hT : skip ('T' :: rest) ' ' = none := by simp [skip]
  unfold parseDateTime
  simp only [hyear, Option.bind_eq_bind, Option.some_bind, hdash, getnum_digits, hT,
    Option.none_bind]
  split_ifs <;> simp
/-- The time `scanMovie` reads back from a row `AddMovie` wrote is the zero time. -/
theorem scanMovie_rowOf (movie : Movie) (t : Time) (hy0 : 0 ≤ t.year) (hy : t.year ≤ 9999)
    (hm : t.month < 100) (hd : t.day < 100) :
    scanMovie (rowOf movie t) = { movie with DateAdded := Time.zero } := by
  obtain ⟨rest, hrest⟩ := formatRFC3339_date t hy0 hy hm hd
  have hp : parseDateTime (formatRFC3339 t) = none := by
    have := parseDateTime_T t.year.natAbs t.month t.day rest
    rw [← hrest] at this
    exact this
  simp only [scanMovie, rowOf, hp]

/-- C15 fails on the code: for every movie and every insertion time with a four-digit
year, the `date_added` text `AddMovie` writes (RFC 3339, with a `T` after the date) is
rejected by the layout `2006-01-02 15:04:05` of `scanMovie`, the error is dropped, and
the movie read back through `GetAllMovies` carries the zero time, not the insertion
time. -/
theorem C15_added_at_lost (movie : Movie) (t : Time) (hy0 : 0 ≤ t.year) (hy : t.year ≤ 9999)
    (hm : t.month < 100) (hd : t.day < 100) :
    parseDateTime (rowOf movie t).date_added = none ∧
    (scanMovie (rowOf movie t)).DateAdded = Time.zero ∧
    GetAllMovies (AddMovie [] none t movie).1 none =
      ([{ movie with DateAdded := Time.zero }], none) := by
  obtain ⟨rest, hrest⟩ := formatRFC3339_date t hy0 hy hm hd
  have hp : parseDateTime (formatRFC3339 t) = none := by
    have := parseDateTime_T t.year.natAbs t.month t.day rest
    rw [← hrest] at this
    exact this
  refine ⟨hp, by rw [scanMovie_rowOf movie t hy0 hy hm hd], ?_⟩
  simp only [AddMovie, List.any_nil, Bool.false_eq_true, if_false, List.nil_append, GetAllMovies,
    orderByDateAddedDesc, List.foldr, insertDesc, List.map, scanMovie_rowOf movie t hy0 hy hm hd]

/-- C15, the failing input: a film stored on 2024-03-05 at 07:08:09 UTC is read back
with the zero time. -/
theorem C15_added_at_lost_witness :
    (rowOf dupMovie ⟨2024, 3, 5, 7, 8, 9, 0, 0⟩).date_added = "2024-03-05T07:08:09Z" ∧
    parseDateTime "2024-03-05T07:08:09Z" = none ∧
    (scanMovie (rowOf dupMovie ⟨2024, 3, 5, 7, 8, 9, 0, 0⟩)).DateAdded = Time.zero ∧
    Time.zero ≠ ⟨2024, 3, 5, 7, 8, 9, 0, 0⟩ :=
  ⟨by decide, by decide,
   (C15_added_at_lost dupMovie ⟨2024, 3, 5, 7, 8, 9, 0, 0⟩ (by decide) (by decide) (by decide)
     (by decide)).2.1,
   by decide⟩

/-! ## The order of instants and the order of `date_added` texts -/

/-- Days from January 1 of year 1 to January 1 of the year. -/
theorem yearStart_mono (y y' : Int) (h : y ≤ y') :
    365 * (y - 1) + (y - 1) / 4 - (y - 1) / 100 + (y - 1) / 400 ≤
      365 * (y' - 1) + (y' - 1) / 4 - (y' - 1) / 100 + (y' - 1) / 400 := by
  omega

theorem yearStart_succ (y : Int) :
    365 * (y + 1 - 1) + (y + 1 - 1) / 4 - (y + 1 - 1) / 100 + (y + 1 - 1) / 400 =
      365 * (y - 1) + (y - 1) / 4 - (y - 1) / 100 + (y - 1) / 400 + 365 +
        (if isLeap y = true then 1 else 0) := by
  unfold isLeap
  simp only [decide_eq_true_eq]
  split_ifs with h <;> omega

/-- The day of the year of a calendar date is at most the length of the year. -/
theorem dayOfYear_le (y : Int) (m d : Nat) (hm1 : 1 ≤ m) (hm : m ≤ 12) (hd : d ≤ daysIn m y) :
    daysBeforeMonth m y + d ≤ 365 + (if isLeap y = true then 1 else 0) := by
  unfold daysBeforeMonth
  unfold daysIn at hd
  cases hl : isLeap y <;> simp only [hl] at hd ⊢ <;> interval_cases m <;> simp at hd ⊢ <;> omega

/-- Within a year the day number grows with the calendar date. -/
theorem dayOfYear_mono (y : Int) (m d m' d' : Nat) (hm1 : 1 ≤ m) (hm' : m' ≤ 12)
    (hd1 : 1 ≤ d') (hd : d ≤ daysIn m y)
    (h : m < m' ∨ (m = m' ∧ d < d')) :
    daysBeforeMonth m y + d < daysBeforeMonth m' y + d' := by
  rcases h with h | ⟨rfl, h⟩
  · unfold daysBeforeMonth
    unfold daysIn at hd
    have hm : m ≤ 11 := by omega
    cases hl : isLeap y <;> simp only [hl] at hd ⊢ <;> interval_cases m <;>
      interval_cases m' <;> simp at hd ⊢ <;> omega
  · omega

/-- The day number grows with the calendar date. -/
theorem daysSinceEpoch_mono (y : Int) (m d : Nat) (y' : Int) (m' d' : Nat)
    (hm1 : 1 ≤ m) (hm : m ≤ 12) (hd : d ≤ daysIn m y) (hm' : m' ≤ 12) (hd1' : 1 ≤ d')
    (h : y < y' ∨ (y = y' ∧ (m < m' ∨ (m = m' ∧ d < d')))) :
    daysSinceEpoch y m d < daysSinceEpoch y' m' d' := by
  unfold daysSinceEpoch
  rcases h with h | ⟨rfl, h⟩
  · have h1 := dayOfYear_le y m d hm1 hm hd
    have h2 := yearStart_succ y
    have h3 := yearStart_mono (y + 1) y' (by omega)
    have h4 : 0 ≤ (daysBeforeMonth m' y' : Int) := Int.ofNat_nonneg _
    have h1' : (daysBeforeMonth m y : Int) + d ≤ 365 + (if isLeap y = true then 1 else 0) := by
      have := Int.ofNat_le.mpr h1
      push_cast at this
      split_ifs at this ⊢ <;> simpa using this
    split_ifs at h2 h1' <;> omega
  · have := dayOfYear_mono y m d m' d' hm1 hm' hd1' hd h
    omega

theorem textLt_irrefl (a : List Char) : textLt a a = false := by
  induction a with
  | nil => rfl
  | cons c cs ih => simp [textLt, ih]

theorem textLt_append_left (p x y : List Char) : textLt (p ++ x) (p ++ y) = textLt x y := by
  induction p with
  | nil => rfl
  | cons c cs ih => simp [textLt, ih]

/-- Two texts that start with blocks of equal length, the first block smaller. -/
theorem textLt_of_block (a : List Char) :
    ∀ (b x y : List Char), a.length = b.length → textLt a b = true →
      textLt (a ++ x) (b ++ y) = true := by
  induction a with
  | nil =>
    intro b x y hl h
    cases b with
    | nil => simp [textLt] at h
    | cons c cs => simp at hl
  | cons c cs ih =>
    intro b x y hl h
    cases b with
    | nil => simp at hl
    | cons d ds =>
      simp only [textLt, Bool.or_eq_true, decide_eq_true_eq, Bool.and_eq_true] at h
      simp only [List.cons_append, textLt, Bool.or_eq_true, decide_eq_true_eq, Bool.and_eq_true]
      rcases h with h | ⟨h1, h2⟩
      · exact Or.inl h
      · exact Or.inr ⟨h1, ih ds x y (by simpa using hl) h2⟩

/-- Fixed-width numerals are ordered as their numbers. -/
theorem textLt_digitsFixed (w : Nat) :
    ∀ n n' : Nat, n < n' → n' < 10 ^ w →
      textLt (digitsFixed w n) (digitsFixed w n') = true := by
  induction w with
  | zero => intro n n' h h'; simp at h'; omega
  | succ w ih =>
    intro n n' h h'
    simp only [digitsFixed]
    by_cases hq : n / 10 < n' / 10
    · exact textLt_of_block _ _ _ _ (by simp [digitsFixed_length])
        (ih (n / 10) (n' / 10) hq (by
          rw [Nat.div_lt_iff_lt_mul (by decide)]; rw [pow_succ] at h'; exact h'))
    · have he : n / 10 = n' / 10 := by omega
      rw [he, textLt_append_left]
      obtain ⟨h1, h2⟩ := digitChar_isDigit (n % 10) (Nat.mod_lt _ (by decide))
      obtain ⟨h1', h2'⟩ := digitChar_isDigit (n' % 10) (Nat.mod_lt _ (by decide))
      unfold isDigitChar at h1 h1'
      simp only [textLt, Bool.or_eq_true, decide_eq_true_eq, Bool.and_eq_true]
      left
      omega

/-- Comparing two texts that start with a fixed-width numeral and a separator. -/
theorem textLt_field (w : Nat) (n n' : Nat) (sep : Char) (x y : List Char) (hn' : n' < 10 ^ w)
    (h : n < n' ∨ (n = n' ∧ textLt x y = true)) :
    textLt (digitsFixed w n ++ sep :: x) (digitsFixed w n' ++ sep :: y) = true := by
  rcases h with h | ⟨rfl, h⟩
  · exact textLt_of_block _ _ _ _ (by simp [digitsFixed_length]) (textLt_digitsFixed w n n' h hn')
  · rw [textLt_append_left]
    simp [textLt, h]

/-- The text `AddMovie` writes for a calendar time with a four-digit year. -/
theorem formatRFC3339_data (t : Time) (hv : t.valid) :
    (formatRFC3339 t).data =
      digitsFixed 4 t.year.natAbs ++ '-' :: (digitsFixed 2 t.month ++ '-' ::
        (digitsFixed 2 t.day ++ 'T' :: (digitsFixed 2 t.hour ++ ':' ::
          (digitsFixed 2 t.minute ++ ':' :: (digitsFixed 2 t.second ++
            (formatZone t.offset).data))))) := by
  obtain ⟨hy0, hy, hm1, hm, hd1, hd, hh, hmi, hs⟩ := hv
  have hd31 : daysIn t.month t.year ≤ 31 := by
    unfold daysIn; split_ifs <;> omega
  have hneg : ¬ t.year < 0 := by omega
  have h4 := padInt_eq 3 t.year.natAbs (by norm_num; omega)
  have h2m := padInt_eq 1 t.month (by norm_num; omega)
  have h2d := padInt_eq 1 t.day (by norm_num; omega)
  have h2h := padInt_eq 1 t.hour (by norm_num; omega)
  have h2mi := padInt_eq 1 t.minute (by norm_num; omega)
  have h2s := padInt_eq 1 t.second (by norm_num; omega)
  unfold formatRFC3339
  simp only [hneg, if_false, String.data_append, h4, h2m, h2d, h2h, h2mi, h2s]
  simp [String.data_append]

/-- Two calendar times with the same zone offset: the earlier instant has the earlier
wall clock reading, field by field. -/
theorem instant_lt_fields (t1 t2 : Time) (hv1 : t1.valid) (hv2 : t2.valid)
    (hoff : t1.offset = t2.offset) (hlt : t1.instant < t2.instant) :
    t1.year < t2.year ∨ (t1.year = t2.year ∧ (t1.month < t2.month ∨ (t1.month = t2.month ∧
      (t1.day < t2.day ∨ (t1.day = t2.day ∧ (t1.hour < t2.hour ∨ (t1.hour = t2.hour ∧
        (t1.minute < t2.minute ∨ (t1.minute = t2.minute ∧ t1.second < t2.second))))))))) := by
  obtain ⟨_, _, hm1, hm, hd1, hd, hh, hmi, hs⟩ := hv1
  obtain ⟨_, _, hm1', hm', hd1', hd', hh', hmi', hs'⟩ := hv2
  unfold Time.instant at hlt
  rw [hoff] at hlt
  -- the dates are ordered, or equal
  by_cases hdate : t1.year < t2.year ∨ (t1.year = t2.year ∧ (t1.month < t2.month ∨
      (t1.month = t2.month ∧ t1.day < t2.day)))
  · rcases hdate with h | ⟨h1, h | ⟨h2, h3⟩⟩
    · exact Or.inl h
    · exact Or.inr ⟨h1, Or.inl h⟩
    · exact Or.inr ⟨h1, Or.inr ⟨h2, Or.inl h3⟩⟩
  · by_cases hsame : t1.year = t2.year ∧ t1.month = t2.month ∧ t1.day = t2.day
    · obtain ⟨e1, e2, e3⟩ := hsame
      rw [e1, e2, e3] at hlt
      refine Or.inr ⟨e1, Or.inr ⟨e2, Or.inr ⟨e3, ?_⟩⟩⟩
      omega
    · exfalso
      have hrev : t2.year < t1.year ∨ (t2.year = t1.year ∧ (t2.month < t1.month ∨
          (t2.month = t1.month ∧ t2.day < t1.day))) := by
        by_contra hc
        apply hsame
        omega
      have := daysSinceEpoch_mono t2.year t2.month t2.day t1.year t1.month t1.day hm1' hm' hd'
        hm hd1 hrev
      omega

/-- The texts of two calendar times with the same zone offset are ordered as the
whole seconds of their instants. -/
theorem formatRFC3339_lt (t1 t2 : Time) (hv1 : t1.valid) (hv2 : t2.valid)
    (hoff : t1.offset = t2.offset) (hlt : t1.instant < t2.instant) :
    textLt (formatRFC3339 t1).data (formatRFC3339 t2).data = true := by
  have hf := instant_lt_fields t1 t2 hv1 hv2 hoff hlt
  rw [formatRFC3339_data t1 hv1, formatRFC3339_data t2 hv2, hoff]
  obtain ⟨hy0, hy, hm1, hm, hd1, hd, hh, hmi, hs⟩ := hv2
  have hd31 : daysIn t2.month t2.year ≤ 31 := by
    unfold daysIn; split_ifs <;> omega
  obtain ⟨hy0', _⟩ := hv1
  apply textLt_field 4 _ _ '-' _ _ (by norm_num; omega)
  rcases hf with h | ⟨e, hf⟩
  · left; omega
  right
  refine ⟨by rw [e], ?_⟩
  apply textLt_field 2 _ _ '-' _ _ (by norm_num; omega)
  rcases hf with h | ⟨e, hf⟩
  · exact Or.inl h
  right
  refine ⟨e, ?_⟩
  apply textLt_field 2 _ _ 'T' _ _ (by norm_num; omega)
  rcases hf with h | ⟨e, hf⟩
  · exact Or.inl h
  right
  refine ⟨e, ?_⟩
  apply textLt_field 2 _ _ ':' _ _ (by norm_num; omega)
  rcases hf with h | ⟨e, hf⟩
  · exact Or.inl h
  right
  refine ⟨e, ?_⟩
  apply textLt_field 2 _ _ ':' _ _ (by norm_num; omega)
  rcases hf with h | ⟨e, h⟩
  · exact Or.inl h
  right
  refine ⟨e, ?_⟩
  exact textLt_of_block _ _ _ _ (by simp [digitsFixed_length])
    (textLt_digitsFixed 2 _ _ h (by norm_num; omega))

theorem char_eq_of_toNat (a b : Char) (h : a.toNat = b.toNat) : a = b := by
  rw [← Char.ofNat_toNat a, ← Char.ofNat_toNat b, h]

theorem textLt_asymm (a : List Char) :
    ∀ b : List Char, textLt a b = true → textLt b a = false := by
  induction a with
  | nil => intro b _; cases b <;> rfl
  | cons c cs ih =>
    intro b h
    cases b with
    | nil => simp [textLt] at h
    | cons d ds =>
      simp only [textLt, Bool.or_eq_true, decide_eq_true_eq, Bool.and_eq_true] at h
      simp only [textLt, Bool.or_eq_false_iff, decide_eq_false_iff_not, Bool.and_eq_false_iff]
      rcases h with h | ⟨h1, h2⟩
      · refine ⟨by omega, Or.inl ?_⟩
        rintro rfl
        omega
      · subst h1
        exact ⟨by omega, Or.inr (ih ds h2)⟩

/-- The text order is a weak order: what is below `c` is below `b`, or `b` is below `c`. -/
theorem textLt_cotrans (a : List Char) :
    ∀ b c : List Char, textLt a c = true → textLt a b = true ∨ textLt b c = true := by
  induction a with
  | nil =>
    intro b c h
    cases c with
    | nil => simp [textLt] at h
    | cons e es =>
      cases b with
      | nil => exact Or.inr rfl
      | cons d ds => exact Or.inl rfl
  | cons x xs ih =>
    intro b c h
    cases c with
    | nil => simp [textLt] at h
    | cons e es =>
      cases b with
      | nil => exact Or.inr rfl
      | cons d ds =>
        simp only [textLt, Bool.or_eq_true, decide_eq_true_eq, Bool.and_eq_true] at h ⊢
        rcases Nat.lt_trichotomy x.toNat d.toNat with hxd | hxd | hxd
        · exact Or.inl (Or.inl hxd)
        · have hxd' := char_eq_of_toNat x d hxd
          subst hxd'
          rcases h with h | ⟨h1, h2⟩
          · exact Or.inr (Or.inl h)
          · subst h1
            rcases ih ds es h2 with h3 | h3
            · exact Or.inl (Or.inr ⟨rfl, h3⟩)
            · exact Or.inr (Or.inr ⟨rfl, h3⟩)
        · rcases h with h | ⟨h1, _⟩
          · exact Or.inr (Or.inl (by omega))
          · subst h1
            exact Or.inr (Or.inl hxd)

theorem dateDesc_trans (a b c : Row) (h1 : dateDesc a b = true) (h2 : dateDesc b c = true) :
    dateDesc a c = true := by
  unfold dateDesc at *
  simp only [Bool.not_eq_true'] at *
  by_contra hc
  simp only [Bool.not_eq_false] at hc
  rcases textLt_cotrans _ b.date_added.data _ hc with h | h
  · rw [h] at h1; exact absurd h1 (by simp)
  · rw [h] at h2; exact absurd h2 (by simp)

theorem insertDesc_perm (r : Row) (l : List Row) : (insertDesc r l).Perm (r :: l) := by
  induction l with
  | nil => exact List.Perm.refl _
  | cons x rest ih =>
    unfold insertDesc
    split_ifs
    · exact List.Perm.refl _
    · exact (List.Perm.cons x ih).trans (List.Perm.swap r x rest)

theorem insertDesc_pairwise (r : Row) (l : List Row)
    (h : l.Pairwise (fun a b => dateDesc a b = true)) :
    (insertDesc r l).Pairwise (fun a b => dateDesc a b = true) := by
  induction l with
  | nil => simp [insertDesc]
  | cons x rest ih =>
    rw [List.pairwise_cons] at h
    unfold insertDesc
    split_ifs with hrx
    · rw [List.pairwise_cons]
      refine ⟨?_, List.pairwise_cons.mpr h⟩
      intro y hy
      rcases List.mem_cons.mp hy with rfl | hy
      · exact hrx
      · exact dateDesc_trans r x y hrx (h.1 y hy)
    · rw [List.pairwise_cons]
      refine ⟨?_, ih h.2⟩
      intro y hy
      rcases List.mem_cons.mp ((insertDesc_perm r rest).mem_iff.mp hy) with rfl | hy
      · unfold dateDesc at hrx ⊢
        simp only [Bool.not_eq_true, Bool.not_eq_false'] at hrx
        rw [textLt_asymm _ _ hrx]
        rfl
      · exact h.1 y hy

/-- The order `GetAllMovies` reads the rows in is an `ORDER BY date_added DESC`. -/
theorem orderByDateAddedDesc_ordered (db : Store) :
    isOrderedByDateAddedDesc db (orderByDateAddedDesc db) := by
  unfold isOrderedByDateAddedDesc orderByDateAddedDesc
  induction db with
  | nil => exact ⟨List.Perm.refl _, List.Pairwise.nil⟩
  | cons r rest ih =>
    simp only [List.foldr_cons]
    exact ⟨(insertDesc_perm r _).trans (List.Perm.cons r ih.1), insertDesc_pairwise r _ ih.2⟩

/-- In an ordered list a row that may not stand before another one stands after it. -/
theorem ordered_before (out : List Row) (r1 r2 : Row)
    (hp : out.Pairwise (fun a b => dateDesc a b = true)) (h1 : r1 ∈ out) (h2 : r2 ∈ out)
    (hlt : textLt r1.date_added.data r2.date_added.data = true) :
    ∃ a b c, out = a ++ r2 :: (b ++ r1 :: c) := by
  obtain ⟨a, rest, rfl⟩ := List.append_of_mem h2
  rw [List.pairwise_append] at hp
  have hne : r1 ≠ r2 := by
    rintro rfl
    rw [textLt_irrefl] at hlt
    exact absurd hlt (by simp)
  rcases List.mem_append.mp h1 with h | h
  · have := hp.2.2 r1 h r2 (List.mem_cons_self _ _)
    unfold dateDesc at this
    rw [hlt] at this
    exact absurd this (by simp)
  · rcases List.mem_cons.mp h with h | h
    · exact absurd h hne
    · obtain ⟨b, c, rfl⟩ := List.append_of_mem h
      exact ⟨a, b, c, rfl⟩

/-- C12 (amended): let the store hold the rows `AddMovie` wrote for one item at time
`t1` and for another at time `t2`, both calendar times with a four-digit year and the
same zone offset, the instant of `t1` in an earlier whole second than that of `t2`.
Then every `ORDER BY date_added DESC` of the store has the row of `t2` before the row
of `t1`, the order `GetAllMovies` uses is such an order, and `GetAllMovies` returns the
item of `t2` before the item of `t1`. -/
theorem C12_list_all_order (db : Store) (m1 m2 : Movie) (t1 t2 : Time)
    (h1 : rowOf m1 t1 ∈ db) (h2 : rowOf m2 t2 ∈ db) (hv1 : t1.valid) (hv2 : t2.valid)
    (hoff : t1.offset = t2.offset) (hlt : t1.instant < t2.instant) :
    (∀ out, isOrderedByDateAddedDesc db out →
      ∃ a b c, out = a ++ rowOf m2 t2 :: (b ++ rowOf m1 t1 :: c)) ∧
    isOrderedByDateAddedDesc db (orderByDateAddedDesc db) ∧
    ∃ a b c, GetAllMovies db none =
      (a ++ scanMovie (rowOf m2 t2) :: (b ++ scanMovie (rowOf m1 t1) :: c), none) := by
  have htext : textLt (rowOf m1 t1).date_added.data (rowOf m2 t2).date_added.data = true :=
    formatRFC3339_lt t1 t2 hv1 hv2 hoff hlt
  have hgen : ∀ out, isOrderedByDateAddedDesc db out →
      ∃ a b c, out = a ++ rowOf m2 t2 :: (b ++ rowOf m1 t1 :: c) := by
    intro out ⟨hperm, hpair⟩
    exact ordered_before out _ _ hpair (hperm.mem_iff.mpr h1) (hperm.mem_iff.mpr h2) htext
  refine ⟨hgen, orderByDateAddedDesc_ordered db, ?_⟩
  obtain ⟨a, b, c, habc⟩ := hgen _ (orderByDateAddedDesc_ordered db)
  refine ⟨a.map scanMovie, b.map scanMovie, c.map scanMovie, ?_⟩
  simp only [GetAllMovies, habc, List.map_append, List.map_cons]

/-- C12, an instance: two films stored one second apart under the same zone offset. -/
theorem C12_list_all_order_witness :
    (GetAllMovies (storedAt ⟨2024, 3, 5, 7, 8, 9, 0, 3600⟩ ⟨2024, 3, 5, 7, 8, 10, 0, 3600⟩)
      none).1.map (fun m => m.LetterboxdID) = ["/film/ran", "/film/heat"] ∧
    ∃ a b c, GetAllMovies (storedAt ⟨2024, 3, 5, 7, 8, 9, 0, 3600⟩ ⟨2024, 3, 5, 7, 8, 10, 0, 3600⟩)
        none =
      (a ++ scanMovie (rowOf ranMovie ⟨2024, 3, 5, 7, 8, 10, 0, 3600⟩) ::
        (b ++ scanMovie (rowOf dupMovie ⟨2024, 3, 5, 7, 8, 9, 0, 3600⟩) :: c), none) :=
  ⟨by decide,
   (C12_list_all_order (storedAt ⟨2024, 3, 5, 7, 8, 9, 0, 3600⟩ ⟨2024, 3, 5, 7, 8, 10, 0, 3600⟩)
     dupMovie ranMovie ⟨2024, 3, 5, 7, 8, 9, 0, 3600⟩ ⟨2024, 3, 5, 7, 8, 10, 0, 3600⟩
     (by decide) (by decide) (by decide) (by decide) rfl (by decide)).2.2⟩

/-- C12 as stated fails. When the clocks go back (02:30 at +02:00, then forty minutes
later 02:10 at +01:00) the later insert has the smaller text, so it is listed last by
every `ORDER BY date_added DESC`; and two inserts within one second have the same text,
so the text does not order them at all (here the earlier one is listed first). -/
theorem C12_counterexample :
    Time.before ⟨2024, 10, 27, 2, 30, 0, 0, 7200⟩ ⟨2024, 10, 27, 2, 10, 0, 0, 3600⟩ ∧
    Time.valid ⟨2024, 10, 27, 2, 30, 0, 0, 7200⟩ ∧ Time.valid ⟨2024, 10, 27, 2, 10, 0, 0, 3600⟩ ∧
    (storedAt ⟨2024, 10, 27, 2, 30, 0, 0, 7200⟩ ⟨2024, 10, 27, 2, 10, 0, 0, 3600⟩).map
      (fun r => (r.letterboxd_id, r.date_added)) =
      [("/film/heat", "2024-10-27T02:30:00+02:00"), ("/film/ran", "2024-10-27T02:10:00+01:00")] ∧
    textLt "2024-10-27T02:10:00+01:00".data "2024-10-27T02:30:00+02:00".data = true ∧
    (GetAllMovies (storedAt ⟨2024, 10, 27, 2, 30, 0, 0, 7200⟩ ⟨2024, 10, 27, 2, 10, 0, 0, 3600⟩)
      none).1.map (fun m => m.LetterboxdID) = ["/film/heat", "/film/ran"] ∧
    Time.before ⟨2024, 3, 5, 7, 8, 9, 100000000, 0⟩ ⟨2024, 3, 5, 7, 8, 9, 900000000, 0⟩ ∧
    formatRFC3339 ⟨2024, 3, 5, 7, 8, 9, 100000000, 0⟩ =
      formatRFC3339 ⟨2024, 3, 5, 7, 8, 9, 900000000, 0⟩ ∧
    (GetAllMovies (storedAt ⟨2024, 3, 5, 7, 8, 9, 100000000, 0⟩ ⟨2024, 3, 5, 7, 8, 9, 900000000, 0⟩)
      none).1.map (fun m => m.LetterboxdID) = ["/film/heat", "/film/ran"] := by
  decide

end Letterboxd
